import Mathlib

/-!
Verification development for the MIR use-after-free detector
(`use-after-free-detector`: `statement_parser.py`, `utils.py`, `variable.py`,
`function.py`, `basic_block.py`, `define_types.py`).

The Python code is shallowly embedded: `Variable` objects become records in a
per-function arena (`Func.vars`), object references become arena indices, and
Python exceptions (assertion failures, index errors) become `Except.error`.
Python string operations (`split`, `strip`, `startswith`, the concrete regular
expressions used by `utils.py`) are re-implemented structurally on `List Char`
so that every definition evaluates inside the kernel.
-/

/-- Python strings, modelled as character lists so all operations are
structurally recursive and kernel-evaluable. -/
abbrev Str := List Char

/-- Literal helper: the character data of a Lean string literal. -/
def strL (s : String) : Str := s.data

/-- `pat.isPrefixOf s`, Boolean, structural (Python `str.startswith`). -/
def startsWithL (pat s : Str) : Bool :=
  match pat, s with
  | [], _ => true
  | _ :: _, [] => false
  | p :: ps, c :: cs => p == c && startsWithL ps cs

/-- Python `str.endswith`. -/
def endsWithL (pat s : Str) : Bool :=
  startsWithL pat.reverse s.reverse

/-- Python `pat in s` (substring containment). -/
def containsSubL (pat s : Str) : Bool :=
  match s with
  | [] => startsWithL pat []
  | _ :: cs => startsWithL pat s || containsSubL pat cs

/-- Worker for `pySplitOn`; `fuel` bounds the recursion (one unit per
consumed character suffices). -/
def pySplitOnGo (sep : Str) : Nat → Str → Str → List Str
  | _, [], acc => [acc.reverse]
  | 0, s, acc => [acc.reverse ++ s]
  | Nat.succ fuel, c :: cs, acc =>
    if startsWithL sep (c :: cs) then
      acc.reverse :: pySplitOnGo sep fuel (List.drop (sep.length - 1) cs) []
    else
      pySplitOnGo sep fuel cs (c :: acc)

/-- Python `s.split(sep)` for a non-empty separator. -/
def pySplitOn (sep s : Str) : List Str :=
  if sep.isEmpty then [s] else pySplitOnGo sep s.length s []

/-- Python `s.strip(chars)`: remove characters of `cs` from both ends. -/
def pyStripChars (cs s : Str) : Str :=
  ((s.dropWhile (fun c => cs.contains c)).reverse.dropWhile
      (fun c => cs.contains c)).reverse

/-- Python `s.strip()`: remove whitespace from both ends. -/
def pyTrim (s : Str) : Str :=
  ((s.dropWhile Char.isWhitespace).reverse.dropWhile Char.isWhitespace).reverse

/-- Worker for `pyWords`. -/
def pyWordsGo : Str → Str → List Str
  | [], acc => if acc.isEmpty then [] else [acc.reverse]
  | c :: cs, acc =>
    if c.isWhitespace then
      if acc.isEmpty then pyWordsGo cs [] else acc.reverse :: pyWordsGo cs []
    else pyWordsGo cs (c :: acc)

/-- Python `s.split()` with no argument: split on whitespace runs,
dropping empty pieces. -/
def pyWords (s : Str) : List Str := pyWordsGo s []

/-- `re.search(r'_\d+', s)`: leftmost occurrence of `_` followed by at
least one digit; returns the matched text (`_` plus the maximal digit run). -/
def reSearchUnders : Str → Option Str
  | [] => none
  | c :: cs =>
    if c == '_' then
      let ds := cs.takeWhile Char.isDigit
      if ds.isEmpty then reSearchUnders cs else some ('_' :: ds)
    else reSearchUnders cs

/-- `utils.is_local_variable`: the `_\d+` pattern occurs somewhere in the
name. -/
def is_local_variable (s : Str) : Bool := (reSearchUnders s).isSome

/-- `utils.find_local_variable_name`: the text matched by `re.search(r'_\d+')`;
`none` models the assertion failure when the pattern is absent. -/
def find_local_variable_name (s : Str) : Option Str := reSearchUnders s

/-- `utils.find_global_variable_name_and_type`: `re.search(r'(.+): (.+)')`
with greedy groups — the split happens at the last `': '` that leaves a
non-empty name before it and a non-empty type after it.  The assertion on a
failed match becomes `Except.error`. -/
def find_global_variable_name_and_type (s : Str) :
    Except String (Str × Str) :=
  match ((List.range s.length).filter (fun i =>
      decide (1 ≤ i) && startsWithL (strL ": ") (s.drop i) &&
        decide (i + 2 < s.length))).getLast? with
  | some i => .ok (s.take i, s.drop (i + 2))
  | none => .error "AssertionError: find_global_variable_name_and_type"

/-- Does position `i` of `s` start the `\.(\d+): (.+)` tail of the
projection pattern (with a non-empty group before it)? -/
def projSplitP (s : Str) (i : Nat) : Bool :=
  match s.drop i with
  | '.' :: t =>
    let ds := t.takeWhile Char.isDigit
    let rest := t.dropWhile Char.isDigit
    decide (1 ≤ i) && !ds.isEmpty && startsWithL (strL ": ") rest &&
      decide (2 < rest.length)
  | _ => false

/-- `re.search(r'(.+)\.(\d+): (.+)', s)` with greedy groups: the literal dot
is the last position from which the tail pattern matches; returns
(group 1, group 2, group 3). -/
def projSplit (s : Str) : Option (Str × Str × Str) :=
  match ((List.range s.length).filter (projSplitP s)).getLast? with
  | some i =>
    let t := s.drop (i + 1)
    some (s.take i, t.takeWhile Char.isDigit,
      (t.dropWhile Char.isDigit).drop 2)
  | none => none

/-! ## Data model (`define_types.py`, `variable.py`) -/

/-- `define_types.VariableType`. -/
inductive VariableType where
  | Scalar | Object | Reference | Pointer | Unset
deriving DecidableEq, Repr

/-- `define_types.LifetimeState`. -/
inductive LifetimeState where
  | Alive | Terminated | Forgot | Uninitialized
deriving DecidableEq, Repr

/-- `define_types.StatementType`. -/
inductive StatementType where
  | Assignment | TerminateLifetime | Other | Unset
deriving DecidableEq, Repr

/-- `define_types.AssignmentType`. -/
inductive AssignmentType where
  | Regular | Reference | Dereference
deriving DecidableEq, Repr

/-- A value stored in `Variable.lifetime_state`.  Python enum members of
distinct `Enum` classes are never equal to each other, so the field — which
the code at one site sets to `StatementType.TerminateLifetime` — is modelled
as a tagged union whose decidable equality distinguishes the two enums. -/
inductive EnumVal where
  | ls (s : LifetimeState)
  | st (s : StatementType)
deriving DecidableEq, Repr

/-- `variable.scalars`. -/
def scalars : List Str :=
  [strL "i8", strL "i16", strL "i32", strL "i64", strL "u8", strL "u16",
   strL "u32", strL "u64", strL "isize", strL "usize", strL "bool",
   strL "&str"]

/-- `variable.Variable` as an arena record.  `reference_to`, `referenced_by`
and `children` hold arena indices instead of Python object references. -/
structure PVariable where
  name : Str
  type_name : Str
  type : VariableType
  lifetime_state : EnumVal
  reference_to : Option Nat
  referenced_by : List Nat
  children : List Nat
deriving DecidableEq, Repr

/-- `Variable.set_type`: kind classification from the type name. -/
def setTypeOf (type_name : Str) : VariableType :=
  if scalars.contains type_name then .Scalar
  else if startsWithL (strL "&") type_name then .Reference
  else if startsWithL (strL "*mut") type_name then .Pointer
  else if startsWithL (strL "*const") type_name then .Pointer
  else .Object

/-- `Variable.__init__`: fresh variable, `Alive`, no edges, no children. -/
def mkVariable (n t : Str) : PVariable :=
  { name := n, type_name := t, type := setTypeOf t,
    lifetime_state := .ls .Alive, reference_to := none,
    referenced_by := [], children := [] }

/-- `basic_block.BasicBlock` (name plus stripped statement lines). -/
structure BBlk where
  name : Str
  statements : List Str
deriving DecidableEq, Repr

/-- `function.Function`: the per-function state.  `vars` is the arena that
owns every `Variable`; the three maps and every edge refer into it by
index.  Python dicts preserve insertion order, hence association lists. -/
structure Func where
  name : Str
  filepath : Str
  basic_blocks : List BBlk
  args : List (Str × Nat)
  local_variables : List (Str × Nat)
  global_variables : List (Str × Nat)
  vars : List PVariable
deriving DecidableEq, Repr

/-- Arena read (a dangling index yields an inert default, which the code
never observes on the states it actually builds). -/
def getVar (f : Func) (i : Nat) : PVariable :=
  f.vars.getD i (mkVariable [] [])

/-- Arena write. -/
def setVar (f : Func) (i : Nat) (v : PVariable) : Func :=
  { f with vars := f.vars.set i v }

/-- Arena update. -/
def updVar (f : Func) (i : Nat) (g : PVariable → PVariable) : Func :=
  setVar f i (g (getVar f i))

/-- Allocate a fresh variable, returning its index. -/
def pushVar (f : Func) (v : PVariable) : Func × Nat :=
  ({ f with vars := f.vars ++ [v] }, f.vars.length)

/-- Python dict update: replace the binding in place, else append. -/
def dictInsert (d : List (Str × Nat)) (k : Str) (v : Nat) :
    List (Str × Nat) :=
  if d.any (fun p => p.1 == k) then
    d.map (fun p => if p.1 == k then (k, v) else p)
  else d ++ [(k, v)]

/-- Python dict lookup. -/
def dictFind (d : List (Str × Nat)) (k : Str) : Option Nat :=
  (d.find? (fun p => p.1 == k)).map (fun p => p.2)

/-- `Variable.set_lifetime_state`. -/
def set_lifetime_state (f : Func) (i : Nat) (s : EnumVal) : Func :=
  updVar f i (fun v => { v with lifetime_state := s })

/-- `Variable.reset`: state back to `Alive`, both edge fields cleared.
Note: it does not touch `children`, nor recurse into them. -/
def varReset (f : Func) (i : Nat) : Func :=
  updVar f i (fun v =>
    { v with lifetime_state := EnumVal.ls LifetimeState.Alive,
             reference_to := none, referenced_by := [] })

/-- `Variable.reset_type`. -/
def reset_type (f : Func) (i : Nat) (t : Str) : Func :=
  updVar f i (fun v => { v with type_name := t, type := setTypeOf t })

/-- `Variable.add_child_variable` (child given by arena index). -/
def add_child_variable (f : Func) (parent child : Nat) : Func :=
  updVar f parent (fun v => { v with children := v.children ++ [child] })

/-- `Variable.find_child_variable_by_name`. -/
def find_child_variable_by_name (f : Func) (parent : Nat) (n : Str) :
    Option Nat :=
  (getVar f parent).children.find? (fun c => (getVar f c).name == n)

/-- `Variable.is_dangling_pointer`: kind `Pointer`, a non-nil referent whose
lifetime state equals `LifetimeState.Terminated`. -/
def is_dangling_pointer (f : Func) (i : Nat) : Bool :=
  let v := getVar f i
  v.type == .Pointer &&
    (match v.reference_to with
     | some r => (getVar f r).lifetime_state == .ls .Terminated
     | none => false)

/-- `utils.set_reference`: set the forward edge, and append the reverse
edge when the new referent is non-nil. -/
def set_reference (f : Func) (i : Nat) (tgt : Option Nat) : Func :=
  let f1 := updVar f i (fun v => { v with reference_to := tgt })
  match tgt with
  | some t =>
    updVar f1 t (fun v => { v with referenced_by := v.referenced_by ++ [i] })
  | none => f1

/-! ## Function construction and maps (`function.py`) -/

/-- `Function.add_local_variable`: allocate a fresh `Variable` and bind it
in the local map (overwriting an existing binding of the same name). -/
def add_local_variable (f : Func) (n t : Str) : Func × Nat :=
  let (f1, i) := pushVar f (mkVariable n t)
  ({ f1 with local_variables := dictInsert f1.local_variables n i }, i)

/-- `Function.add_args`: a parameter is a local variable that is also bound,
by the same index, in the args map. -/
def add_args (f : Func) (n t : Str) : Func :=
  let (f1, i) := add_local_variable f n t
  { f1 with args := dictInsert f1.args n i }

/-- `Function.__init__`: empty maps and arena, then `add_args` for each
declared argument. -/
def mkFunction (name filepath : Str) (blocks : List BBlk)
    (argl : List (Str × Str)) : Func :=
  argl.foldl (fun f p => add_args f p.1 p.2)
    { name := name, filepath := filepath, basic_blocks := blocks,
      args := [], local_variables := [], global_variables := [], vars := [] }

/-- `Function.find_local_variable_by_name`. -/
def find_local_variable_by_name (f : Func) (n : Str) : Option Nat :=
  dictFind f.local_variables n

/-- `Function.find_global_variable_by_name`. -/
def find_global_variable_by_name (f : Func) (n : Str) : Option Nat :=
  dictFind f.global_variables n

/-- `Function.add_global_variable`. -/
def add_global_variable (f : Func) (n t : Str) : Func × Nat :=
  let (f1, i) := pushVar f (mkVariable n t)
  ({ f1 with global_variables := dictInsert f1.global_variables n i }, i)

/-- `Function.reset_variables_state`: `Variable.reset` on every local, then
on every global — and on nothing else (children are not in either map). -/
def reset_variables_state (f : Func) : Func :=
  let f1 := f.local_variables.foldl (fun acc p => varReset acc p.2) f
  f1.global_variables.foldl (fun acc p => varReset acc p.2) f1

/-! ## Statement classification (`statement_parser.py` statics) -/

/-- `statement_parser.skipping_functions`. -/
def skipping_functions : List Str :=
  [strL "discriminant", strL "Not", strL "Eq", strL "Box", strL "Gt",
   strL "CheckedSub", strL "Lt", strL "Len", strL "Div", strL "Ne",
   strL "Ge", strL "Le", strL "BitOr", strL "CheckedAdd", strL "BitAnd",
   strL "Rem", strL "CheckedMul", strL "CheckedShr", strL "CheckedShl",
   strL "[]", strL "Mul", strL "Sub", strL "Add"]

/-- `StatementParser.is_assignment`: the statement contains `' = '`. -/
def is_assignment (s : Str) : Bool := containsSubL (strL " = ") s

/-- `StatementParser.is_function_call`. -/
def is_function_call (s : Str) : Bool :=
  startsWithL (strL "const ") s && containsSubL (strL " -> ") s

/-- `StatementParser.is_const`; Python indexes `split()[0]`, so an
all-whitespace right-hand side raises `IndexError` (modelled as error). -/
def is_const (s : Str) : Except String Bool :=
  match pyWords s with
  | [] => .error "IndexError: is_const"
  | w :: _ =>
    .ok (containsSubL (strL "const") w && !containsSubL (strL " -> ") s)

/-- `StatementParser.is_variable_vector`. -/
def is_variable_vector (s : Str) : Bool :=
  if containsSubL (strL "const") s then false
  else startsWithL (strL "[") s && endsWithL (strL "]") s

/-- `StatementParser.should_skip`. -/
def should_skip (s : Str) : Bool :=
  skipping_functions.any (fun p => startsWithL p s)

/-! ## Place resolution (`utils.find_variable_name_and_type`) -/

/-- `utils.find_variable_name_and_type`: strip `&mut `/`&` (noting a
`Reference` mode), then split the projection pattern `(.+)\.(\d+): (.+)` if
present; a leading `*` on the innermost segment sets `Dereference` unless a
`Reference` was already seen.  Local roots carry no inline type; global
roots must carry `name: type` text or the assertion fires. -/
def find_variable_name_and_type (search0 : Str) :
    Except String (AssignmentType × List (Str × Option Str)) :=
  let p1 := if startsWithL (strL "&mut ") search0 then
      (AssignmentType.Reference, pyStripChars (strL "&mut ") search0)
    else (AssignmentType.Regular, search0)
  let p2 := if startsWithL (strL "&") p1.2 then
      (AssignmentType.Reference, pyStripChars (strL "&") p1.2)
    else p1
  let at2 := p2.1
  match projSplit p2.2 with
  | some g =>
    let parentStr := pyStripChars (strL ")") (pyStripChars (strL "(") g.1)
    let childName := pyStripChars (strL ")") (pyStripChars (strL "(") g.2.1)
    let childType := pyStripChars (strL ")") (pyStripChars (strL "(") g.2.2)
    let at3 := if startsWithL (strL "*") parentStr then
        (if at2 == AssignmentType.Regular then AssignmentType.Dereference
         else at2)
      else at2
    if is_local_variable parentStr then
      match find_local_variable_name parentStr with
      | some pn => .ok (at3, [(pn, none), (childName, some childType)])
      | none => .error "AssertionError: find_local_variable_name"
    else
      match find_global_variable_name_and_type parentStr with
      | .ok pr => .ok (at3, [(pr.1, some pr.2), (childName, some childType)])
      | .error e => .error e
  | none =>
    let vstr := pyStripChars (strL ")") (pyStripChars (strL "(") p2.2)
    let at3 := if startsWithL (strL "*") vstr then
        (if at2 == AssignmentType.Regular then AssignmentType.Dereference
         else at2)
      else at2
    if is_local_variable vstr then
      match find_local_variable_name vstr with
      | some vn => .ok (at3, [(vn, none)])
      | none => .error "AssertionError: find_local_variable_name"
    else
      match find_global_variable_name_and_type vstr with
      | .ok pr => .ok (at3, [(pr.1, some pr.2)])
      | .error e => .error e

/-! ## Statement interpretation (`statement_parser.py`) -/

/-- An inline use-after-free report from `find_source_variables`
(variable name, referent name, file path). -/
structure InlineFinding where
  var_name : Str
  ref_name : Str
  filepath : Str
deriving DecidableEq, Repr

/-- A path-terminal report from `detect_dangling_pointer_recursive`
(variable name, referent name). -/
structure TermFinding where
  var_name : Str
  ref_name : Str
deriving DecidableEq, Repr

/-- Resolve the root of a place chain inside `find_single_variable`:
locals must already exist (assertion), globals are created on first sight
(requiring inline type text). -/
def resolveRoot (f : Func) (rn : Str) (rt : Option Str) :
    Except String (Func × Nat) :=
  if is_local_variable rn then
    match find_local_variable_by_name f rn with
    | some i => .ok (f, i)
    | none => .error "AssertionError: local variable not found"
  else
    match find_global_variable_by_name f rn with
    | some i => .ok (f, i)
    | none =>
      match rt with
      | none => .error "AssertionError: global variable needs a type"
      | some t => .ok (add_global_variable f rn t)

/-- Resolve one projection step inside `find_single_variable`: a missing
child is created (requiring type text); an existing child has its type
rewritten when new type text is present. -/
def resolveChild (f : Func) (parent : Nat) (cn : Str) (ct : Option Str) :
    Except String (Func × Nat) :=
  match find_child_variable_by_name f parent cn with
  | none =>
    match ct with
    | none => .error "AssertionError: child variable needs a type"
    | some t =>
      let fi := pushVar f (mkVariable cn t)
      .ok (add_child_variable fi.1 parent fi.2, fi.2)
  | some ci =>
    match ct with
    | none => .ok (f, ci)
    | some t => .ok (reset_type f ci t, ci)

/-- Fold `resolveChild` over the tail of a place chain. -/
def resolveChain (f : Func) (root : Nat) :
    List (Str × Option Str) → Except String (Func × Nat)
  | [] => .ok (f, root)
  | (cn, ct) :: rest =>
    match resolveChild f root cn ct with
    | .ok fi => resolveChain fi.1 fi.2 rest
    | .error e => .error e

/-- `StatementParser.find_single_variable`: strip a `move ` marker, parse
the place text, resolve root and children; returns the resolved index, the
assignment mode and the moved flag. -/
def find_single_variable (f : Func) (search0 : Str) :
    Except String (Func × Nat × AssignmentType × Bool) :=
  let mv := if startsWithL (strL "move ") search0 then
      (true, pyStripChars (strL "move ") search0)
    else (false, search0)
  match find_variable_name_and_type mv.2 with
  | .error e => .error e
  | .ok avec =>
    match avec.2 with
    | [] => .error "empty place chain"
    | (rn, rt) :: rest =>
      match resolveRoot f rn rt with
      | .error e => .error e
      | .ok fi =>
        match resolveChain fi.1 fi.2 rest with
        | .error e => .error e
        | .ok fj => .ok (fj.1, fj.2, avec.1, mv.1)

/-- `StatementParser.find_multiple_variables`: split on `', '`, strip
brackets, resolve each element. -/
def find_multiple_variables (f : Func) (s : Str) :
    Except String (Func × List (Nat × AssignmentType × Bool)) :=
  (pySplitOn (strL ", ") s).foldl
    (fun acc tok =>
      match acc with
      | .error e => .error e
      | .ok fv =>
        match find_single_variable fv.1
            (pyStripChars (strL "]") (pyStripChars (strL "[") tok)) with
        | .error e => .error e
        | .ok r => .ok (r.1, fv.2 ++ [r.2]))
    (.ok (f, []))

/-- `StatementParser.find_source_variables`: classify the right-hand side.
Aggregates return early (before the dangling-pointer loop); only the final
single-place branch reaches the inline use-after-free check. -/
def find_source_variables (f : Func) (statement : Str) :
    Except String (Func × List (Nat × AssignmentType × Bool) ×
      List InlineFinding) :=
  let src_str := pyStripChars (strL ";")
    (pyTrim ((pySplitOn (strL " = ") statement).getD 1 []))
  if is_function_call src_str then .ok (f, [], [])
  else
    match is_const src_str with
    | .error e => .error e
    | .ok b =>
      if b then .ok (f, [], [])
      else if is_variable_vector src_str then
        match find_multiple_variables f src_str with
        | .error e => .error e
        | .ok fv => .ok (fv.1, fv.2, [])
      else
        match (if should_skip src_str then
            Except.ok (f, ([] : List (Nat × AssignmentType × Bool)))
          else
            match find_single_variable f src_str with
            | .error e => .error e
            | .ok r => .ok (r.1, [r.2])) with
        | .error e => .error e
        | .ok fv =>
          let fnds := fv.2.filterMap (fun sv =>
            if is_dangling_pointer fv.1 sv.1 then
              some { var_name := (getVar fv.1 sv.1).name,
                     ref_name :=
                       (getVar fv.1
                         ((getVar fv.1 sv.1).reference_to.getD 0)).name,
                     filepath := f.filepath }
            else none)
          .ok (fv.1, fv.2, fnds)

/-- The `src_str` prefix used by the function-call helpers: right-hand
side, trimmed, semicolons stripped, cut at `' -> '`. -/
def callSrcStr (statement : Str) : Str :=
  pyTrim ((pySplitOn (strL " -> ")
    (pyStripChars (strL ";")
      (pyTrim ((pySplitOn (strL " = ") statement).getD 1 [])))).getD 0 [])

/-- One child-resolution step of `get_function_operands` (unlike
`resolveChild`, an existing child keeps its recorded type). -/
def resolveChildOperand (f : Func) (root : Nat) (cn : Str)
    (ct : Option Str) : Except String (Func × Nat) :=
  match find_child_variable_by_name f root cn with
  | none =>
    match ct with
    | none => .error "AssertionError: child variable needs a type"
    | some t =>
      let fi := pushVar f (mkVariable cn t)
      .ok (add_child_variable fi.1 root fi.2, fi.2)
  | some ci => .ok (f, ci)

/-- Child-resolution loop of `get_function_operands`. -/
def resolveChainOperand (f : Func) (root : Nat) :
    List (Str × Option Str) → Except String (Func × Nat)
  | [] => .ok (f, root)
  | (cn, ct) :: rest =>
    match resolveChildOperand f root cn ct with
    | .error e => .error e
    | .ok fi => resolveChainOperand fi.1 fi.2 rest

/-- `StatementParser.get_function_operands`: operands are the `move <place>`
tokens of the call text.  No dangling-pointer check is performed here.  A
root that is not in the local map leaves `variable = None` in Python and
the immediately following attribute access raises; modelled as an error. -/
def get_function_operands (f : Func) (statement : Str) :
    Except String (Func × List Nat) :=
  let src_str := callSrcStr statement
  let tokens := pySplitOn (strL "move ") src_str
  if tokens.length == 1 then .ok (f, [])
  else
    tokens.tail.foldl
      (fun acc token =>
        match acc with
        | .error e => .error e
        | .ok fo =>
          let variable_str := pyTrim (pyStripChars (strL ")")
            (pyTrim ((pySplitOn (strL ", ") token).getD 0 [])))
          if !is_local_variable variable_str then
            .error "AssertionError: operand is not a local variable"
          else
            match find_variable_name_and_type variable_str with
            | .error e => .error e
            | .ok avec =>
              match avec.2 with
              | [] => .error "empty place chain"
              | (rn, _) :: rest =>
                match find_local_variable_by_name fo.1 rn with
                | none => .error "AttributeError: operand root is None"
                | some root =>
                  match resolveChainOperand fo.1 root rest with
                  | .error e => .error e
                  | .ok fr => .ok (fr.1, fo.2 ++ [fr.2]))
      (.ok (f, []))

/-- `StatementParser.do_forget_recursive`: children first, then the
variable itself, all set to `Forgot`.  `fuel` bounds the recursion depth;
children always carry larger arena indices than their parents, so any fuel
exceeding the arena size is enough. -/
def do_forget_recursive (fuel : Nat) (f : Func) (i : Nat) : Func :=
  match fuel with
  | 0 => f
  | Nat.succ fuel =>
    let f1 := (getVar f i).children.foldl
      (fun acc c => do_forget_recursive fuel acc c) f
    set_lifetime_state f1 i (.ls .Forgot)

/-- `StatementParser.handle_mem_forget`: if the call text mentions
`mem::forget`, assert a single operand and forget it recursively. -/
def handle_mem_forget (f : Func) (statement : Str) (operands : List Nat) :
    Except String Func :=
  if containsSubL (strL "mem::forget") (callSrcStr statement) then
    match operands with
    | [op] => .ok (do_forget_recursive (f.vars.length + 1) f op)
    | _ => .error "AssertionError: mem::forget expects one operand"
  else .ok f

/-- `StatementParser.handle_moving_recursive`: rebind everything that
referenced the source (or a descendant of it) to the destination. -/
def handle_moving_recursive (fuel : Nat) (f : Func) (src dest : Nat) :
    Func :=
  match fuel with
  | 0 => f
  | Nat.succ fuel =>
    let f1 := (getVar f src).children.foldl
      (fun acc c => handle_moving_recursive fuel acc c dest) f
    (getVar f1 src).referenced_by.foldl
      (fun acc r => set_reference acc r (some dest)) f1

/-- `StatementParser.do_single_variable_assignment`: the update table on
(destination kind, source kind, destination mode, source mode, moved).
The dereference-write branch stores `StatementType.TerminateLifetime` into
the referent's lifetime state — the wrong enum, exactly as the source
does. -/
def do_single_variable_assignment (f : Func) (dv : Nat)
    (dAT : AssignmentType) (sv : Option Nat) (sAT : AssignmentType)
    (moved : Bool) : Except String Func :=
  let dt := (getVar f dv).type
  if dt == .Scalar then .ok f
  else if dt == .Object then
    match sv with
    | none => .ok f
    | some s =>
      if (getVar f s).type == .Object && moved then
        .ok (handle_moving_recursive (f.vars.length + 1) f s dv)
      else .ok f
  else if dt == .Reference || dt == .Pointer then
    match sv with
    | none => .ok f
    | some s =>
      let st := (getVar f s).type
      if st == .Scalar then
        if dAT == .Dereference then .ok f
        else if sAT != .Reference then .ok f
        else .ok (set_reference f dv (some s))
      else if st == .Object then
        if dAT == .Regular then .ok (set_reference f dv (some s))
        else if dAT != .Dereference then
          .error "AssertionError: dest_assignment_type"
        else if sAT != .Regular then
          .error "AssertionError: src_assignment_type"
        else
          match (getVar f dv).reference_to with
          | some r =>
            let f1 := set_lifetime_state f r (.st .TerminateLifetime)
            .ok (set_reference f1 dv (some s))
          | none => .ok f
      else if st == .Reference || st == .Pointer then
        .ok (set_reference f dv ((getVar f s).reference_to))
      else .ok f
  else .ok f

/-- `StatementParser.find_destination_variable` (asserting the destination
is not `move`-marked). -/
def find_destination_variable (f : Func) (statement : Str) :
    Except String (Func × Nat × AssignmentType) :=
  match find_single_variable f ((pySplitOn (strL " = ") statement).getD 0 []) with
  | .error e => .error e
  | .ok r => if r.2.2.2 then .error "AssertionError: moved destination"
      else .ok (r.1, r.2.1, r.2.2.1)

/-- The aggregate branch of `parser_statement`: bind the i-th source to the
destination child keyed by the decimal text of i, creating missing
children with the source's type name. -/
def aggregateAssign (f : Func) (dv : Nat) (dAT : AssignmentType)
    (vec : List (Nat × AssignmentType × Bool)) : Except String Func :=
  (vec.foldl
    (fun acc sv =>
      match acc with
      | .error e => .error e
      | .ok fi =>
        let key := strL (Nat.repr fi.2)
        let childTypeName := (getVar fi.1 sv.1).type_name
        match find_child_variable_by_name fi.1 dv key with
        | some ci =>
          match do_single_variable_assignment fi.1 ci dAT (some sv.1)
              sv.2.1 sv.2.2 with
          | .error e => .error e
          | .ok f2 => .ok (f2, fi.2 + 1)
        | none =>
          let fc := pushVar fi.1 (mkVariable key childTypeName)
          let f2 := add_child_variable fc.1 dv fc.2
          match do_single_variable_assignment f2 fc.2 dAT (some sv.1)
              sv.2.1 sv.2.2 with
          | .error e => .error e
          | .ok f3 => .ok (f3, fi.2 + 1))
    (.ok (f, 0)) : Except String (Func × Nat)).map (fun fi => fi.1)

/-- The `' = '`-assignment half of `StatementParser.parser_statement`. -/
def parserAssignment (f : Func) (statement : Str) :
    Except String (Func × List InlineFinding) :=
  let tokens := pySplitOn (strL " = ") statement
  let tok0 := tokens.getD 0 []
  let tok1 := tokens.getD 1 []
  match find_destination_variable f statement with
  | .error e => .error e
  | .ok fd =>
    let dv := fd.2.1
    let dAT := fd.2.2
    let f2 := set_lifetime_state fd.1 dv (.ls .Alive)
    if should_skip tok0 || should_skip tok1 then .ok (f2, [])
    else if is_function_call tok1 then
      match get_function_operands f2 statement with
      | .error e => .error e
      | .ok fo =>
        match handle_mem_forget fo.1 statement fo.2 with
        | .error e => .error e
        | .ok f4 =>
          if ((getVar f4 dv).type == .Pointer ||
              (getVar f4 dv).type == .Reference) &&
              fo.2.length == 1 then
            let src := fo.2.getD 0 0
            if (getVar f4 src).type == .Pointer ||
                (getVar f4 src).type == .Reference then
              .ok (set_reference f4 dv ((getVar f4 src).reference_to), [])
            else .ok (f4, [])
          else .ok (f4, [])
    else
      match find_source_variables f2 statement with
      | .error e => .error e
      | .ok fsv =>
        let f3 := fsv.1
        let vec := fsv.2.1
        let fnds := fsv.2.2
        if vec.length > 1 then
          match aggregateAssign f3 dv dAT vec with
          | .error e => .error e
          | .ok f4 => .ok (f4, fnds)
        else
          match vec with
          | [sv] =>
            match do_single_variable_assignment f3 dv dAT (some sv.1)
                sv.2.1 sv.2.2 with
            | .error e => .error e
            | .ok f4 => .ok (f4, fnds)
          | _ =>
            match do_single_variable_assignment f3 dv dAT none
                .Regular false with
            | .error e => .error e
            | .ok f4 => .ok (f4, fnds)

/-- The `StorageDead` half of `StatementParser.parser_statement`: look up
the named local (assertion if undeclared); `Forgot` is sticky, anything
else becomes `Terminated`. -/
def parserStorageDead (f : Func) (statement : Str) : Except String Func :=
  if startsWithL (strL "StorageDead") statement then
    match (pySplitOn (strL "(") statement).get? 1 with
    | none => .error "IndexError: StorageDead operand"
    | some t =>
      let operand := (pySplitOn (strL ")") t).getD 0 []
      match find_local_variable_by_name f operand with
      | none => .error "AssertionError: StorageDead on unknown local"
      | some v =>
        if (getVar f v).lifetime_state == .ls .Forgot then .ok f
        else .ok (set_lifetime_state f v (.ls .Terminated))
  else .ok f

/-- `StatementParser.parser_statement`: strip the line comment (done in the
parser's constructor), run the assignment branch when `' = '` occurs, then
the `StorageDead` branch. -/
def parser_statement (f : Func) (raw : Str) :
    Except String (Func × List InlineFinding) :=
  let statement := (pySplitOn (strL "//") raw).getD 0 []
  match (if is_assignment statement then parserAssignment f statement
    else .ok (f, [])) with
  | .error e => .error e
  | .ok fr =>
    match parserStorageDead fr.1 statement with
    | .error e => .error e
    | .ok f2 => .ok (f2, fr.2)

/-! ## Path enumeration (`basic_block.find_successors`,
`Function.flatten_cfg`) -/

/-- Successor labels contributed by one statement:
`statement.split('->')[1].split('//')[0].strip().strip(';')`, then either a
`[disc: label, …]` switch list (an arm without `': '` raises `IndexError`)
or a single label beginning with `bb`. -/
def succOfStatement (statement : Str) : Option (List Str) :=
  let parts := pySplitOn (strL "->") statement
  if parts.length > 1 then
    let right := pyStripChars (strL ";")
      (pyTrim ((pySplitOn (strL "//") (parts.getD 1 [])).getD 0 []))
    if startsWithL (strL "[") right && endsWithL (strL "]") right then
      (pySplitOn (strL ", ") ((right.drop 1).dropLast)).foldr
        (fun token acc =>
          match acc, (pySplitOn (strL ": ") token).get? 1 with
          | some l, some nm => some (nm :: l)
          | _, _ => none)
        (some [])
    else if startsWithL (strL "bb") right then some [right]
    else some []
  else some []

/-- `BasicBlock.find_successors`: concatenate over the block's statements
(`none` models the `IndexError` on a malformed switch arm). -/
def find_successors (b : BBlk) : Option (List Str) :=
  b.statements.foldl
    (fun acc s =>
      match acc, succOfStatement s with
      | some l, some l2 => some (l ++ l2)
      | _, _ => none)
    (some [])

/-- The default block used for out-of-range reads. -/
def emptyBBlk : BBlk := { name := [], statements := [] }

/-- Name of the block at index `i`. -/
def blockNameAt (blocks : List BBlk) (i : Nat) : Str :=
  (blocks.getD i emptyBBlk).name

/-- `Function.find_basic_block_by_name` over a path
(paths hold arena indices into `blocks`): is some block of the path named
`s`? -/
def nameInPath (blocks : List BBlk) (p : List Nat) (s : Str) : Bool :=
  p.any (fun i => blockNameAt blocks i == s)

/-- `Function.find_basic_block_by_name` over the block list: index of the
first block with the given name. -/
def findBlockIdx (blocks : List BBlk) (s : Str) : Option Nat :=
  (List.range blocks.length).find? (fun i => blockNameAt blocks i == s)

/-- One pass of the successor loop inside `flatten_cfg`: append an
extension for every successor not already on the path (by name); the flag
records whether any extension was made.  `none` models the assertion on a
label that names no block. -/
def extendPaths (blocks : List BBlk) (cur : List Nat) (succs : List Str)
    (paths : List (List Nat)) : Option (List (List Nat) × Bool) :=
  succs.foldl
    (fun acc succ =>
      match acc with
      | none => none
      | some pr =>
        if nameInPath blocks cur succ then some pr
        else
          match findBlockIdx blocks succ with
          | none => none
          | some bi => some (pr.1 ++ [cur ++ [bi]], true))
    (some (paths, false))

/-- The `while idx != len(self.paths)` worklist loop of
`Function.flatten_cfg`.  `fuel` makes the unbounded Python loop a total
function; the termination theorem exhibits a sufficient fuel. -/
def flattenLoop (blocks : List BBlk) : Nat → List (List Nat) → Nat →
    Option (List (List Nat))
  | 0, _, _ => none
  | Nat.succ fuel, paths, idx =>
    if idx = paths.length then some paths
    else
      match paths.get? idx with
      | none => none
      | some cur =>
        match cur.getLast? with
        | none => none
        | some lastIdx =>
          match find_successors (blocks.getD lastIdx emptyBBlk) with
          | none => none
          | some succs =>
            match extendPaths blocks cur succs paths with
            | none => none
            | some pr =>
              if pr.2 then flattenLoop blocks fuel (pr.1.erase cur) 0
              else flattenLoop blocks fuel pr.1 (idx + 1)

/-- `Function.flatten_cfg`: start from the one-element path `[entry]`
(an empty block list raises `IndexError`). -/
def flatten_cfg (f : Func) (fuel : Nat) : Option (List (List Nat)) :=
  match f.basic_blocks with
  | [] => none
  | _ => flattenLoop f.basic_blocks fuel [[0]] 0

/-! ## Path interpretation and terminal detection (`function.py`) -/

/-- `Function.detect_dangling_pointer_recursive`: children first
(depth-first), then the variable itself. -/
def detect_dangling_pointer_recursive (fuel : Nat) (f : Func) (i : Nat) :
    List TermFinding :=
  match fuel with
  | 0 => []
  | Nat.succ fuel =>
    ((getVar f i).children.foldl
      (fun acc c => acc ++ detect_dangling_pointer_recursive fuel f c) [])
    ++ (if is_dangling_pointer f i then
        [{ var_name := (getVar f i).name,
           ref_name := (getVar f ((getVar f i).reference_to.getD 0)).name }]
      else [])

/-- The path-terminal sweep of `Function.parser_statements`: every global,
then every child subtree of every argument. -/
def terminal_detect (f : Func) : List TermFinding :=
  (f.global_variables.foldl
    (fun acc p =>
      acc ++ detect_dangling_pointer_recursive (f.vars.length + 1) f p.2)
    [])
  ++ (f.args.foldl
    (fun acc p =>
      acc ++ (getVar f p.2).children.foldl
        (fun a c =>
          a ++ detect_dangling_pointer_recursive (f.vars.length + 1) f c)
        [])
    [])

/-- Run every statement of every block of one path, in order. -/
def run_statements (f : Func) (flow : List BBlk) :
    Except String (Func × List InlineFinding) :=
  flow.foldl
    (fun acc bb =>
      bb.statements.foldl
        (fun acc2 s =>
          match acc2 with
          | .error e => .error e
          | .ok fr =>
            match parser_statement fr.1 s with
            | .error e => .error e
            | .ok fr2 => .ok (fr2.1, fr.2 ++ fr2.2))
        acc)
    (.ok (f, []))

/-- `Function.parser_statements`: for each path, reset the variable state,
interpret the path, then run the terminal detector; findings accumulate
across paths with no deduplication. -/
def parser_statements (f : Func) (flows : List (List BBlk)) :
    Except String (Func × List InlineFinding × List TermFinding) :=
  match flows with
  | [] => .ok (f, [], [])
  | flow :: rest =>
    match run_statements (reset_variables_state f) flow with
    | .error e => .error e
    | .ok fr =>
      let term := terminal_detect fr.1
      match parser_statements fr.1 rest with
      | .error e => .error e
      | .ok frest => .ok (frest.1, fr.2 ++ frest.2.1, term ++ frest.2.2)

/-! ## Arena lemmas -/

theorem vars_length_setVar (f : Func) (i : Nat) (v : PVariable) :
    (setVar f i v).vars.length = f.vars.length := by
  simp [setVar]

theorem vars_length_updVar (f : Func) (i : Nat) (g : PVariable → PVariable) :
    (updVar f i g).vars.length = f.vars.length := by
  simp [updVar, setVar]

theorem vars_length_pushVar (f : Func) (v : PVariable) :
    (pushVar f v).1.vars.length = f.vars.length + 1 := by
  simp [pushVar]

theorem getVar_setVar_self (f : Func) (i : Nat) (v : PVariable)
    (h : i < f.vars.length) : getVar (setVar f i v) i = v := by
  simp [getVar, setVar, List.getD_eq_getElem?_getD,
    List.getElem?_set_eq_of_lt, h]

theorem getVar_setVar_ne (f : Func) (i j : Nat) (v : PVariable)
    (h : i ≠ j) : getVar (setVar f i v) j = getVar f j := by
  simp [getVar, setVar, List.getD_eq_getElem?_getD, List.getElem?_set_ne h]

theorem getVar_updVar_self (f : Func) (i : Nat) (g : PVariable → PVariable)
    (h : i < f.vars.length) : getVar (updVar f i g) i = g (getVar f i) := by
  simp [updVar, getVar_setVar_self f i _ h]

theorem getVar_updVar_ne (f : Func) (i j : Nat) (g : PVariable → PVariable)
    (h : i ≠ j) : getVar (updVar f i g) j = getVar f j :=
  getVar_setVar_ne f i j _ h

theorem getVar_oob (f : Func) (i : Nat) (h : ¬ i < f.vars.length) :
    getVar f i = mkVariable [] [] := by
  have hn : f.vars[i]? = none := List.getElem?_eq_none (by omega)
  simp [getVar, List.getD_eq_getElem?_getD, hn]

theorem getVar_pushVar_lt (f : Func) (v : PVariable) (j : Nat)
    (h : j < f.vars.length) : getVar (pushVar f v).1 j = getVar f j := by
  simp [getVar, pushVar, List.getD_eq_getElem?_getD,
    List.getElem?_append_left h]

theorem getVar_pushVar_self (f : Func) (v : PVariable) :
    getVar (pushVar f v).1 f.vars.length = v := by
  simp [getVar, pushVar, List.getD_eq_getElem?_getD]

theorem setVar_fields (f : Func) (i : Nat) (v : PVariable) :
    (setVar f i v).args = f.args ∧
    (setVar f i v).local_variables = f.local_variables ∧
    (setVar f i v).global_variables = f.global_variables ∧
    (setVar f i v).filepath = f.filepath ∧
    (setVar f i v).basic_blocks = f.basic_blocks := by
  simp [setVar]

theorem pushVar_fields (f : Func) (v : PVariable) :
    (pushVar f v).1.args = f.args ∧
    (pushVar f v).1.local_variables = f.local_variables ∧
    (pushVar f v).1.global_variables = f.global_variables ∧
    (pushVar f v).1.filepath = f.filepath ∧
    (pushVar f v).1.basic_blocks = f.basic_blocks := by
  simp [pushVar]

theorem dictFind_dictInsert_self (d : List (Str × Nat)) (k : Str) (v : Nat) :
    dictFind (dictInsert d k v) k = some v := by
  unfold dictInsert
  by_cases h : d.any (fun p => p.1 == k)
  · simp only [h, if_true]
    induction d with
    | nil => simp at h
    | cons hd tl ih =>
      by_cases hk : hd.1 == k
      · simp [dictFind, List.find?, hk]
      · simp only [List.any_cons, hk, Bool.false_or] at h
        simpa [dictFind, List.find?, hk] using ih h
  · simp only [h, if_false]
    induction d with
    | nil => simp [dictFind, List.find?]
    | cons hd tl ih =>
      simp only [List.any_cons, Bool.or_eq_true, not_or] at h
      have h1 : (hd.1 == k) = false := by
        cases hh : hd.1 == k
        · rfl
        · exact absurd hh h.1
      simp only [List.cons_append, dictFind, List.find?, h1]
      exact ih h.2

theorem dictFind_map_replace (tl : List (Str × Nat)) (k n : Str)
    (v : Nat) (h : n ≠ k) :
    dictFind (tl.map (fun p => if p.1 == k then (k, v) else p)) n =
      dictFind tl n := by
  induction tl with
  | nil => rfl
  | cons hd tl ih =>
    cases hk : hd.1 == k with
    | true =>
      have h1 : (k == n) = false :=
        beq_eq_false_iff_ne.mpr (fun x => h x.symm)
      have h2 : (hd.1 == n) = false := by
        rw [beq_iff_eq.mp hk]; exact h1
      simp only [List.map_cons, hk, if_true, dictFind, List.find?, h1, h2]
      exact ih
    | false =>
      simp only [List.map_cons, hk, Bool.false_eq_true, if_false, dictFind,
        List.find?]
      cases hn : hd.1 == n
      · exact ih
      · rfl

theorem dictFind_append_single_ne (d : List (Str × Nat)) (k n : Str)
    (v : Nat) (h : n ≠ k) : dictFind (d ++ [(k, v)]) n = dictFind d n := by
  induction d with
  | nil =>
    have h1 : (k == n) = false := beq_eq_false_iff_ne.mpr (fun x => h x.symm)
    simp [dictFind, List.find?, h1]
  | cons hd tl ih =>
    simp only [List.cons_append, dictFind, List.find?]
    cases hn : hd.1 == n
    · exact ih
    · rfl

theorem dictFind_dictInsert_ne (d : List (Str × Nat)) (k n : Str) (v : Nat)
    (h : n ≠ k) : dictFind (dictInsert d k v) n = dictFind d n := by
  unfold dictInsert
  by_cases hh : d.any (fun p => p.1 == k)
  · simp only [hh, if_true]
    exact dictFind_map_replace d k n v h
  · simp only [hh, if_false]
    exact dictFind_append_single_ne d k n v h

/-! ## Reset characterization -/

/-- The record-level effect of `Variable.reset`. -/
def resetVarRec (v : PVariable) : PVariable :=
  { v with lifetime_state := EnumVal.ls LifetimeState.Alive,
           reference_to := none, referenced_by := [] }

theorem getVar_varReset (f : Func) (j i : Nat) :
    getVar (varReset f j) i =
      if i = j then resetVarRec (getVar f i) else getVar f i := by
  by_cases h : i = j
  · subst h
    by_cases hl : i < f.vars.length
    · simp [varReset, getVar_updVar_self f i _ hl, resetVarRec]
    · have h1 : getVar f i = mkVariable [] [] := getVar_oob f i hl
      have h2 : getVar (varReset f i) i = mkVariable [] [] := by
        have := getVar_oob (varReset f i) i
          (by simpa [varReset, vars_length_updVar] using hl)
        exact this
      simp only [if_true, h1, h2]
      rfl
  · simp [h, varReset, getVar_updVar_ne f j i _ (fun x => h x.symm)]

theorem varReset_fields (f : Func) (j : Nat) :
    (varReset f j).args = f.args ∧
    (varReset f j).local_variables = f.local_variables ∧
    (varReset f j).global_variables = f.global_variables ∧
    (varReset f j).vars.length = f.vars.length := by
  simp [varReset, updVar, setVar]

theorem resetVarRec_idem (v : PVariable) :
    resetVarRec (resetVarRec v) = resetVarRec v := rfl

/-- Characterization of a fold of `Variable.reset` over map entries. -/
theorem getVar_foldReset (l : List (Str × Nat)) (f : Func) (i : Nat) :
    getVar (l.foldl (fun acc p => varReset acc p.2) f) i =
      if l.any (fun p => p.2 == i) then resetVarRec (getVar f i)
      else getVar f i := by
  induction l generalizing f with
  | nil => simp
  | cons p rest ih =>
    simp only [List.foldl_cons, List.any_cons]
    rw [ih (varReset f p.2), getVar_varReset]
    by_cases h : i = p.2
    · subst h
      have hb : (p.2 == p.2) = true := beq_iff_eq.mpr rfl
      by_cases h2 : rest.any (fun q => q.2 == p.2)
      · simp [hb, h2, resetVarRec_idem]
      · simp [hb, h2]
    · have hb : (p.2 == i) = false :=
        beq_eq_false_iff_ne.mpr (fun x => h x.symm)
      simp only [if_neg h, hb, Bool.false_or]

theorem foldReset_fields (l : List (Str × Nat)) (f : Func) :
    ((l.foldl (fun acc p => varReset acc p.2) f).args = f.args ∧
     (l.foldl (fun acc p => varReset acc p.2) f).local_variables =
       f.local_variables ∧
     (l.foldl (fun acc p => varReset acc p.2) f).global_variables =
       f.global_variables ∧
     (l.foldl (fun acc p => varReset acc p.2) f).vars.length =
       f.vars.length) := by
  induction l generalizing f with
  | nil => exact ⟨rfl, rfl, rfl, rfl⟩
  | cons p rest ih =>
    simp only [List.foldl_cons]
    obtain ⟨a, b, c, d⟩ := ih (varReset f p.2)
    obtain ⟨a2, b2, c2, d2⟩ := varReset_fields f p.2
    exact ⟨a.trans a2, b.trans b2, c.trans c2, d.trans d2⟩

/-- Full characterization of `Function.reset_variables_state` on the
arena: exactly the indices bound in the local or global map are reset. -/
theorem getVar_reset_variables_state (f : Func) (i : Nat) :
    getVar (reset_variables_state f) i =
      if f.local_variables.any (fun p => p.2 == i) ||
         f.global_variables.any (fun p => p.2 == i) then
        resetVarRec (getVar f i)
      else getVar f i := by
  simp only [reset_variables_state]
  have h1 := getVar_foldReset f.local_variables f i
  obtain ⟨_, _, hg, _⟩ := foldReset_fields f.local_variables f
  rw [hg, getVar_foldReset, h1]
  by_cases hl : f.local_variables.any (fun p => p.2 == i)
  · by_cases hgl : f.global_variables.any (fun p => p.2 == i)
    · simp [hl, hgl, resetVarRec_idem]
    · simp [hl, hgl]
  · by_cases hgl : f.global_variables.any (fun p => p.2 == i)
    · simp [hl, hgl]
    · simp [hl, hgl]

theorem reset_variables_state_fields (f : Func) :
    (reset_variables_state f).args = f.args ∧
    (reset_variables_state f).local_variables = f.local_variables ∧
    (reset_variables_state f).global_variables = f.global_variables ∧
    (reset_variables_state f).vars.length = f.vars.length := by
  simp only [reset_variables_state]
  obtain ⟨a, b, c, d⟩ := foldReset_fields f.local_variables f
  obtain ⟨a2, b2, c2, d2⟩ :=
    foldReset_fields (f.local_variables.foldl
      (fun acc p => varReset acc p.2) f).global_variables
      (f.local_variables.foldl (fun acc p => varReset acc p.2) f)
  exact ⟨a2.trans a, b2.trans b, c2.trans c, d2.trans d⟩

/-! ## Concrete fixtures -/

instance instDecEqExcept {ε α : Type} [DecidableEq ε] [DecidableEq α] :
    DecidableEq (Except ε α) := fun a b =>
  match a, b with
  | .ok x, .ok y =>
    if h : x = y then .isTrue (by rw [h])
    else .isFalse (fun c => h (Except.ok.inj c))
  | .error x, .error y =>
    if h : x = y then .isTrue (by rw [h])
    else .isFalse (fun c => h (Except.error.inj c))
  | .ok _, .error _ => .isFalse (fun c => Except.noConfusion c)
  | .error _, .ok _ => .isFalse (fun c => Except.noConfusion c)

/-- Build a function with the given `let`-declared locals (as the line
parser would after reading the declaration header). -/
def mkLocalsFunc (name fp : String) (locals : List (String × String)) :
    Func :=
  locals.foldl (fun f p => (add_local_variable f (strL p.1) (strL p.2)).1)
    (mkFunction (strL name) (strL fp) [] [])

/-- Fixture for the dereference-write bug: `_1`/`_3` are objects, `_2` is a
pointer, `_4` observes `_1`. -/
def c2F : Func :=
  mkLocalsFunc "deref_write" "c2.mir"
    [("_1", "String"), ("_2", "*mut i32"), ("_3", "String"),
     ("_4", "*const i32")]

/-- `_2 = &_1; _4 = &_1; (*_2) = move _3;` run in sequence. -/
def c2Run : Except String (Func × List InlineFinding) :=
  match parser_statement c2F (strL "_2 = &_1;") with
  | .error e => .error e
  | .ok fr =>
    match parser_statement fr.1 (strL "_4 = &_1;") with
    | .error e => .error e
    | .ok fr2 => parser_statement fr2.1 (strL "(*_2) = move _3;")

/-- The state after `c2Run`. -/
def c2Final : Func :=
  match c2Run with
  | .ok fr => fr.1
  | .error _ => c2F

/-- C2, code bug: on the dereference-write `(*_2) = move _3;` with
`_2.reference_to = _1`, the code executes
`set_lifetime_state(StatementType.TerminateLifetime)` — a member of the
wrong enum — instead of `LifetimeState.Terminated`.  The referent `_1`
therefore never satisfies `lifetime_state == LifetimeState.Terminated`,
and the pointer `_4` that still points to `_1` is not reported as
dangling, although the spec's table demands that the referent's lifetime
be terminated (and hence later reads be detected). -/
theorem claim_c2_wrong_enum_on_deref_write :
    c2Run = .ok (c2Final, []) ∧
    (getVar c2Final 3).reference_to = some 0 ∧
    (getVar c2Final 0).lifetime_state =
      EnumVal.st StatementType.TerminateLifetime ∧
    (getVar c2Final 0).lifetime_state ≠
      EnumVal.ls LifetimeState.Terminated ∧
    is_dangling_pointer c2Final 3 = false := by
  refine ⟨by decide, by decide, by decide, by decide, by decide⟩

/-- Fixture with a single local. -/
def c8F : Func := mkLocalsFunc "tolerant" "c8.mir" [("_1", "i32")]

/-- C8, counterexample: a lifetime-end statement naming an undeclared
local does abort — `assert(variable is not None)` raises, the exception
propagates out of `parser_statement`. -/
theorem claim_c8_counterexample :
    parser_statement c8F (strL "StorageDead(_9);") =
      .error "AssertionError: StorageDead on unknown local" := by
  decide

/-- C8, amended: a line that is neither an assignment (no `' = '`) nor a
`StorageDead` marker is skipped — no exception, no finding, no state
change.  (Malformed lines that do enter those two branches can abort, as
the counterexample shows.) -/
theorem claim_c8_amended (f : Func) (raw : Str)
    (hA : is_assignment ((pySplitOn (strL "//") raw).getD 0 []) = false)
    (hS : startsWithL (strL "StorageDead")
      ((pySplitOn (strL "//") raw).getD 0 []) = false) :
    parser_statement f raw = .ok (f, []) := by
  simp only [parser_statement, hA, Bool.false_eq_true, if_false,
    parserStorageDead, hS]

/-- Witness for C8 (amended): the unrecognized line `resume;` leaves the
function untouched. -/
theorem claim_c8_amended_witness :
    is_assignment ((pySplitOn (strL "//") (strL "resume;")).getD 0 []) =
      false ∧
    startsWithL (strL "StorageDead")
      ((pySplitOn (strL "//") (strL "resume;")).getD 0 []) = false ∧
    parser_statement c8F (strL "resume;") = .ok (c8F, []) :=
  ⟨by decide, by decide,
    claim_c8_amended c8F (strL "resume;") (by decide) (by decide)⟩

/-- C3, amended: `reset_variables_state` restores exactly the variables
bound in the local and global maps to their post-construction state
(`Alive`, no edges, all other attributes untouched); every other arena
entry — in particular every child variable — is left completely
unchanged.  (The original claim's "children recursively" fails: see the
counterexample.) -/
theorem claim_c3_reset_roots_only (f : Func) (i : Nat) :
    ((f.local_variables.any (fun p => p.2 == i) ||
      f.global_variables.any (fun p => p.2 == i)) = true →
      getVar (reset_variables_state f) i = resetVarRec (getVar f i)) ∧
    ((f.local_variables.any (fun p => p.2 == i) ||
      f.global_variables.any (fun p => p.2 == i)) = false →
      getVar (reset_variables_state f) i = getVar f i) := by
  have h := getVar_reset_variables_state f i
  constructor
  · intro hc
    rw [h, if_pos hc]
  · intro hc
    rw [h, hc]
    simp

/-- Fixture for the reset counterexample: `_1` is an object that acquires
a child and is then `mem::forget`-ten. -/
def c3F : Func :=
  mkLocalsFunc "forget_child" "c3.mir"
    [("_1", "Foo"), ("_2", "i32"), ("_3", "i32"), ("_4", "()")]

/-- First basic block of the counterexample: create the child `_1.0`,
then forget `_1` (recursively). -/
def c3Block : BBlk :=
  { name := strL "bb0",
    statements :=
      [strL "_2 = (_1.0: i32);",
       strL "_4 = const core::mem::forget(move _1) -> [return: bb1, unwind: bb2];"] }

/-- The state after the first path of `[[c3Block], [c3Block]]`. -/
def c3Mid : Func :=
  match run_statements (reset_variables_state c3F) [c3Block] with
  | .ok fr => fr.1
  | .error _ => c3F

/-- C3, counterexample: after the first path, `_1`'s child (arena index 4,
created by the projection `(_1.0: i32)`) is in state `Forgot`.
`reset_variables_state c3Mid` is precisely the variable graph
`parser_statements` presents at the start of the second path, and the
child is still `Forgot` there — not `Alive` as the claim requires — since
`Variable.reset` is applied only to the map roots and never recurses into
`children`. -/
theorem claim_c3_counterexample :
    run_statements (reset_variables_state c3F) [c3Block] =
      .ok (c3Mid, []) ∧
    (getVar c3Mid 0).children = [4] ∧
    (parser_statements c3F [[c3Block], [c3Block]]).isOk = true ∧
    (getVar (reset_variables_state c3Mid) 4).lifetime_state =
      EnumVal.ls LifetimeState.Forgot ∧
    (getVar (reset_variables_state c3Mid) 4).lifetime_state ≠
      EnumVal.ls LifetimeState.Alive := by
  refine ⟨by decide, by decide, by decide, by decide, by decide⟩

/-- Witness for C3 (amended): on `c3Mid`, the root `_1` (index 0, bound in
the local map) is fully reset, while arena index 4 (the child, bound in no
map) is untouched. -/
theorem claim_c3_witness :
    ((c3Mid.local_variables.any (fun p => p.2 == 0) ||
      c3Mid.global_variables.any (fun p => p.2 == 0)) = true ∧
     getVar (reset_variables_state c3Mid) 0 = resetVarRec (getVar c3Mid 0)) ∧
    ((c3Mid.local_variables.any (fun p => p.2 == 4) ||
      c3Mid.global_variables.any (fun p => p.2 == 4)) = false ∧
     getVar (reset_variables_state c3Mid) 4 = getVar c3Mid 4) :=
  ⟨⟨by decide, (claim_c3_reset_roots_only c3Mid 0).1 (by decide)⟩,
   ⟨by decide, (claim_c3_reset_roots_only c3Mid 4).2 (by decide)⟩⟩

/-- C4: `Forgot` is sticky under lifetime-end statements — interpreting
any non-assignment `StorageDead` line leaves every variable whose state is
`Forgot` (the forgotten variable and all its descendants, after
`mem::forget`) in state `Forgot`: the branch either skips the named local
because its state is `Forgot`, or terminates a different variable. -/
theorem claim_c4_forget_sticky (f : Func) (raw : Str) (f' : Func)
    (res : List InlineFinding) (i : Nat)
    (hA : is_assignment ((pySplitOn (strL "//") raw).getD 0 []) = false)
    (hS : startsWithL (strL "StorageDead")
      ((pySplitOn (strL "//") raw).getD 0 []) = true)
    (hok : parser_statement f raw = .ok (f', res))
    (hf : (getVar f i).lifetime_state = EnumVal.ls LifetimeState.Forgot) :
    (getVar f' i).lifetime_state = EnumVal.ls LifetimeState.Forgot := by
  simp only [parser_statement, hA, Bool.false_eq_true, if_false,
    parserStorageDead, hS, if_true] at hok
  split at hok
  · exact absurd hok (by simp)
  · rename_i f2 heq
    simp only [Except.ok.injEq, Prod.mk.injEq] at hok
    rw [← hok.1]
    split at heq
    · exact absurd heq (by simp)
    · split at heq
      · exact absurd heq (by simp)
      · rename_i v hfind
        split at heq
        · rw [← Except.ok.inj heq, hf]
        · rename_i hne
          by_cases hiv : i = v
          · subst hiv
            rw [hf] at hne
            simp at hne
          · rw [← Except.ok.inj heq, set_lifetime_state,
              getVar_updVar_ne f v i _ (fun x => hiv x.symm), hf]

/-- Fixture for the C4 witness: `_1` already forgotten. -/
def c4WF : Func :=
  set_lifetime_state (mkLocalsFunc "w" "c4.mir" [("_1", "i32")]) 0
    (.ls .Forgot)

/-- Witness for C4: `StorageDead(_1);` on a forgotten `_1` leaves it
`Forgot`. -/
theorem claim_c4_witness :
    is_assignment
      ((pySplitOn (strL "//") (strL "StorageDead(_1);")).getD 0 []) =
      false ∧
    startsWithL (strL "StorageDead")
      ((pySplitOn (strL "//") (strL "StorageDead(_1);")).getD 0 []) =
      true ∧
    parser_statement c4WF (strL "StorageDead(_1);") = .ok (c4WF, []) ∧
    (getVar c4WF 0).lifetime_state = EnumVal.ls LifetimeState.Forgot :=
  ⟨by decide, by decide, by decide,
    claim_c4_forget_sticky c4WF (strL "StorageDead(_1);") c4WF [] 0
      (by decide) (by decide) (by decide) (by decide)⟩

/-! ## Lifetime preservation through place resolution -/

theorem setVar_oob (f : Func) (i : Nat) (v : PVariable)
    (h : ¬ i < f.vars.length) : setVar f i v = f := by
  simp [setVar, List.set_eq_of_length_le (le_of_not_lt h)]

/-- `getVar`-level behaviour of `set_lifetime_state` at its own index. -/
theorem lifetime_set_lifetime_state_self (f : Func) (i : Nat) (s : EnumVal) :
    (getVar (set_lifetime_state f i s) i).lifetime_state =
      if i < f.vars.length then s
      else (getVar f i).lifetime_state := by
  by_cases h : i < f.vars.length
  · simp [set_lifetime_state, getVar_updVar_self f i _ h, h]
  · simp [set_lifetime_state, updVar, setVar_oob f i _ h, h]

/-- Updates that do not touch `lifetime_state` preserve it pointwise. -/
theorem lifetime_updVar (f : Func) (i : Nat) (g : PVariable → PVariable)
    (h : ∀ v, (g v).lifetime_state = v.lifetime_state) (j : Nat) :
    (getVar (updVar f i g) j).lifetime_state =
      (getVar f j).lifetime_state := by
  by_cases hij : i = j
  · subst hij
    by_cases hl : i < f.vars.length
    · rw [getVar_updVar_self f i g hl]; exact h _
    · rw [updVar, setVar_oob f i _ hl]
  · rw [getVar_updVar_ne f i j g hij]

/-- Allocating a fresh variable does not change any observed
`lifetime_state` (a fresh variable is `Alive`, like the default). -/
theorem lifetime_pushVar (f : Func) (n t : Str) (j : Nat) :
    (getVar (pushVar f (mkVariable n t)).1 j).lifetime_state =
      (getVar f j).lifetime_state := by
  rcases Nat.lt_trichotomy j f.vars.length with h | h | h
  · rw [getVar_pushVar_lt f _ j h]
  · subst h
    rw [getVar_pushVar_self, getVar_oob f _ (lt_irrefl _)]
    rfl
  · rw [getVar_oob f j (by omega),
      getVar_oob (pushVar f (mkVariable n t)).1 j
        (by rw [vars_length_pushVar]; omega)]

/-- Pointwise equality of `lifetime_state` between two functions. -/
def LifeEq (f g : Func) : Prop :=
  ∀ j, (getVar g j).lifetime_state = (getVar f j).lifetime_state

theorem lifeEq_refl (f : Func) : LifeEq f f := fun _ => rfl

theorem lifeEq_trans {f g h : Func} (h1 : LifeEq f g) (h2 : LifeEq g h) :
    LifeEq f h := fun j => (h2 j).trans (h1 j)

theorem lifeEq_add_global (f : Func) (n t : Str) :
    LifeEq f (add_global_variable f n t).1 := by
  intro j
  simp only [add_global_variable]
  exact lifetime_pushVar f n t j

theorem lifeEq_add_child (f : Func) (p c : Nat) :
    LifeEq f (add_child_variable f p c) := by
  intro j
  unfold add_child_variable
  exact lifetime_updVar f p
    (fun v => { v with children := v.children ++ [c] }) (fun _ => rfl) j

theorem lifeEq_reset_type (f : Func) (i : Nat) (t : Str) :
    LifeEq f (reset_type f i t) := by
  intro j
  unfold reset_type
  exact lifetime_updVar f i
    (fun v => { v with type_name := t, type := setTypeOf t })
    (fun _ => rfl) j

theorem lifeEq_resolveRoot {f : Func} {rn : Str} {rt : Option Str}
    {r : Func × Nat} (h : resolveRoot f rn rt = .ok r) : LifeEq f r.1 := by
  unfold resolveRoot at h
  split at h
  · split at h
    · exact (Except.ok.inj h) ▸ lifeEq_refl f
    · exact absurd h (by simp)
  · split at h
    · exact (Except.ok.inj h) ▸ lifeEq_refl f
    · split at h
      · exact absurd h (by simp)
      · exact (Except.ok.inj h) ▸ lifeEq_add_global f rn _

theorem lifeEq_resolveChild {f : Func} {parent : Nat} {cn : Str}
    {ct : Option Str} {r : Func × Nat}
    (h : resolveChild f parent cn ct = .ok r) : LifeEq f r.1 := by
  unfold resolveChild at h
  split at h
  · split at h
    · exact absurd h (by simp)
    · rename_i t
      replace h := Except.ok.inj h
      rw [← h]
      refine lifeEq_trans (g := (pushVar f (mkVariable cn t)).1) ?_ ?_
      · intro j; exact lifetime_pushVar f cn t j
      · exact lifeEq_add_child _ _ _
  · split at h
    · exact (Except.ok.inj h) ▸ lifeEq_refl f
    · exact (Except.ok.inj h) ▸ lifeEq_reset_type f _ _

theorem lifeEq_resolveChain {f : Func} {root : Nat}
    {l : List (Str × Option Str)} {r : Func × Nat}
    (h : resolveChain f root l = .ok r) : LifeEq f r.1 := by
  induction l generalizing f root with
  | nil =>
    unfold resolveChain at h
    exact (Except.ok.inj h) ▸ lifeEq_refl f
  | cons p rest ih =>
    unfold resolveChain at h
    split at h
    · rename_i fi heq
      exact lifeEq_trans (lifeEq_resolveChild heq) (ih h)
    · exact absurd h (by simp)

theorem lifeEq_find_single_variable {f : Func} {s : Str}
    {r : Func × Nat × AssignmentType × Bool}
    (h : find_single_variable f s = .ok r) : LifeEq f r.1 := by
  unfold find_single_variable at h
  split at h <;>
  · dsimp only [] at h
    split at h
    · exact absurd h (by simp)
    · split at h
      · exact absurd h (by simp)
      · split at h
        · exact absurd h (by simp)
        · rename_i fi heq
          split at h
          · exact absurd h (by simp)
          · rename_i fj heq2
            replace h := Except.ok.inj h
            rw [← h]
            exact lifeEq_trans (lifeEq_resolveRoot heq)
              (lifeEq_resolveChain heq2)

theorem lifeEq_find_multiple_variables {f : Func} {s : Str}
    {r : Func × List (Nat × AssignmentType × Bool)}
    (h : find_multiple_variables f s = .ok r) : LifeEq f r.1 := by
  unfold find_multiple_variables at h
  generalize hl : pySplitOn (strL ", ") s = l at h
  clear hl
  have main : ∀ (l : List Str)
      (st : Except String (Func × List (Nat × AssignmentType × Bool)))
      (r : Func × List (Nat × AssignmentType × Bool)),
      l.foldl (fun acc tok =>
        match acc with
        | Except.error e => Except.error e
        | Except.ok fv =>
          match find_single_variable fv.1
              (pyStripChars (strL "]") (pyStripChars (strL "[") tok)) with
          | Except.error e => Except.error e
          | Except.ok r => Except.ok (r.1, fv.2 ++ [r.2])) st =
        Except.ok r →
      ∃ fv, st = Except.ok fv ∧ LifeEq fv.1 r.1 := by
    intro l
    induction l with
    | nil =>
      intro st r h
      simp only [List.foldl_nil] at h
      exact ⟨r, h, lifeEq_refl r.1⟩
    | cons tok rest ih =>
      intro st r h
      simp only [List.foldl_cons] at h
      obtain ⟨fv1, hst1, hl1⟩ := ih _ r h
      cases st with
      | error e => simp at hst1
      | ok fv0 =>
        dsimp only [] at hst1
        rcases hsv : find_single_variable fv0.1
            (pyStripChars (strL "]") (pyStripChars (strL "[") tok))
          with e | r2
        · rw [hsv] at hst1
          simp at hst1
        · rw [hsv] at hst1
          replace hst1 := Except.ok.inj hst1
          refine ⟨fv0, rfl, ?_⟩
          have h2 : LifeEq fv0.1 fv1.1 := by
            rw [← hst1]
            exact lifeEq_find_single_variable hsv
          exact lifeEq_trans h2 hl1
  obtain ⟨fv, hfv, hl2⟩ := main l (Except.ok (f, [])) r h
  replace hfv := Except.ok.inj hfv
  rw [← hfv] at hl2
  exact hl2

theorem lifeEq_find_source_variables {f : Func} {statement : Str}
    {r : Func × List (Nat × AssignmentType × Bool) × List InlineFinding}
    (h : find_source_variables f statement = .ok r) : LifeEq f r.1 := by
  unfold find_source_variables at h
  dsimp only [] at h
  by_cases h1 : is_function_call (pyStripChars (strL ";")
      (pyTrim ((pySplitOn (strL " = ") statement).getD 1 []))) = true
  · rw [if_pos h1] at h
    obtain rfl := Except.ok.inj h
    exact lifeEq_refl f
  · rw [if_neg h1] at h
    rcases hc : is_const (pyStripChars (strL ";")
        (pyTrim ((pySplitOn (strL " = ") statement).getD 1 []))) with e | b
    · rw [hc] at h; simp at h
    · rw [hc] at h
      dsimp only [] at h
      by_cases hb : b = true
      · rw [if_pos hb] at h
        obtain rfl := Except.ok.inj h
        exact lifeEq_refl f
      · rw [if_neg hb] at h
        by_cases hv : is_variable_vector (pyStripChars (strL ";")
            (pyTrim ((pySplitOn (strL " = ") statement).getD 1 []))) = true
        · rw [if_pos hv] at h
          rcases hm : find_multiple_variables f (pyStripChars (strL ";")
              (pyTrim ((pySplitOn (strL " = ") statement).getD 1 [])))
            with e | fv
          · rw [hm] at h; simp at h
          · rw [hm] at h
            dsimp only [] at h
            obtain rfl := Except.ok.inj h
            exact lifeEq_find_multiple_variables hm
        · rw [if_neg hv] at h
          by_cases hsk : should_skip (pyStripChars (strL ";")
              (pyTrim ((pySplitOn (strL " = ") statement).getD 1 []))) = true
          · rw [if_pos hsk] at h
            dsimp only [] at h
            obtain rfl := Except.ok.inj h
            exact lifeEq_refl f
          · rw [if_neg hsk] at h
            rcases hss : find_single_variable f (pyStripChars (strL ";")
                (pyTrim ((pySplitOn (strL " = ") statement).getD 1 [])))
              with e | r2
            · rw [hss] at h; simp at h
            · rw [hss] at h
              dsimp only [] at h
              obtain rfl := Except.ok.inj h
              exact lifeEq_find_single_variable hss

/-- The findings returned by `find_source_variables` are empty (call,
const, aggregate and skip branches) or exactly the dangling-pointer
filter over the resolved source list. -/
theorem findings_find_source_variables {f : Func} {statement : Str}
    {r : Func × List (Nat × AssignmentType × Bool) × List InlineFinding}
    (h : find_source_variables f statement = .ok r) :
    r.2.2 = [] ∨
    r.2.2 = r.2.1.filterMap (fun sv =>
      if is_dangling_pointer r.1 sv.1 then
        some { var_name := (getVar r.1 sv.1).name,
               ref_name :=
                 (getVar r.1 ((getVar r.1 sv.1).reference_to.getD 0)).name,
               filepath := f.filepath }
      else none) := by
  unfold find_source_variables at h
  dsimp only [] at h
  by_cases h1 : is_function_call (pyStripChars (strL ";")
      (pyTrim ((pySplitOn (strL " = ") statement).getD 1 []))) = true
  · rw [if_pos h1] at h
    obtain rfl := Except.ok.inj h
    left; rfl
  · rw [if_neg h1] at h
    rcases hc : is_const (pyStripChars (strL ";")
        (pyTrim ((pySplitOn (strL " = ") statement).getD 1 []))) with e | b
    · rw [hc] at h; simp at h
    · rw [hc] at h
      dsimp only [] at h
      by_cases hb : b = true
      · rw [if_pos hb] at h
        obtain rfl := Except.ok.inj h
        left; rfl
      · rw [if_neg hb] at h
        by_cases hv : is_variable_vector (pyStripChars (strL ";")
            (pyTrim ((pySplitOn (strL " = ") statement).getD 1 []))) = true
        · rw [if_pos hv] at h
          rcases hm : find_multiple_variables f (pyStripChars (strL ";")
              (pyTrim ((pySplitOn (strL " = ") statement).getD 1 [])))
            with e | fv
          · rw [hm] at h; simp at h
          · rw [hm] at h
            dsimp only [] at h
            obtain rfl := Except.ok.inj h
            left; rfl
        · rw [if_neg hv] at h
          by_cases hsk : should_skip (pyStripChars (strL ";")
              (pyTrim ((pySplitOn (strL " = ") statement).getD 1 []))) = true
          · rw [if_pos hsk] at h
            dsimp only [] at h
            obtain rfl := Except.ok.inj h
            left; rfl
          · rw [if_neg hsk] at h
            rcases hss : find_single_variable f (pyStripChars (strL ";")
                (pyTrim ((pySplitOn (strL " = ") statement).getD 1 [])))
              with e | r2
            · rw [hss] at h; simp at h
            · rw [hss] at h
              dsimp only [] at h
              obtain rfl := Except.ok.inj h
              right; rfl

/-- The source-evaluation stage of `parser_statement`'s assignment
branch, written as a function of the state in which the destination has
already been resolved and revived: right-hand-side classification
(`should_skip`, `is_function_call`, aggregate/const/single dispatch),
operand evaluation (`get_function_operands` for calls,
`find_source_variables` otherwise, the latter carrying the inline
dangling check) and the resulting update.  It is the spec-side stage
description to be compared with `parserAssignment`. -/
def parserAssignmentTail (f2 : Func) (dv : Nat) (dAT : AssignmentType)
    (statement : Str) : Except String (Func × List InlineFinding) :=
  let tokens := pySplitOn (strL " = ") statement
  let tok0 := tokens.getD 0 []
  let tok1 := tokens.getD 1 []
  if should_skip tok0 || should_skip tok1 then .ok (f2, [])
  else if is_function_call tok1 then
    match get_function_operands f2 statement with
    | .error e => .error e
    | .ok fo =>
      match handle_mem_forget fo.1 statement fo.2 with
      | .error e => .error e
      | .ok f4 =>
        if ((getVar f4 dv).type == .Pointer ||
            (getVar f4 dv).type == .Reference) &&
            fo.2.length == 1 then
          let src := fo.2.getD 0 0
          if (getVar f4 src).type == .Pointer ||
              (getVar f4 src).type == .Reference then
            .ok (set_reference f4 dv ((getVar f4 src).reference_to), [])
          else .ok (f4, [])
        else .ok (f4, [])
  else
    match find_source_variables f2 statement with
    | .error e => .error e
    | .ok fsv =>
      let f3 := fsv.1
      let vec := fsv.2.1
      let fnds := fsv.2.2
      if vec.length > 1 then
        match aggregateAssign f3 dv dAT vec with
        | .error e => .error e
        | .ok f4 => .ok (f4, fnds)
      else
        match vec with
        | [sv] =>
          match do_single_variable_assignment f3 dv dAT (some sv.1)
              sv.2.1 sv.2.2 with
          | .error e => .error e
          | .ok f4 => .ok (f4, fnds)
        | _ =>
          match do_single_variable_assignment f3 dv dAT none
              .Regular false with
          | .error e => .error e
          | .ok f4 => .ok (f4, fnds)

/-- C7: every successfully interpreted assignment statement factors
through the revival of its destination.  `parser_statement` first
resolves the destination place, immediately sets its lifetime state to
`Alive`, and only then runs the whole source-evaluation stage
(`parserAssignmentTail`) on that revived state — so the right-hand side
is classified as skippable, const, an aggregate or a function call, its
operands are resolved (`get_function_operands` in the call case,
`find_source_variables` with the inline dangling check otherwise), and
the update is performed, all strictly after the destination already
reads `Alive`. -/
theorem claim_c7_revive_before_sources (f : Func) (raw : Str)
    (r : Func × List InlineFinding)
    (hA : is_assignment ((pySplitOn (strL "//") raw).getD 0 []) = true)
    (h : parser_statement f raw = .ok r) :
    ∃ (fd : Func × Nat × AssignmentType) (ra : Func × List InlineFinding),
      find_destination_variable f
        ((pySplitOn (strL "//") raw).getD 0 []) = .ok fd ∧
      (getVar (set_lifetime_state fd.1 fd.2.1
        (EnumVal.ls LifetimeState.Alive)) fd.2.1).lifetime_state =
        EnumVal.ls LifetimeState.Alive ∧
      parserAssignmentTail
        (set_lifetime_state fd.1 fd.2.1 (EnumVal.ls LifetimeState.Alive))
        fd.2.1 fd.2.2 ((pySplitOn (strL "//") raw).getD 0 []) = .ok ra ∧
      parserStorageDead ra.1
        ((pySplitOn (strL "//") raw).getD 0 []) = .ok r.1 ∧
      r.2 = ra.2 := by
  unfold parser_statement at h
  dsimp only [] at h
  rw [hA] at h
  simp only [if_true] at h
  rcases hpa : parserAssignment f ((pySplitOn (strL "//") raw).getD 0 [])
    with e | ra
  · rw [hpa] at h
    simp at h
  · rw [hpa] at h
    dsimp only [] at h
    rcases hsd : parserStorageDead ra.1
        ((pySplitOn (strL "//") raw).getD 0 []) with e | f5
    · rw [hsd] at h
      simp at h
    · rw [hsd] at h
      replace h := Except.ok.inj h
      unfold parserAssignment at hpa
      dsimp only [] at hpa
      split at hpa
      · exact absurd hpa (by simp)
      · rename_i fd hfd
        refine ⟨fd, ra, hfd, ?_, ?_, ?_, ?_⟩
        · rw [lifetime_set_lifetime_state_self]
          by_cases hl : fd.2.1 < fd.1.vars.length
          · rw [if_pos hl]
          · rw [if_neg hl, getVar_oob fd.1 fd.2.1 hl]
            rfl
        · unfold parserAssignmentTail
          dsimp only []
          exact hpa
        · rw [← h]
          exact hsd
        · rw [← h]

/-- Fixture for the C7 witness: after `_2 = &_1; StorageDead(_1);` the
pointer `_2` dangles into the terminated `_1`. -/
def c7F : Func :=
  match run_statements
      (mkLocalsFunc "revive" "c7.mir" [("_1", "i32"), ("_2", "*const i32")])
      [{ name := strL "bb0",
         statements := [strL "_2 = &_1;", strL "StorageDead(_1);"] }] with
  | .ok fr => fr.1
  | .error _ =>
    mkLocalsFunc "revive" "c7.mir" [("_1", "i32"), ("_2", "*const i32")]

/-- The function-call assignment used by the C7 witness. -/
def c7Call : Str := strL "_1 = const foo(move _2) -> bb2;"

/-- Result of interpreting the call assignment from the dangling state. -/
def c7CallRes : Func × List InlineFinding :=
  match parser_statement c7F c7Call with
  | .ok r => r
  | .error _ => (c7F, [])

/-- Witness for C7: a function-call right-hand side evaluated while the
operand `_2` is a dangling pointer.  The interpretation factors through
the revival of the destination `_1`: the state handed to
`get_function_operands` already maps `_1` to `Alive`. -/
theorem claim_c7_witness :
    is_assignment ((pySplitOn (strL "//") c7Call).getD 0 []) = true ∧
    is_function_call ((pySplitOn (strL " = ")
      ((pySplitOn (strL "//") c7Call).getD 0 [])).getD 1 []) = true ∧
    is_dangling_pointer c7F 1 = true ∧
    parser_statement c7F c7Call = .ok c7CallRes ∧
    ∃ (fd : Func × Nat × AssignmentType)
      (ra : Func × List InlineFinding),
      find_destination_variable c7F
        ((pySplitOn (strL "//") c7Call).getD 0 []) = .ok fd ∧
      (getVar (set_lifetime_state fd.1 fd.2.1
        (EnumVal.ls LifetimeState.Alive)) fd.2.1).lifetime_state =
        EnumVal.ls LifetimeState.Alive ∧
      parserAssignmentTail
        (set_lifetime_state fd.1 fd.2.1 (EnumVal.ls LifetimeState.Alive))
        fd.2.1 fd.2.2 ((pySplitOn (strL "//") c7Call).getD 0 []) =
        .ok ra ∧
      parserStorageDead ra.1
        ((pySplitOn (strL "//") c7Call).getD 0 []) = .ok c7CallRes.1 ∧
      c7CallRes.2 = ra.2 :=
  ⟨by decide, by decide, by decide, by decide,
    claim_c7_revive_before_sources c7F c7Call c7CallRes (by decide)
      (by decide)⟩


/-! ## Map preservation and length monotonicity -/

/-- Every interpreter operation leaves the args and local maps untouched
and never shrinks the arena. -/
def Step (f g : Func) : Prop :=
  g.args = f.args ∧ g.local_variables = f.local_variables ∧
  f.vars.length ≤ g.vars.length

theorem step_refl (f : Func) : Step f f := ⟨rfl, rfl, le_refl _⟩

theorem step_trans {f g h : Func} (h1 : Step f g) (h2 : Step g h) :
    Step f h :=
  ⟨h2.1.trans h1.1, h2.2.1.trans h1.2.1, h1.2.2.trans h2.2.2⟩

theorem step_updVar (f : Func) (i : Nat) (g : PVariable → PVariable) :
    Step f (updVar f i g) :=
  ⟨rfl, rfl, by rw [vars_length_updVar]⟩

theorem step_pushVar (f : Func) (v : PVariable) :
    Step f (pushVar f v).1 :=
  ⟨rfl, rfl, by rw [vars_length_pushVar]; omega⟩

theorem step_add_global (f : Func) (n t : Str) :
    Step f (add_global_variable f n t).1 := by
  refine ⟨?_, ?_, ?_⟩ <;> simp [add_global_variable, pushVar]

theorem step_add_child (f : Func) (p c : Nat) :
    Step f (add_child_variable f p c) := step_updVar f p _

theorem step_reset_type (f : Func) (i : Nat) (t : Str) :
    Step f (reset_type f i t) := step_updVar f i _

theorem step_set_lifetime_state (f : Func) (i : Nat) (s : EnumVal) :
    Step f (set_lifetime_state f i s) := step_updVar f i _

theorem step_set_reference (f : Func) (i : Nat) (tgt : Option Nat) :
    Step f (set_reference f i tgt) := by
  unfold set_reference
  cases tgt with
  | none => exact step_updVar f i _
  | some t =>
    exact step_trans (step_updVar f i _) (step_updVar _ t _)

theorem step_resolveRoot {f : Func} {rn : Str} {rt : Option Str}
    {r : Func × Nat} (h : resolveRoot f rn rt = .ok r) : Step f r.1 := by
  unfold resolveRoot at h
  split at h
  · split at h
    · exact (Except.ok.inj h) ▸ step_refl f
    · exact absurd h (by simp)
  · split at h
    · exact (Except.ok.inj h) ▸ step_refl f
    · split at h
      · exact absurd h (by simp)
      · exact (Except.ok.inj h) ▸ step_add_global f rn _

theorem step_resolveChild {f : Func} {parent : Nat} {cn : Str}
    {ct : Option Str} {r : Func × Nat}
    (h : resolveChild f parent cn ct = .ok r) : Step f r.1 := by
  unfold resolveChild at h
  split at h
  · split at h
    · exact absurd h (by simp)
    · rename_i t
      replace h := Except.ok.inj h
      rw [← h]
      exact step_trans (step_pushVar f _) (step_add_child _ _ _)
  · split at h
    · exact (Except.ok.inj h) ▸ step_refl f
    · exact (Except.ok.inj h) ▸ step_reset_type f _ _

theorem step_resolveChain {f : Func} {root : Nat}
    {l : List (Str × Option Str)} {r : Func × Nat}
    (h : resolveChain f root l = .ok r) : Step f r.1 := by
  induction l generalizing f root with
  | nil =>
    unfold resolveChain at h
    exact (Except.ok.inj h) ▸ step_refl f
  | cons p rest ih =>
    unfold resolveChain at h
    split at h
    · rename_i fi heq
      exact step_trans (step_resolveChild heq) (ih h)
    · exact absurd h (by simp)

theorem step_find_single_variable {f : Func} {s : Str}
    {r : Func × Nat × AssignmentType × Bool}
    (h : find_single_variable f s = .ok r) : Step f r.1 := by
  unfold find_single_variable at h
  split at h <;>
  · dsimp only [] at h
    split at h
    · exact absurd h (by simp)
    · split at h
      · exact absurd h (by simp)
      · split at h
        · exact absurd h (by simp)
        · rename_i fi heq
          split at h
          · exact absurd h (by simp)
          · rename_i fj heq2
            replace h := Except.ok.inj h
            rw [← h]
            exact step_trans (step_resolveRoot heq) (step_resolveChain heq2)

theorem step_find_multiple_variables {f : Func} {s : Str}
    {r : Func × List (Nat × AssignmentType × Bool)}
    (h : find_multiple_variables f s = .ok r) : Step f r.1 := by
  unfold find_multiple_variables at h
  generalize hl : pySplitOn (strL ", ") s = l at h
  clear hl
  have main : ∀ (l : List Str)
      (st : Except String (Func × List (Nat × AssignmentType × Bool)))
      (r : Func × List (Nat × AssignmentType × Bool)),
      l.foldl (fun acc tok =>
        match acc with
        | Except.error e => Except.error e
        | Except.ok fv =>
          match find_single_variable fv.1
              (pyStripChars (strL "]") (pyStripChars (strL "[") tok)) with
          | Except.error e => Except.error e
          | Except.ok r => Except.ok (r.1, fv.2 ++ [r.2])) st =
        Except.ok r →
      ∃ fv, st = Except.ok fv ∧ Step fv.1 r.1 := by
    intro l
    induction l with
    | nil =>
      intro st r h
      simp only [List.foldl_nil] at h
      exact ⟨r, h, step_refl r.1⟩
    | cons tok rest ih =>
      intro st r h
      simp only [List.foldl_cons] at h
      obtain ⟨fv1, hst1, hl1⟩ := ih _ r h
      cases st with
      | error e => simp at hst1
      | ok fv0 =>
        dsimp only [] at hst1
        rcases hsv : find_single_variable fv0.1
            (pyStripChars (strL "]") (pyStripChars (strL "[") tok))
          with e | r2
        · rw [hsv] at hst1
          simp at hst1
        · rw [hsv] at hst1
          replace hst1 := Except.ok.inj hst1
          refine ⟨fv0, rfl, ?_⟩
          have h2 : Step fv0.1 fv1.1 := by
            rw [← hst1]
            exact step_find_single_variable hsv
          exact step_trans h2 hl1
  obtain ⟨fv, hfv, hl2⟩ := main l (Except.ok (f, [])) r h
  replace hfv := Except.ok.inj hfv
  rw [← hfv] at hl2
  exact hl2

theorem step_foldl {α : Type} (g : Func → α → Func)
    (hg : ∀ f a, Step f (g f a)) :
    ∀ (l : List α) (f : Func), Step f (l.foldl g f) := by
  intro l
  induction l with
  | nil => intro f; exact step_refl f
  | cons a rest ih => intro f; exact step_trans (hg f a) (ih (g f a))

theorem step_do_forget_recursive (fuel : Nat) :
    ∀ (f : Func) (i : Nat), Step f (do_forget_recursive fuel f i) := by
  induction fuel with
  | zero => intro f i; exact step_refl f
  | succ fuel ih =>
    intro f i
    unfold do_forget_recursive
    refine step_trans (step_foldl _ (fun f c => ih f c) _ f)
      (step_set_lifetime_state _ i _)

theorem step_handle_moving_recursive (fuel : Nat) :
    ∀ (f : Func) (src dest : Nat),
      Step f (handle_moving_recursive fuel f src dest) := by
  induction fuel with
  | zero => intro f src dest; exact step_refl f
  | succ fuel ih =>
    intro f src dest
    unfold handle_moving_recursive
    refine step_trans
      (step_foldl _ (fun f c => ih f c dest) _ f)
      (step_foldl _ (fun f r => step_set_reference f r (some dest)) _ _)

theorem step_do_single_variable_assignment {f : Func} {dv : Nat}
    {dAT : AssignmentType} {sv : Option Nat} {sAT : AssignmentType}
    {moved : Bool} {r : Func}
    (h : do_single_variable_assignment f dv dAT sv sAT moved = .ok r) :
    Step f r := by
  unfold do_single_variable_assignment at h
  dsimp only [] at h
  repeat' split at h
  all_goals
    first
      | exact Except.noConfusion h
      | (replace h := Except.ok.inj h
         subst h
         first
           | exact step_refl f
           | exact step_handle_moving_recursive _ f _ dv
           | exact step_set_reference f dv _
           | exact step_trans (step_set_lifetime_state f _ _)
               (step_set_reference _ dv _))

theorem step_resolveChildOperand {f : Func} {root : Nat} {cn : Str}
    {ct : Option Str} {r : Func × Nat}
    (h : resolveChildOperand f root cn ct = .ok r) : Step f r.1 := by
  unfold resolveChildOperand at h
  split at h
  · split at h
    · exact absurd h (by simp)
    · replace h := Except.ok.inj h
      rw [← h]
      exact step_trans (step_pushVar f _) (step_add_child _ root _)
  · exact (Except.ok.inj h) ▸ step_refl f

theorem step_resolveChainOperand {l : List (Str × Option Str)} :
    ∀ {f : Func} {root : Nat} {r : Func × Nat},
      resolveChainOperand f root l = .ok r → Step f r.1 := by
  induction l with
  | nil =>
    intro f root r h
    unfold resolveChainOperand at h
    exact (Except.ok.inj h) ▸ step_refl f
  | cons p rest ih =>
    intro f root r h
    unfold resolveChainOperand at h
    split at h
    · exact absurd h (by simp)
    · rename_i fi heq
      exact step_trans (step_resolveChildOperand heq) (ih h)

theorem step_get_function_operands {f : Func} {statement : Str}
    {r : Func × List Nat}
    (h : get_function_operands f statement = .ok r) : Step f r.1 := by
  unfold get_function_operands at h
  dsimp only [] at h
  split at h
  · exact (Except.ok.inj h) ▸ step_refl f
  · generalize hl : (pySplitOn (strL "move ") (callSrcStr statement)).tail
      = l at h
    clear hl
    have main : ∀ (l : List Str)
        (st : Except String (Func × List Nat)) (r : Func × List Nat),
        l.foldl (fun acc token =>
          match acc with
          | Except.error e => Except.error e
          | Except.ok fo =>
            if !is_local_variable (pyTrim (pyStripChars (strL ")")
                (pyTrim ((pySplitOn (strL ", ") token).getD 0 [])))) then
              Except.error "AssertionError: operand is not a local variable"
            else
              match find_variable_name_and_type
                  (pyTrim (pyStripChars (strL ")")
                    (pyTrim ((pySplitOn (strL ", ") token).getD 0 [])))) with
              | Except.error e => Except.error e
              | Except.ok avec =>
                match avec.2 with
                | [] => Except.error "empty place chain"
                | (rn, _) :: rest =>
                  match find_local_variable_by_name fo.1 rn with
                  | none =>
                    Except.error "AttributeError: operand root is None"
                  | some root =>
                    match resolveChainOperand fo.1 root rest with
                    | Except.error e => Except.error e
                    | Except.ok fr => Except.ok (fr.1, fo.2 ++ [fr.2])) st =
          Except.ok r →
        ∃ fv, st = Except.ok fv ∧ Step fv.1 r.1 := by
      intro l
      induction l with
      | nil =>
        intro st r h
        simp only [List.foldl_nil] at h
        exact ⟨r, h, step_refl r.1⟩
      | cons tok rest ih =>
        intro st r h
        simp only [List.foldl_cons] at h
        obtain ⟨fv1, hst1, hl1⟩ := ih _ r h
        cases st with
        | error e => simp at hst1
        | ok fv0 =>
          dsimp only [] at hst1
          refine ⟨fv0, rfl, ?_⟩
          split at hst1
          · simp at hst1
          · split at hst1
            · simp at hst1
            · split at hst1
              · simp at hst1
              · split at hst1
                · simp at hst1
                · rename_i root hroot
                  split at hst1
                  · simp at hst1
                  · rename_i fr hfr
                    replace hst1 := Except.ok.inj hst1
                    have h2 : Step fv0.1 fv1.1 := by
                      rw [← hst1]
                      exact step_resolveChainOperand hfr
                    exact step_trans h2 hl1
    obtain ⟨fv, hfv, hl2⟩ := main _ (Except.ok (f, [])) r h
    replace hfv := Except.ok.inj hfv
    rw [← hfv] at hl2
    exact hl2

theorem step_handle_mem_forget {f : Func} {statement : Str}
    {operands : List Nat} {r : Func}
    (h : handle_mem_forget f statement operands = .ok r) : Step f r := by
  unfold handle_mem_forget at h
  split at h
  · split at h
    · exact (Except.ok.inj h) ▸ step_do_forget_recursive _ f _
    · exact absurd h (by simp)
  · exact (Except.ok.inj h) ▸ step_refl f

theorem step_find_destination_variable {f : Func} {statement : Str}
    {r : Func × Nat × AssignmentType}
    (h : find_destination_variable f statement = .ok r) : Step f r.1 := by
  unfold find_destination_variable at h
  split at h
  · exact absurd h (by simp)
  · rename_i rr heq
    split at h
    · exact absurd h (by simp)
    · replace h := Except.ok.inj h
      rw [← h]
      exact step_find_single_variable heq

theorem step_aggregateAssign {f : Func} {dv : Nat} {dAT : AssignmentType}
    {vec : List (Nat × AssignmentType × Bool)} {r : Func}
    (h : aggregateAssign f dv dAT vec = .ok r) : Step f r := by
  unfold aggregateAssign at h
  rcases hfold : (vec.foldl
      (fun acc sv =>
        match acc with
        | Except.error e => Except.error e
        | Except.ok fi =>
          let key := strL (Nat.repr fi.2)
          let childTypeName := (getVar fi.1 sv.1).type_name
          match find_child_variable_by_name fi.1 dv key with
          | some ci =>
            match do_single_variable_assignment fi.1 ci dAT (some sv.1)
                sv.2.1 sv.2.2 with
            | .error e => .error e
            | .ok f2 => .ok (f2, fi.2 + 1)
          | none =>
            let fc := pushVar fi.1 (mkVariable key childTypeName)
            let f2 := add_child_variable fc.1 dv fc.2
            match do_single_variable_assignment f2 fc.2 dAT (some sv.1)
                sv.2.1 sv.2.2 with
            | .error e => .error e
            | .ok f3 => .ok (f3, fi.2 + 1))
      (.ok (f, 0)) : Except String (Func × Nat)) with e | fr
  · rw [hfold] at h
    exact Except.noConfusion h
  · rw [hfold] at h
    dsimp only [Except.map] at h
    replace h := Except.ok.inj h
    have main : ∀ (l : List (Nat × AssignmentType × Bool))
        (st : Except String (Func × Nat)) (fr : Func × Nat),
        l.foldl (fun acc sv =>
          match acc with
          | Except.error e => Except.error e
          | Except.ok fi =>
            let key := strL (Nat.repr fi.2)
            let childTypeName := (getVar fi.1 sv.1).type_name
            match find_child_variable_by_name fi.1 dv key with
            | some ci =>
              match do_single_variable_assignment fi.1 ci dAT (some sv.1)
                  sv.2.1 sv.2.2 with
              | .error e => .error e
              | .ok f2 => .ok (f2, fi.2 + 1)
            | none =>
              let fc := pushVar fi.1 (mkVariable key childTypeName)
              let f2 := add_child_variable fc.1 dv fc.2
              match do_single_variable_assignment f2 fc.2 dAT (some sv.1)
                  sv.2.1 sv.2.2 with
              | .error e => .error e
              | .ok f3 => .ok (f3, fi.2 + 1)) st = Except.ok fr →
        ∃ fv, st = Except.ok fv ∧ Step fv.1 fr.1 := by
      intro l
      induction l with
      | nil =>
        intro st fr h
        simp only [List.foldl_nil] at h
        exact ⟨fr, h, step_refl fr.1⟩
      | cons sv rest ih =>
        intro st fr h
        simp only [List.foldl_cons] at h
        obtain ⟨fv1, hst1, hl1⟩ := ih _ fr h
        cases st with
        | error e => simp at hst1
        | ok fi0 =>
          dsimp only [] at hst1
          refine ⟨fi0, rfl, ?_⟩
          split at hst1
          · rename_i ci hci
            split at hst1
            · simp at hst1
            · rename_i f2 hdsa
              replace hst1 := Except.ok.inj hst1
              have h2 : Step fi0.1 fv1.1 := by
                rw [← hst1]
                exact step_do_single_variable_assignment hdsa
              exact step_trans h2 hl1
          · split at hst1
            · simp at hst1
            · rename_i f3 hdsa
              replace hst1 := Except.ok.inj hst1
              have h2 : Step fi0.1 fv1.1 := by
                rw [← hst1]
                exact step_trans
                  (step_trans (step_pushVar fi0.1 _)
                    (step_add_child _ dv _))
                  (step_do_single_variable_assignment hdsa)
              exact step_trans h2 hl1
    obtain ⟨fv, hfv, hl2⟩ := main vec (Except.ok (f, 0)) fr hfold
    replace hfv := Except.ok.inj hfv
    rw [← hfv] at hl2
    rw [← h]
    exact hl2

theorem step_find_source_variables {f : Func} {statement : Str}
    {r : Func × List (Nat × AssignmentType × Bool) × List InlineFinding}
    (h : find_source_variables f statement = .ok r) : Step f r.1 := by
  unfold find_source_variables at h
  dsimp only [] at h
  by_cases h1 : is_function_call (pyStripChars (strL ";")
      (pyTrim ((pySplitOn (strL " = ") statement).getD 1 []))) = true
  · rw [if_pos h1] at h
    obtain rfl := Except.ok.inj h
    exact step_refl f
  · rw [if_neg h1] at h
    rcases hc : is_const (pyStripChars (strL ";")
        (pyTrim ((pySplitOn (strL " = ") statement).getD 1 []))) with e | b
    · rw [hc] at h; simp at h
    · rw [hc] at h
      dsimp only [] at h
      by_cases hb : b = true
      · rw [if_pos hb] at h
        obtain rfl := Except.ok.inj h
        exact step_refl f
      · rw [if_neg hb] at h
        by_cases hv : is_variable_vector (pyStripChars (strL ";")
            (pyTrim ((pySplitOn (strL " = ") statement).getD 1 []))) = true
        · rw [if_pos hv] at h
          rcases hm : find_multiple_variables f (pyStripChars (strL ";")
              (pyTrim ((pySplitOn (strL " = ") statement).getD 1 [])))
            with e | fv
          · rw [hm] at h; simp at h
          · rw [hm] at h
            dsimp only [] at h
            obtain rfl := Except.ok.inj h
            exact step_find_multiple_variables hm
        · rw [if_neg hv] at h
          by_cases hsk : should_skip (pyStripChars (strL ";")
              (pyTrim ((pySplitOn (strL " = ") statement).getD 1 []))) = true
          · rw [if_pos hsk] at h
            dsimp only [] at h
            obtain rfl := Except.ok.inj h
            exact step_refl f
          · rw [if_neg hsk] at h
            rcases hss : find_single_variable f (pyStripChars (strL ";")
                (pyTrim ((pySplitOn (strL " = ") statement).getD 1 [])))
              with e | r2
            · rw [hss] at h; simp at h
            · rw [hss] at h
              dsimp only [] at h
              obtain rfl := Except.ok.inj h
              exact step_find_single_variable hss

theorem step_parserStorageDead {f : Func} {statement : Str} {r : Func}
    (h : parserStorageDead f statement = .ok r) : Step f r := by
  unfold parserStorageDead at h
  split at h
  · split at h
    · exact absurd h (by simp)
    · dsimp only [] at h
      split at h
      · exact absurd h (by simp)
      · split at h
        · exact (Except.ok.inj h) ▸ step_refl f
        · exact (Except.ok.inj h) ▸ step_set_lifetime_state f _ _
  · exact (Except.ok.inj h) ▸ step_refl f

theorem step_parserAssignment {f : Func} {statement : Str}
    {r : Func × List InlineFinding}
    (h : parserAssignment f statement = .ok r) : Step f r.1 := by
  unfold parserAssignment at h
  dsimp only [] at h
  split at h
  · exact absurd h (by simp)
  · rename_i fd hfd
    have h1 : Step f (set_lifetime_state fd.1 fd.2.1
        (EnumVal.ls LifetimeState.Alive)) :=
      step_trans (step_find_destination_variable hfd)
        (step_set_lifetime_state _ _ _)
    split at h
    · obtain rfl := Except.ok.inj h
      exact h1
    · split at h
      · split at h
        · exact absurd h (by simp)
        · rename_i fo hfo
          split at h
          · exact absurd h (by simp)
          · rename_i f4 hmf
            have h2 : Step f f4 :=
              step_trans h1 (step_trans (step_get_function_operands hfo)
                (step_handle_mem_forget hmf))
            split at h
            · split at h
              · obtain rfl := Except.ok.inj h
                exact step_trans h2 (step_set_reference f4 _ _)
              · obtain rfl := Except.ok.inj h
                exact h2
            · obtain rfl := Except.ok.inj h
              exact h2
      · split at h
        · exact absurd h (by simp)
        · rename_i fsv hfsv
          have h2 : Step f fsv.1 :=
            step_trans h1 (step_find_source_variables hfsv)
          split at h
          · split at h
            · exact absurd h (by simp)
            · rename_i f4 hagg
              obtain rfl := Except.ok.inj h
              exact step_trans h2 (step_aggregateAssign hagg)
          · split at h
            · split at h
              · exact absurd h (by simp)
              · rename_i f4 hdsa
                obtain rfl := Except.ok.inj h
                exact step_trans h2
                  (step_do_single_variable_assignment hdsa)
            · split at h
              · exact absurd h (by simp)
              · rename_i f4 hdsa
                obtain rfl := Except.ok.inj h
                exact step_trans h2
                  (step_do_single_variable_assignment hdsa)

/-- `parser_statement` never touches the args or local maps and never
shrinks the arena. -/
theorem step_parser_statement {f : Func} {raw : Str}
    {r : Func × List InlineFinding}
    (h : parser_statement f raw = .ok r) : Step f r.1 := by
  unfold parser_statement at h
  dsimp only [] at h
  split at h
  · exact Except.noConfusion h
  · rename_i fr hpa
    split at h
    · exact Except.noConfusion h
    · rename_i f2 hsd
      obtain rfl := Except.ok.inj h
      split at hpa
      · exact step_trans (step_parserAssignment hpa)
          (step_parserStorageDead hsd)
      · obtain rfl := Except.ok.inj hpa
        exact step_parserStorageDead hsd

/-! ## C9: parameters live in the local map -/

theorem add_args_maps (f : Func) (n t : Str) :
    (add_args f n t).args = dictInsert f.args n f.vars.length ∧
    (add_args f n t).local_variables =
      dictInsert f.local_variables n f.vars.length := by
  constructor <;> simp [add_args, add_local_variable, pushVar]

/-- The args-map/local-map agreement invariant. -/
def ArgsSubLocals (f : Func) : Prop :=
  ∀ n i, dictFind f.args n = some i →
    dictFind f.local_variables n = some i

theorem argsSubLocals_add_args (f : Func) (n t : Str)
    (h : ArgsSubLocals f) : ArgsSubLocals (add_args f n t) := by
  intro m i hm
  obtain ⟨ha, hl⟩ := add_args_maps f n t
  rw [ha] at hm
  rw [hl]
  by_cases hmn : m = n
  · subst hmn
    rw [dictFind_dictInsert_self] at hm
    rw [dictFind_dictInsert_self]
    exact hm
  · rw [dictFind_dictInsert_ne _ _ _ _ hmn] at hm
    rw [dictFind_dictInsert_ne _ _ _ _ hmn]
    exact h m i hm

/-- C9: every parameter of a `Function` is bound — by the same arena
index — in both the args map and the local map at construction time
(`add_args` stores the very variable that `add_local_variable` created),
and the binding survives every operation: `parser_statement` never
modifies either map, and the per-path reset leaves both maps intact (so
parameter places resolve through the local lookup, `StorageDead` applies
to parameters, and the reset covers them). -/
theorem claim_c9_params_are_locals :
    (∀ (fn fp : Str) (blocks : List BBlk) (argl : List (Str × Str))
      (n : Str) (i : Nat),
      dictFind (mkFunction fn fp blocks argl).args n = some i →
      dictFind (mkFunction fn fp blocks argl).local_variables n = some i) ∧
    (∀ (f : Func) (raw : Str) (r : Func × List InlineFinding),
      parser_statement f raw = .ok r →
      r.1.args = f.args ∧ r.1.local_variables = f.local_variables) ∧
    (∀ f : Func, (reset_variables_state f).args = f.args ∧
      (reset_variables_state f).local_variables = f.local_variables) := by
  refine ⟨?_, ?_, ?_⟩
  · intro fn fp blocks argl
    suffices h : ArgsSubLocals (mkFunction fn fp blocks argl) from h
    have main : ∀ (argl : List (Str × Str)) (f0 : Func),
        ArgsSubLocals f0 →
        ArgsSubLocals (argl.foldl (fun f p => add_args f p.1 p.2) f0) := by
      intro argl
      induction argl with
      | nil => intro f0 h; simpa using h
      | cons p rest ih =>
        intro f0 h
        simp only [List.foldl_cons]
        exact ih _ (argsSubLocals_add_args f0 p.1 p.2 h)
    unfold mkFunction
    apply main
    intro n i hn
    simp [dictFind] at hn
  · intro f raw r h
    obtain ⟨ha, hl, _⟩ := step_parser_statement h
    exact ⟨ha, hl⟩
  · intro f
    obtain ⟨ha, hl, _, _⟩ := reset_variables_state_fields f
    exact ⟨ha, hl⟩

/-- Witness for C9: a concrete one-parameter function; `_1` is bound at
index 0 in both maps, and an interpreted statement and a reset keep both
maps unchanged. -/
theorem claim_c9_witness :
    dictFind (mkFunction (strL "f") (strL "f.mir") []
      [(strL "_1", strL "i32")]).args (strL "_1") = some 0 ∧
    dictFind (mkFunction (strL "f") (strL "f.mir") []
      [(strL "_1", strL "i32")]).local_variables (strL "_1") = some 0 ∧
    (parser_statement (mkFunction (strL "f") (strL "f.mir") []
        [(strL "_1", strL "i32")]) (strL "resume;") =
      .ok (mkFunction (strL "f") (strL "f.mir") []
        [(strL "_1", strL "i32")], [])) ∧
    ((mkFunction (strL "f") (strL "f.mir") []
      [(strL "_1", strL "i32")]).args =
      (mkFunction (strL "f") (strL "f.mir") []
        [(strL "_1", strL "i32")]).args ∧
     (reset_variables_state (mkFunction (strL "f") (strL "f.mir") []
        [(strL "_1", strL "i32")])).local_variables =
      (mkFunction (strL "f") (strL "f.mir") []
        [(strL "_1", strL "i32")]).local_variables) :=
  ⟨by decide,
   claim_c9_params_are_locals.1 (strL "f") (strL "f.mir") []
     [(strL "_1", strL "i32")] (strL "_1") 0 (by decide),
   by decide,
   rfl,
   (claim_c9_params_are_locals.2.2 (mkFunction (strL "f") (strL "f.mir")
     [] [(strL "_1", strL "i32")])).2⟩

/-! ## C1: inline detection scope -/

/-- Fixture for the C1 counterexample. -/
def c1F : Func :=
  mkLocalsFunc "call_operand" "c1.mir"
    [("_1", "i32"), ("_2", "*const i32"), ("_3", "()")]

/-- State after `_2 = &_1; StorageDead(_1);`: the pointer `_2` dangles. -/
def c1Mid : Func :=
  match run_statements c1F
      [{ name := strL "bb0",
         statements := [strL "_2 = &_1;", strL "StorageDead(_1);"] }] with
  | .ok fr => fr.1
  | .error _ => c1F

/-- State after additionally interpreting the call statement. -/
def c1Post : Func :=
  match parser_statement c1Mid
      (strL "_3 = const foo(move _2) -> [return: bb1, unwind: bb2];") with
  | .ok fr => fr.1
  | .error _ => c1Mid

/-- C1, counterexample: interpreting a call whose operand `move _2`
resolves to a dangling pointer emits no finding — `get_function_operands`
performs no dangling check (and the aggregate branch of
`find_source_variables` returns before the check as well), contradicting
the claim that a finding is emitted whenever a call operand resolves to a
dangling pointer. -/
theorem claim_c1_counterexample :
    is_dangling_pointer c1Mid 1 = true ∧
    get_function_operands
      (set_lifetime_state c1Mid 2 (EnumVal.ls LifetimeState.Alive))
      (strL "_3 = const foo(move _2) -> [return: bb1, unwind: bb2];") =
      .ok (set_lifetime_state c1Mid 2 (EnumVal.ls LifetimeState.Alive),
        [1]) ∧
    is_dangling_pointer
      (set_lifetime_state c1Mid 2 (EnumVal.ls LifetimeState.Alive)) 1 =
      true ∧
    parser_statement c1Mid
      (strL "_3 = const foo(move _2) -> [return: bb1, unwind: bb2];") =
      .ok (c1Post, []) := by
  refine ⟨by decide, by decide, by decide, by decide⟩

/-- C1, amended: the inline use-after-free finding is emitted exactly when
the resolved source place is the single, non-skipped source of a non-call,
non-const, non-aggregate assignment and its Variable is a dangling pointer
(kind `Pointer`, non-nil `reference_to`, referent `Terminated`); the
finding then names the variable, its referent and the file, and every
successful interpretation of the statement reports it.  (Aggregate
elements and call operands are not checked: see the counterexample.) -/
theorem claim_c1_single_source_emission (f : Func) (raw : Str)
    (f1 : Func) (dv : Nat) (dAT : AssignmentType) (f3 : Func) (s : Nat)
    (sAT : AssignmentType) (mv : Bool)
    (hA : is_assignment ((pySplitOn (strL "//") raw).getD 0 []) = true)
    (hd : find_destination_variable f
      ((pySplitOn (strL "//") raw).getD 0 []) = .ok (f1, dv, dAT))
    (hsk0 : should_skip ((pySplitOn (strL " = ")
      ((pySplitOn (strL "//") raw).getD 0 [])).getD 0 []) = false)
    (hsk1 : should_skip ((pySplitOn (strL " = ")
      ((pySplitOn (strL "//") raw).getD 0 [])).getD 1 []) = false)
    (hcall : is_function_call ((pySplitOn (strL " = ")
      ((pySplitOn (strL "//") raw).getD 0 [])).getD 1 []) = false)
    (hfc : is_function_call (pyStripChars (strL ";") (pyTrim
      ((pySplitOn (strL " = ")
        ((pySplitOn (strL "//") raw).getD 0 [])).getD 1 []))) = false)
    (hic : is_const (pyStripChars (strL ";") (pyTrim
      ((pySplitOn (strL " = ")
        ((pySplitOn (strL "//") raw).getD 0 [])).getD 1 []))) = .ok false)
    (hvv : is_variable_vector (pyStripChars (strL ";") (pyTrim
      ((pySplitOn (strL " = ")
        ((pySplitOn (strL "//") raw).getD 0 [])).getD 1 []))) = false)
    (hsk : should_skip (pyStripChars (strL ";") (pyTrim
      ((pySplitOn (strL " = ")
        ((pySplitOn (strL "//") raw).getD 0 [])).getD 1 []))) = false)
    (hss : find_single_variable
      (set_lifetime_state f1 dv (EnumVal.ls LifetimeState.Alive))
      (pyStripChars (strL ";") (pyTrim ((pySplitOn (strL " = ")
        ((pySplitOn (strL "//") raw).getD 0 [])).getD 1 []))) =
      .ok (f3, s, sAT, mv))
    (hdang : is_dangling_pointer f3 s = true) :
    find_source_variables
      (set_lifetime_state f1 dv (EnumVal.ls LifetimeState.Alive))
      ((pySplitOn (strL "//") raw).getD 0 []) =
      .ok (f3, [(s, sAT, mv)],
        [{ var_name := (getVar f3 s).name,
           ref_name :=
             (getVar f3 ((getVar f3 s).reference_to.getD 0)).name,
           filepath := (set_lifetime_state f1 dv
             (EnumVal.ls LifetimeState.Alive)).filepath }]) ∧
    (∀ f' res, parser_statement f raw = .ok (f', res) →
      { var_name := (getVar f3 s).name,
        ref_name := (getVar f3 ((getVar f3 s).reference_to.getD 0)).name,
        filepath := (set_lifetime_state f1 dv
          (EnumVal.ls LifetimeState.Alive)).filepath :
        InlineFinding } ∈ res) := by
  have part1 : find_source_variables
      (set_lifetime_state f1 dv (EnumVal.ls LifetimeState.Alive))
      ((pySplitOn (strL "//") raw).getD 0 []) =
      .ok (f3, [(s, sAT, mv)],
        [{ var_name := (getVar f3 s).name,
           ref_name :=
             (getVar f3 ((getVar f3 s).reference_to.getD 0)).name,
           filepath := (set_lifetime_state f1 dv
             (EnumVal.ls LifetimeState.Alive)).filepath }]) := by
    unfold find_source_variables
    dsimp only []
    rw [hfc]
    simp only [Bool.false_eq_true, if_false]
    rw [hic]
    dsimp only []
    simp only [Bool.false_eq_true, if_false]
    rw [hvv]
    simp only [Bool.false_eq_true, if_false]
    rw [hsk]
    simp only [Bool.false_eq_true, if_false]
    rw [hss]
    dsimp only []
    simp only [List.filterMap_cons, List.filterMap_nil, hdang, if_true]
  refine ⟨part1, ?_⟩
  intro f' res hok
  unfold parser_statement at hok
  dsimp only [] at hok
  rw [hA] at hok
  simp only [if_true] at hok
  unfold parserAssignment at hok
  dsimp only [] at hok
  rw [hd] at hok
  dsimp only [] at hok
  rw [hsk0, hsk1] at hok
  simp only [Bool.or_self, Bool.false_eq_true, if_false] at hok
  rw [hcall] at hok
  simp only [Bool.false_eq_true, if_false] at hok
  rw [part1] at hok
  dsimp only [] at hok
  simp only [List.length_cons, List.length_nil, Nat.lt_irrefl,
    gt_iff_lt, if_false] at hok
  rcases hdsa : do_single_variable_assignment f3 dv dAT (some s) sAT mv
    with e | f4
  · rw [hdsa] at hok
    exact absurd hok (by simp)
  · rw [hdsa] at hok
    dsimp only [] at hok
    rcases hsd : parserStorageDead f4 ((pySplitOn (strL "//") raw).getD 0 [])
      with e | f5
    · rw [hsd] at hok
      exact absurd hok (by simp)
    · rw [hsd] at hok
      replace hok := Except.ok.inj hok
      simp only [Prod.mk.injEq] at hok
      rw [← hok.2]
      exact List.mem_singleton.mpr rfl

/-- Fixture for the C1 witness. -/
def c1WMid : Func :=
  match run_statements
      (mkLocalsFunc "w" "c1w.mir"
        [("_1", "i32"), ("_2", "*const i32"), ("_3", "i32")])
      [{ name := strL "bb0",
         statements := [strL "_2 = &_1;", strL "StorageDead(_1);"] }] with
  | .ok fr => fr.1
  | .error _ =>
    mkLocalsFunc "w" "c1w.mir"
      [("_1", "i32"), ("_2", "*const i32"), ("_3", "i32")]

/-- Witness for C1 (amended): reading the dangling `_2` as the single
source of `_3 = _2;` emits the finding naming `_2`, its referent `_1` and
the file. -/
theorem claim_c1_witness :
    is_dangling_pointer
      (set_lifetime_state c1WMid 2 (EnumVal.ls LifetimeState.Alive)) 1 =
      true ∧
    parser_statement c1WMid (strL "_3 = _2;") =
      .ok (set_lifetime_state c1WMid 2 (EnumVal.ls LifetimeState.Alive),
        [{ var_name := strL "_2", ref_name := strL "_1",
           filepath := strL "c1w.mir" }]) ∧
    ({ var_name :=
         (getVar (set_lifetime_state c1WMid 2
           (EnumVal.ls LifetimeState.Alive)) 1).name,
       ref_name :=
         (getVar (set_lifetime_state c1WMid 2
           (EnumVal.ls LifetimeState.Alive))
           ((getVar (set_lifetime_state c1WMid 2
             (EnumVal.ls LifetimeState.Alive)) 1).reference_to.getD
             0)).name,
       filepath := (set_lifetime_state c1WMid 2
         (EnumVal.ls LifetimeState.Alive)).filepath : InlineFinding } ∈
      [{ var_name := strL "_2", ref_name := strL "_1",
         filepath := strL "c1w.mir" : InlineFinding }]) :=
  ⟨by decide, by decide,
    (claim_c1_single_source_emission c1WMid (strL "_3 = _2;") c1WMid 2
      AssignmentType.Regular
      (set_lifetime_state c1WMid 2 (EnumVal.ls LifetimeState.Alive)) 1
      AssignmentType.Regular false (by decide) (by decide) (by decide)
      (by decide) (by decide) (by decide) (by decide) (by decide)
      (by decide) (by decide) (by decide)).2
      (set_lifetime_state c1WMid 2 (EnumVal.ls LifetimeState.Alive))
      [{ var_name := strL "_2", ref_name := strL "_1",
         filepath := strL "c1w.mir" }] (by decide)⟩

/-! ## C10: per-path terminal detection, no deduplication -/

/-- Number of terminal findings naming `nm`. -/
def countTermNamed (nm : Str) (l : List TermFinding) : Nat :=
  l.countP (fun x => x.var_name == nm)

/-- The global named `nm` is a dangling pointer in state `f` (its map
entry resolves, carries that name, and `is_dangling_pointer` holds). -/
def globalDangling (f : Func) (nm : Str) : Bool :=
  match dictFind f.global_variables nm with
  | some gi => is_dangling_pointer f gi && ((getVar f gi).name == nm)
  | none => false

/-- Some child of some parameter (args-map entry) of `f` is named `nm`
and is a dangling pointer. -/
def argChildDangling (f : Func) (nm : Str) : Bool :=
  f.args.any (fun p =>
    (getVar f p.2).children.any (fun c =>
      is_dangling_pointer f c && ((getVar f c).name == nm)))

/-- The per-path end states of `parser_statements` (same recursion). -/
def pathEndStates (f : Func) : List (List BBlk) → Except String (List Func)
  | [] => .ok []
  | flow :: rest =>
    match run_statements (reset_variables_state f) flow with
    | .error e => .error e
    | .ok fr =>
      match pathEndStates fr.1 rest with
      | .error e => .error e
      | .ok states => .ok (fr.1 :: states)

theorem foldl_append_bind {α β : Type} (g : α → List β) :
    ∀ (l : List α) (init : List β),
      l.foldl (fun acc p => acc ++ g p) init = init ++ l.flatMap g := by
  intro l
  induction l with
  | nil => intro init; simp
  | cons a rest ih =>
    intro init
    simp only [List.foldl_cons, List.flatMap_cons]
    rw [ih (init ++ g a), List.append_assoc]

/-- `terminal_detect` decomposes into the globals sweep followed by the
args-children sweep. -/
theorem terminal_detect_decomp (f : Func) :
    terminal_detect f =
      (f.global_variables.flatMap (fun p =>
        detect_dangling_pointer_recursive (f.vars.length + 1) f p.2)) ++
      (f.args.flatMap (fun p =>
        (getVar f p.2).children.flatMap (fun c =>
          detect_dangling_pointer_recursive (f.vars.length + 1) f c))) := by
  unfold terminal_detect
  rw [foldl_append_bind]
  simp only [List.nil_append]
  congr 1
  have h : ∀ (l : List (Str × Nat)) (init : List TermFinding),
      l.foldl (fun acc p =>
        acc ++ (getVar f p.2).children.foldl
          (fun a c =>
            a ++ detect_dangling_pointer_recursive (f.vars.length + 1) f c)
          []) init =
      init ++ l.flatMap (fun p =>
        (getVar f p.2).children.flatMap (fun c =>
          detect_dangling_pointer_recursive (f.vars.length + 1) f c)) := by
    intro l
    induction l with
    | nil => intro init; simp
    | cons a rest ih =>
      intro init
      simp only [List.foldl_cons]
      rw [ih]
      rw [foldl_append_bind
        (fun c => detect_dangling_pointer_recursive (f.vars.length + 1) f c)
        (getVar f a.2).children []]
      simp [List.flatMap_cons, List.append_assoc]
  rw [h]
  simp

/-- A dangling root contributes a finding bearing its name. -/
theorem detect_emits_self (fuel : Nat) (f : Func) (i : Nat)
    (h : is_dangling_pointer f i = true) :
    1 ≤ countTermNamed (getVar f i).name
      (detect_dangling_pointer_recursive (fuel + 1) f i) := by
  unfold detect_dangling_pointer_recursive
  rw [h]
  simp only [if_true, countTermNamed, List.countP_append]
  have : List.countP (fun x => x.var_name == (getVar f i).name)
      [({ var_name := (getVar f i).name,
          ref_name :=
            (getVar f ((getVar f i).reference_to.getD 0)).name } :
        TermFinding)] = 1 := by
    simp [List.countP_cons]
  omega

theorem countP_le_of_mem_bind {α β : Type} (p : β → Bool) (g : α → List β)
    {a : α} {l : List α} (h : a ∈ l) :
    List.countP p (g a) ≤ List.countP p (l.flatMap g) := by
  obtain ⟨s, t, rfl⟩ := List.append_of_mem h
  simp only [List.flatMap_append, List.flatMap_cons, List.countP_append]
  omega

/-- A state whose global `nm` dangles yields at least one terminal
finding naming `nm`. -/
theorem terminal_detect_of_globalDangling (g : Func) (nm : Str)
    (h : globalDangling g nm = true) :
    1 ≤ countTermNamed nm (terminal_detect g) := by
  unfold globalDangling at h
  rcases hf : dictFind g.global_variables nm with _ | gi
  · rw [hf] at h; simp at h
  · rw [hf] at h
    simp only [Bool.and_eq_true] at h
    obtain ⟨hdang, hname⟩ := h
    unfold dictFind at hf
    rcases hfind : g.global_variables.find? (fun p => p.1 == nm)
      with _ | pr
    · rw [hfind] at hf; exact Option.noConfusion hf
    · rw [hfind] at hf
      replace hf := Option.some.inj hf
      dsimp only [] at hf
      have hmem : pr ∈ g.global_variables :=
        List.mem_of_find?_eq_some hfind
      rw [terminal_detect_decomp]
      unfold countTermNamed
      rw [List.countP_append]
      have h1 : 1 ≤ List.countP (fun x => x.var_name == nm)
          (detect_dangling_pointer_recursive (g.vars.length + 1) g
            pr.2) := by
        have h2 := detect_emits_self g.vars.length g gi hdang
        unfold countTermNamed at h2
        rw [hf]
        have h3 : (fun (x : TermFinding) => x.var_name == nm) =
            (fun (x : TermFinding) =>
              x.var_name == (getVar g gi).name) := by
          funext x
          rw [beq_iff_eq.mp hname]
        rw [h3]
        exact h2
      have h4 := countP_le_of_mem_bind
        (fun (x : TermFinding) => x.var_name == nm)
        (fun p => detect_dangling_pointer_recursive
          (g.vars.length + 1) g p.2) hmem
      dsimp only [] at h4
      omega

/-- A state in which a parameter child named `nm` dangles yields at
least one terminal finding naming `nm`. -/
theorem terminal_detect_of_argChildDangling (g : Func) (nm : Str)
    (h : argChildDangling g nm = true) :
    1 ≤ countTermNamed nm (terminal_detect g) := by
  unfold argChildDangling at h
  rw [List.any_eq_true] at h
  obtain ⟨p, hp, hinner⟩ := h
  rw [List.any_eq_true] at hinner
  obtain ⟨c, hc, hcond⟩ := hinner
  simp only [Bool.and_eq_true] at hcond
  obtain ⟨hdang, hname⟩ := hcond
  rw [terminal_detect_decomp]
  unfold countTermNamed
  rw [List.countP_append]
  have h1 : 1 ≤ List.countP (fun x => x.var_name == nm)
      (detect_dangling_pointer_recursive (g.vars.length + 1) g c) := by
    have h2 := detect_emits_self g.vars.length g c hdang
    unfold countTermNamed at h2
    have h3 : (fun (x : TermFinding) => x.var_name == nm) =
        (fun (x : TermFinding) =>
          x.var_name == (getVar g c).name) := by
      funext x
      rw [beq_iff_eq.mp hname]
    rw [h3]
    exact h2
  have h4 := countP_le_of_mem_bind
    (fun (x : TermFinding) => x.var_name == nm)
    (fun c => detect_dangling_pointer_recursive (g.vars.length + 1) g c)
    hc
  have h5 := countP_le_of_mem_bind
    (fun (x : TermFinding) => x.var_name == nm)
    (fun (p : Str × Nat) => (getVar g p.2).children.flatMap (fun c =>
      detect_dangling_pointer_recursive (g.vars.length + 1) g c)) hp
  dsimp only [] at h4 h5
  omega

/-- C10: the path-terminal detector runs after every enumerated path with
no deduplication — the terminal findings are the concatenation of each
path's sweep, so a variable named `nm` that is a dangling global or a
dangling parameter child at the end of `k` of the enumerated paths is
named by at least `k` distinct findings, one contributed per such
path. -/
theorem claim_c10_per_path_findings (f : Func) (flows : List (List BBlk))
    (f' : Func) (inl : List InlineFinding) (term : List TermFinding)
    (states : List Func) (nm : Str)
    (hps : parser_statements f flows = .ok (f', inl, term))
    (hes : pathEndStates f flows = .ok states) :
    states.countP (fun st =>
        globalDangling st nm || argChildDangling st nm) ≤
      countTermNamed nm term := by
  induction flows generalizing f f' inl term states with
  | nil =>
    unfold parser_statements at hps
    unfold pathEndStates at hes
    replace hps := Except.ok.inj hps
    replace hes := Except.ok.inj hes
    simp only [Prod.mk.injEq] at hps
    rw [← hes, ← hps.2.2]
    simp [countTermNamed]
  | cons flow rest ih =>
    unfold parser_statements at hps
    unfold pathEndStates at hes
    rcases hrun : run_statements (reset_variables_state f) flow
      with e | fr
    · rw [hrun] at hps; exact absurd hps (by simp)
    · rw [hrun] at hps hes
      dsimp only [] at hps hes
      rcases hrest : parser_statements fr.1 rest with e | frest
      · rw [hrest] at hps; exact absurd hps (by simp)
      · rw [hrest] at hps
        rcases hsr : pathEndStates fr.1 rest with e | states2
        · rw [hsr] at hes; exact absurd hes (by simp)
        · rw [hsr] at hes
          replace hps := Except.ok.inj hps
          replace hes := Except.ok.inj hes
          simp only [Prod.mk.injEq] at hps
          rw [← hes, ← hps.2.2]
          have ihh := ih fr.1 frest.1 frest.2.1 frest.2.2 states2 hrest hsr
          simp only [List.countP_cons, countTermNamed, List.countP_append]
          unfold countTermNamed at ihh
          by_cases hd : (globalDangling fr.1 nm ||
              argChildDangling fr.1 nm) = true
          · have h1 : 1 ≤ countTermNamed nm (terminal_detect fr.1) := by
              cases hx : globalDangling fr.1 nm
              · rw [hx] at hd
                simp only [Bool.false_or] at hd
                exact terminal_detect_of_argChildDangling fr.1 nm hd
              · exact terminal_detect_of_globalDangling fr.1 nm hx
            unfold countTermNamed at h1
            simp only [hd, if_true]
            omega
          · replace hd : (globalDangling fr.1 nm ||
                argChildDangling fr.1 nm) = false := by
              cases hx : (globalDangling fr.1 nm ||
                  argChildDangling fr.1 nm)
              · rfl
              · exact absurd hx hd
            simp only [hd, Bool.false_eq_true, if_false]
            omega

/-- Fixture for the C10 witness: each path assigns `&_1` into the global
`HELLO` and then terminates `_1`. -/
def c10F : Func := mkLocalsFunc "global2" "c10.mir" [("_1", "i32")]

/-- The single block of the C10 witness. -/
def c10Block : BBlk :=
  { name := strL "bb0",
    statements :=
      [strL "(HELLO: *const i32) = &_1;", strL "StorageDead(_1);"] }

/-- Two enumerated paths through the same block. -/
def c10Flows : List (List BBlk) := [[c10Block], [c10Block]]

/-- Final state of the C10 witness run. -/
def c10End : Func :=
  match parser_statements c10F c10Flows with
  | .ok r => r.1
  | .error _ => c10F

/-- Per-path end states of the C10 witness run. -/
def c10States : List Func :=
  match pathEndStates c10F c10Flows with
  | .ok s => s
  | .error _ => []

/-- Locals and one parameter for the parameter-child half of the C10
witness: `_1` is an argument of aggregate type, `_2` an object, `_3` a
pointer. -/
def c10AF : Func :=
  [(strL "_2", strL "i32"), (strL "_3", strL "*const i32")].foldl
    (fun f p => (add_local_variable f p.1 p.2).1)
    (mkFunction (strL "argchild") (strL "c10a.mir") []
      [(strL "_1", strL "Foo")])

/-- Each path builds pointer children of the parameter `_1` out of `_3`
and then terminates their referent `_2`. -/
def c10ABlock : BBlk :=
  { name := strL "bb0",
    statements :=
      [strL "_3 = &_2;", strL "_1 = [move _3, move _3];",
       strL "StorageDead(_2);"] }

/-- Two enumerated paths through the parameter-child block. -/
def c10AFlows : List (List BBlk) := [[c10ABlock], [c10ABlock]]

/-- Full result of the parameter-child witness run. -/
def c10ARun : Func × List InlineFinding × List TermFinding :=
  match parser_statements c10AF c10AFlows with
  | .ok r => r
  | .error _ => (c10AF, [], [])

/-- Per-path end states of the parameter-child witness run. -/
def c10AStates : List Func :=
  match pathEndStates c10AF c10AFlows with
  | .ok s => s
  | .error _ => []

/-- Witness for C10, covering both swept families: the global `HELLO`
dangles at the end of both paths of the first run and is named by two
separate findings, one per path; the parameter child `0` of the argument
`_1` dangles at the end of both paths of the second run and is likewise
named by two separate findings. -/
theorem claim_c10_witness :
    (parser_statements c10F c10Flows =
      .ok (c10End, [],
        [{ var_name := strL "HELLO", ref_name := strL "_1" },
         { var_name := strL "HELLO", ref_name := strL "_1" }]) ∧
     pathEndStates c10F c10Flows = .ok c10States ∧
     c10States.countP (fun st =>
       globalDangling st (strL "HELLO") ||
       argChildDangling st (strL "HELLO")) = 2 ∧
     2 ≤ countTermNamed (strL "HELLO")
       [{ var_name := strL "HELLO", ref_name := strL "_1" },
        { var_name := strL "HELLO", ref_name := strL "_1" }]) ∧
    (parser_statements c10AF c10AFlows =
      .ok (c10ARun.1, c10ARun.2.1, c10ARun.2.2) ∧
     pathEndStates c10AF c10AFlows = .ok c10AStates ∧
     c10AStates.countP (fun st =>
       globalDangling st (strL "0") ||
       argChildDangling st (strL "0")) = 2 ∧
     2 ≤ countTermNamed (strL "0") c10ARun.2.2) := by
  refine ⟨⟨by decide, by decide, by decide, ?_⟩,
    ⟨by decide, by decide, by decide, ?_⟩⟩
  · have h := claim_c10_per_path_findings c10F c10Flows c10End []
      [{ var_name := strL "HELLO", ref_name := strL "_1" },
       { var_name := strL "HELLO", ref_name := strL "_1" }]
      c10States (strL "HELLO") (by decide) (by decide)
    have h2 : c10States.countP (fun st =>
        globalDangling st (strL "HELLO") ||
        argChildDangling st (strL "HELLO")) = 2 := by decide
    omega
  · have h := claim_c10_per_path_findings c10AF c10AFlows c10ARun.1
      c10ARun.2.1 c10ARun.2.2 c10AStates (strL "0") (by decide)
      (by decide)
    have h2 : c10AStates.countP (fun st =>
        globalDangling st (strL "0") ||
        argChildDangling st (strL "0")) = 2 := by decide
    omega

/-! ## C6: reverse-edge consistency -/

/-- Structural well-formedness of the arena: map entries, children and
forward edges stay inside the arena. -/
def refBoundB (f : Func) (i : Nat) : Bool :=
  match (getVar f i).reference_to with
  | some u => decide (u < f.vars.length)
  | none => true

/-- Well-formedness: all indices recorded anywhere point into the arena. -/
def WFf (f : Func) : Prop :=
  (∀ p ∈ f.local_variables, p.2 < f.vars.length) ∧
  (∀ p ∈ f.global_variables, p.2 < f.vars.length) ∧
  (∀ i, i < f.vars.length →
    (∀ c ∈ (getVar f i).children, c < f.vars.length) ∧
    refBoundB f i = true)

/-- `i` is bound in the local or global map (a root variable). -/
def isRootIdx (f : Func) (i : Nat) : Prop :=
  (∃ p ∈ f.local_variables, p.2 = i) ∨
  (∃ p ∈ f.global_variables, p.2 = i)

instance (f : Func) (i : Nat) : Decidable (isRootIdx f i) := by
  unfold isRootIdx
  infer_instance

/-- The reverse edge matching `i`'s forward edge is recorded. -/
def refOkB (f : Func) (i : Nat) : Bool :=
  match (getVar f i).reference_to with
  | some u => (getVar f u).referenced_by.contains i
  | none => true

/-- Claimed invariant, restricted to root variables: every root with a
non-nil `reference_to` occurs in its referent's `referenced_by`. -/
def EdgeInv (f : Func) : Prop :=
  ∀ i, i < f.vars.length → isRootIdx f i → refOkB f i = true

/-- Fixture for the C6 counterexample: an aggregate assignment gives the
children of `_3` pointer edges into `_1`. -/
def c6F : Func :=
  mkLocalsFunc "agg" "c6.mir"
    [("_1", "i32"), ("_2", "*const i32"), ("_3", "Foo")]

/-- State after path 1 (`_2 = &_1; _3 = [move _2, move _2];`): the
children of `_3` (indices 3 and 4) point to `_1`. -/
def c6Mid : Func :=
  match run_statements c6F
      [{ name := strL "bb0",
         statements :=
           [strL "_2 = &_1;", strL "_3 = [move _2, move _2];"] }] with
  | .ok fr => fr.1
  | .error _ => c6F

/-- State after the first statement of path 2: the reset cleared `_1`'s
`referenced_by` but not the child's `reference_to`. -/
def c6Post : Func :=
  match parser_statement (reset_variables_state c6Mid)
      (strL "StorageDead(_1);") with
  | .ok fr => fr.1
  | .error _ => c6Mid

/-- C6, counterexample: after the first statement of the second path, the
child variable at index 3 still has `reference_to = _1`, but the reset
emptied `_1.referenced_by`, so the child occurs in no reverse-edge list —
the claimed invariant fails for non-root variables. -/
theorem claim_c6_counterexample :
    (getVar c6Mid 3).reference_to = some 0 ∧
    ((getVar c6Mid 0).referenced_by.contains 3) = true ∧
    parser_statement (reset_variables_state c6Mid)
      (strL "StorageDead(_1);") = .ok (c6Post, []) ∧
    (getVar c6Post 3).reference_to = some 0 ∧
    ((getVar c6Post 0).referenced_by.contains 3) = false := by
  refine ⟨by decide, by decide, by decide, by decide, by decide⟩

/-- Combined invariant: well-formed arena plus root reverse-edge
consistency. -/
def GoodF (f : Func) : Prop := WFf f ∧ EdgeInv f

theorem field_updVar_of {β : Type} (fieldF : PVariable → β) (f : Func)
    (i : Nat) (g : PVariable → PVariable)
    (h : ∀ v, fieldF (g v) = fieldF v) (j : Nat) :
    fieldF (getVar (updVar f i g) j) = fieldF (getVar f j) := by
  by_cases hij : j = i
  · subst hij
    by_cases hl : j < f.vars.length
    · rw [getVar_updVar_self f j g hl]; exact h _
    · rw [updVar, setVar_oob f j _ hl]
  · rw [getVar_updVar_ne f i j g (fun x => hij x.symm)]

theorem isRootIdx_maps_eq {f g : Func}
    (hl : g.local_variables = f.local_variables)
    (hg : g.global_variables = f.global_variables) (i : Nat) :
    isRootIdx g i ↔ isRootIdx f i := by
  unfold isRootIdx
  rw [hl, hg]

theorem good_updVar_stateonly (f : Func) (i : Nat)
    (g : PVariable → PVariable)
    (hr : ∀ v, (g v).reference_to = v.reference_to)
    (hb : ∀ v, (g v).referenced_by = v.referenced_by)
    (hc : ∀ v, (g v).children = v.children)
    (h : GoodF f) : GoodF (updVar f i g) := by
  obtain ⟨⟨w1, w2, w3⟩, he⟩ := h
  have hlen : (updVar f i g).vars.length = f.vars.length :=
    vars_length_updVar f i g
  have hrw := field_updVar_of (fun v => v.reference_to) f i g hr
  have hbw := field_updVar_of (fun v => v.referenced_by) f i g hb
  have hcw := field_updVar_of (fun v => v.children) f i g hc
  dsimp only [] at hrw hbw hcw
  refine ⟨⟨?_, ?_, ?_⟩, ?_⟩
  · intro p hp; rw [hlen]; exact w1 p hp
  · intro p hp; rw [hlen]; exact w2 p hp
  · intro j hj
    rw [hlen] at hj
    refine ⟨?_, ?_⟩
    · intro c hcmem
      rw [hcw j] at hcmem
      rw [hlen]
      exact (w3 j hj).1 c hcmem
    · unfold refBoundB
      rw [hrw j, hlen]
      have := (w3 j hj).2
      unfold refBoundB at this
      exact this
  · intro j hj hroot
    rw [hlen] at hj
    rw [isRootIdx_maps_eq rfl rfl] at hroot
    have := he j hj hroot
    unfold refOkB at this ⊢
    rw [hrw j]
    cases hu : (getVar f j).reference_to with
    | none => rfl
    | some u =>
      rw [hu] at this
      dsimp only [] at this ⊢
      rw [hbw u]
      exact this

theorem good_pushVar_mk (f : Func) (n t : Str) (h : GoodF f) :
    GoodF (pushVar f (mkVariable n t)).1 := by
  obtain ⟨⟨w1, w2, w3⟩, he⟩ := h
  have hlen := vars_length_pushVar f (mkVariable n t)
  refine ⟨⟨?_, ?_, ?_⟩, ?_⟩
  · intro p hp; rw [hlen]; exact Nat.lt_succ_of_lt (w1 p hp)
  · intro p hp; rw [hlen]; exact Nat.lt_succ_of_lt (w2 p hp)
  · intro j hj
    rw [hlen] at hj
    rcases Nat.lt_or_ge j f.vars.length with hlt | hge
    · rw [getVar_pushVar_lt f _ j hlt] at *
      refine ⟨?_, ?_⟩
      · intro c hcmem
        rw [hlen]
        exact Nat.lt_succ_of_lt ((w3 j hlt).1 c hcmem)
      · unfold refBoundB
        rw [getVar_pushVar_lt f _ j hlt]
        have := (w3 j hlt).2
        unfold refBoundB at this
        cases hu : (getVar f j).reference_to with
        | none => rfl
        | some u =>
          rw [hu] at this
          simp only [decide_eq_true_eq] at this ⊢
          rw [hlen]
          exact Nat.lt_succ_of_lt this
    · have hj2 : j = f.vars.length := by omega
      subst hj2
      rw [getVar_pushVar_self]
      refine ⟨?_, ?_⟩
      · intro c hcmem
        simp [mkVariable] at hcmem
      · unfold refBoundB
        rw [getVar_pushVar_self]
        rfl
  · intro j hj hroot
    rw [hlen] at hj
    rw [isRootIdx_maps_eq (pushVar_fields f _).2.1
      (pushVar_fields f _).2.2.1] at hroot
    rcases Nat.lt_or_ge j f.vars.length with hlt | hge
    · have := he j hlt hroot
      unfold refOkB at this ⊢
      rw [getVar_pushVar_lt f _ j hlt]
      cases hu : (getVar f j).reference_to with
      | none => rfl
      | some u =>
        rw [hu] at this
        dsimp only [] at this ⊢
        rcases Nat.lt_or_ge u f.vars.length with hu2 | hu2
        · rw [getVar_pushVar_lt f _ u hu2]
          exact this
        · rw [getVar_oob f u (by omega)] at this
          simp [mkVariable] at this
    · have hj2 : j = f.vars.length := by omega
      subst hj2
      unfold refOkB
      rw [getVar_pushVar_self]
      rfl

theorem vars_length_set_reference (f : Func) (i : Nat) (tgt : Option Nat) :
    (set_reference f i tgt).vars.length = f.vars.length := by
  unfold set_reference
  cases tgt <;> simp [vars_length_updVar]

theorem set_reference_maps (f : Func) (i : Nat) (tgt : Option Nat) :
    (set_reference f i tgt).local_variables = f.local_variables ∧
    (set_reference f i tgt).global_variables = f.global_variables := by
  unfold set_reference
  cases tgt <;> simp [updVar, setVar]

theorem ref_set_reference (f : Func) (i : Nat) (tgt : Option Nat)
    (j : Nat) :
    (getVar (set_reference f i tgt) j).reference_to =
      if j = i ∧ i < f.vars.length then tgt
      else (getVar f j).reference_to := by
  unfold set_reference
  have base : ∀ j, (getVar (updVar f i
      (fun v => { v with reference_to := tgt })) j).reference_to =
      if j = i ∧ i < f.vars.length then tgt
      else (getVar f j).reference_to := by
    intro j
    by_cases hij : j = i
    · subst hij
      by_cases hl : j < f.vars.length
      · rw [getVar_updVar_self f j _ hl]
        simp [hl]
    
      · rw [updVar, setVar_oob f j _ hl]
        simp [hl]
    · rw [getVar_updVar_ne f i j _ (fun x => hij x.symm)]
      simp [hij]
  cases tgt with
  | none => exact base j
  | some t =>
    have h2 := field_updVar_of (fun v => v.reference_to)
      (updVar f i (fun v => { v with reference_to := some t })) t
      (fun v => { v with referenced_by := v.referenced_by ++ [i] })
      (fun _ => rfl) j
    rw [h2]
    exact base j

theorem refby_set_reference (f : Func) (i : Nat) (tgt : Option Nat)
    (j : Nat) :
    (getVar (set_reference f i tgt) j).referenced_by =
      if tgt = some j ∧ j < f.vars.length then
        (getVar f j).referenced_by ++ [i]
      else (getVar f j).referenced_by := by
  unfold set_reference
  have base : ∀ j, (getVar (updVar f i
      (fun v => { v with reference_to := tgt })) j).referenced_by =
      (getVar f j).referenced_by :=
    field_updVar_of (fun v => v.referenced_by) f i _ (fun _ => rfl)
  cases tgt with
  | none =>
    dsimp only []
    rw [base j]
    simp
  | some t =>
    dsimp only []
    by_cases hjt : j = t
    · subst hjt
      by_cases hl : j < f.vars.length
      · have hl1 : j < (updVar f i
            (fun v => { v with reference_to := some j })).vars.length := by
          rw [vars_length_updVar]; exact hl
        rw [getVar_updVar_self _ j _ hl1]
        rw [base j]
        simp [hl]
      · have hl1 : ¬ j < (updVar f i
            (fun v => { v with reference_to := some j })).vars.length := by
          rw [vars_length_updVar]; exact hl
        rw [updVar, setVar_oob _ j _ hl1, base j]
        simp [hl]
    · rw [getVar_updVar_ne _ t j _ (fun x => hjt x.symm), base j]
      have hcnd : ¬ ((some t : Option Nat) = some j ∧
          j < f.vars.length) := by
        intro hx
        exact hjt (Option.some.inj hx.1).symm
      rw [if_neg hcnd]

theorem children_set_reference (f : Func) (i : Nat) (tgt : Option Nat)
    (j : Nat) :
    (getVar (set_reference f i tgt) j).children =
      (getVar f j).children := by
  unfold set_reference
  have base := field_updVar_of (fun v => v.children) f i
    (fun v => { v with reference_to := tgt }) (fun _ => rfl)
  dsimp only [] at base
  cases tgt with
  | none => exact base j
  | some t =>
    have h2 := field_updVar_of (fun v => v.children)
      (updVar f i (fun v => { v with reference_to := some t })) t
      (fun v => { v with referenced_by := v.referenced_by ++ [i] })
      (fun _ => rfl) j
    rw [h2]
    exact base j

theorem good_set_reference (f : Func) (i : Nat) (tgt : Option Nat)
    (htgt : ∀ t, tgt = some t → t < f.vars.length) (h : GoodF f) :
    GoodF (set_reference f i tgt) := by
  obtain ⟨⟨w1, w2, w3⟩, he⟩ := h
  have hlen := vars_length_set_reference f i tgt
  obtain ⟨hml, hmg⟩ := set_reference_maps f i tgt
  refine ⟨⟨?_, ?_, ?_⟩, ?_⟩
  · intro p hp; rw [hlen]; rw [hml] at hp; exact w1 p hp
  · intro p hp; rw [hlen]; rw [hmg] at hp; exact w2 p hp
  · intro j hj
    rw [hlen] at hj
    refine ⟨?_, ?_⟩
    · intro c hcmem
      rw [children_set_reference] at hcmem
      rw [hlen]
      exact (w3 j hj).1 c hcmem
    · unfold refBoundB
      rw [ref_set_reference, hlen]
      by_cases hcond : j = i ∧ i < f.vars.length
      · rw [if_pos hcond]
        cases tgt with
        | none => rfl
        | some t =>
          simp only [decide_eq_true_eq]
          exact htgt t rfl
      · rw [if_neg hcond]
        have := (w3 j hj).2
        unfold refBoundB at this
        exact this
  · intro j hj hroot
    rw [hlen] at hj
    rw [isRootIdx_maps_eq hml hmg] at hroot
    unfold refOkB
    rw [ref_set_reference]
    by_cases hcond : j = i ∧ i < f.vars.length
    · rw [if_pos hcond]
      cases tgt with
      | none => rfl
      | some t =>
        dsimp only []
        rw [refby_set_reference]
        have ht := htgt t rfl
        rw [if_pos ⟨rfl, ht⟩]
        rw [hcond.1]
        simp
    · rw [if_neg hcond]
      have := he j hj hroot
      unfold refOkB at this
      cases hu : (getVar f j).reference_to with
      | none => rfl
      | some u =>
        rw [hu] at this
        dsimp only [] at this ⊢
        rw [refby_set_reference]
        by_cases hc2 : tgt = some u ∧ u < f.vars.length
        · rw [if_pos hc2]
          have hmem : j ∈ (getVar f u).referenced_by := by
            simpa using this
          simpa using Or.inl hmem
        · rw [if_neg hc2]
          exact this

theorem good_add_child (f : Func) (p c : Nat) (hc : c < f.vars.length)
    (h : GoodF f) : GoodF (add_child_variable f p c) := by
  obtain ⟨⟨w1, w2, w3⟩, he⟩ := h
  unfold add_child_variable
  have hlen := vars_length_updVar f p
    (fun v => { v with children := v.children ++ [c] })
  have hrw := field_updVar_of (fun v => v.reference_to) f p
    (fun v => { v with children := v.children ++ [c] }) (fun _ => rfl)
  have hbw := field_updVar_of (fun v => v.referenced_by) f p
    (fun v => { v with children := v.children ++ [c] }) (fun _ => rfl)
  dsimp only [] at hrw hbw
  refine ⟨⟨?_, ?_, ?_⟩, ?_⟩
  · intro q hq; rw [hlen]; exact w1 q hq
  · intro q hq; rw [hlen]; exact w2 q hq
  · intro j hj
    rw [hlen] at hj
    refine ⟨?_, ?_⟩
    · intro c2 hcm
      rw [hlen]
      by_cases hjp : j = p
      · subst hjp
        by_cases hl : j < f.vars.length
        · rw [getVar_updVar_self f j _ hl] at hcm
          dsimp only [] at hcm
          rcases List.mem_append.mp hcm with hin | hin
          · exact (w3 j hj).1 c2 hin
          · rw [List.mem_singleton.mp hin]; exact hc
        · exact absurd hj hl
      · rw [getVar_updVar_ne f p j _ (fun x => hjp x.symm)] at hcm
        exact (w3 j hj).1 c2 hcm
    · unfold refBoundB
      rw [hrw j, hlen]
      have := (w3 j hj).2
      unfold refBoundB at this
      exact this
  · intro j hj hroot
    rw [hlen] at hj
    rw [isRootIdx_maps_eq rfl rfl] at hroot
    have := he j hj hroot
    unfold refOkB at this ⊢
    rw [hrw j]
    cases hu : (getVar f j).reference_to with
    | none => rfl
    | some u =>
      rw [hu] at this
      dsimp only [] at this ⊢
      rw [hbw u]
      exact this

theorem dictInsert_mem {d : List (Str × Nat)} {k : Str} {v : Nat}
    {p : Str × Nat} (h : p ∈ dictInsert d k v) : p ∈ d ∨ p = (k, v) := by
  unfold dictInsert at h
  split at h
  · rcases List.mem_map.mp h with ⟨q, hq, hqe⟩
    by_cases hk : (q.1 == k) = true
    · rw [if_pos hk] at hqe
      right; exact hqe.symm
    · rw [if_neg hk] at hqe
      left; rw [← hqe]; exact hq
  · rcases List.mem_append.mp h with hin | hin
    · left; exact hin
    · right; exact List.mem_singleton.mp hin

theorem good_add_global (f : Func) (n t : Str) (h : GoodF f) :
    GoodF (add_global_variable f n t).1 ∧
    (add_global_variable f n t).2 < (add_global_variable f n t).1.vars.length := by
  have hpush := good_pushVar_mk f n t h
  obtain ⟨⟨w1, w2, w3⟩, he⟩ := hpush
  have hlen := vars_length_pushVar f (mkVariable n t)
  have hidx : (add_global_variable f n t).2 = f.vars.length := by
    simp [add_global_variable, pushVar]
  have hlen2 : (add_global_variable f n t).1.vars.length =
      f.vars.length + 1 := by
    simp [add_global_variable, pushVar]
  refine ⟨⟨⟨?_, ?_, ?_⟩, ?_⟩, ?_⟩
  · intro p hp
    rw [hlen2]
    have : (add_global_variable f n t).1.local_variables =
        (pushVar f (mkVariable n t)).1.local_variables := by
      simp [add_global_variable, pushVar]
    rw [this] at hp
    rw [← hlen]
    exact w1 p hp
  · intro p hp
    have hg : (add_global_variable f n t).1.global_variables =
        dictInsert (pushVar f (mkVariable n t)).1.global_variables n
          f.vars.length := by
      simp [add_global_variable, pushVar]
    rw [hg] at hp
    rw [hlen2]
    rcases dictInsert_mem hp with hin | hqe
    · rw [← hlen]
      exact w2 p hin
    · rw [hqe]
      omega
  · intro i hi
    rw [hlen2] at hi
    have hv : (add_global_variable f n t).1.vars =
        (pushVar f (mkVariable n t)).1.vars := by
      simp [add_global_variable, pushVar]
    have hgv : ∀ j, getVar (add_global_variable f n t).1 j =
        getVar (pushVar f (mkVariable n t)).1 j := by
      intro j
      unfold getVar
      rw [hv]
    have := w3 i (by rw [hlen]; omega)
    refine ⟨?_, ?_⟩
    · intro c hcm
      rw [hgv i] at hcm
      rw [hlen2, ← hlen]
      exact this.1 c hcm
    · unfold refBoundB
      rw [hgv i, hlen2, ← hlen]
      have h2 := this.2
      unfold refBoundB at h2
      exact h2
  · intro j hj hroot
    have hv : (add_global_variable f n t).1.vars =
        (pushVar f (mkVariable n t)).1.vars := by
      simp [add_global_variable, pushVar]
    have hgv : ∀ i, getVar (add_global_variable f n t).1 i =
        getVar (pushVar f (mkVariable n t)).1 i := by
      intro i
      unfold getVar
      rw [hv]
    rw [hlen2] at hj
    unfold refOkB
    rw [hgv j]
    rcases hroot with hl | hg
    · have : isRootIdx (pushVar f (mkVariable n t)).1 j := by
        left
        have : (add_global_variable f n t).1.local_variables =
            (pushVar f (mkVariable n t)).1.local_variables := by
          simp [add_global_variable, pushVar]
        rw [this] at hl
        exact hl
      have h2 := he j (by rw [hlen]; omega) this
      unfold refOkB at h2
      cases hu : (getVar (pushVar f (mkVariable n t)).1 j).reference_to with
      | none => rfl
      | some u =>
        rw [hu] at h2
        dsimp only [] at h2 ⊢
        rw [hgv u]
        exact h2
    · have hg2 : (add_global_variable f n t).1.global_variables =
          dictInsert (pushVar f (mkVariable n t)).1.global_variables n
            f.vars.length := by
        simp [add_global_variable, pushVar]
      obtain ⟨p, hp, hpj⟩ := hg
      rw [hg2] at hp
      rcases dictInsert_mem hp with hin | hqe
      · have : isRootIdx (pushVar f (mkVariable n t)).1 j :=
          Or.inr ⟨p, hin, hpj⟩
        have h2 := he j (by rw [hlen]; omega) this
        unfold refOkB at h2
        cases hu : (getVar (pushVar f (mkVariable n t)).1 j).reference_to
          with
        | none => rfl
        | some u =>
          rw [hu] at h2
          dsimp only [] at h2 ⊢
          rw [hgv u]
          exact h2
      · have hj2 : j = f.vars.length := by
          rw [hqe] at hpj
          exact hpj.symm
        subst hj2
        rw [getVar_pushVar_self]
        rfl
  · rw [hidx, hlen2]
    omega

theorem dictFind_mem {d : List (Str × Nat)} {k : Str} {i : Nat}
    (h : dictFind d k = some i) : ∃ p ∈ d, p.2 = i := by
  unfold dictFind at h
  rcases hf : d.find? (fun p => p.1 == k) with _ | pr
  · rw [hf] at h; exact Option.noConfusion h
  · rw [hf] at h
    replace h := Option.some.inj h
    exact ⟨pr, List.mem_of_find?_eq_some hf, h⟩

theorem good_reset_type (f : Func) (i : Nat) (t : Str) (h : GoodF f) :
    GoodF (reset_type f i t) :=
  good_updVar_stateonly f i _ (fun _ => rfl) (fun _ => rfl) (fun _ => rfl) h

theorem good_set_lifetime_state (f : Func) (i : Nat) (s : EnumVal)
    (h : GoodF f) : GoodF (set_lifetime_state f i s) :=
  good_updVar_stateonly f i _ (fun _ => rfl) (fun _ => rfl) (fun _ => rfl) h

theorem good_resolveRoot {f : Func} {rn : Str} {rt : Option Str}
    {r : Func × Nat} (hg : GoodF f) (h : resolveRoot f rn rt = .ok r) :
    GoodF r.1 ∧ r.2 < r.1.vars.length := by
  unfold resolveRoot at h
  split at h
  · split at h
    · rename_i i hfind
      obtain rfl := Except.ok.inj h
      refine ⟨hg, ?_⟩
      obtain ⟨p, hp, hpi⟩ := dictFind_mem hfind
      exact hpi ▸ hg.1.1 p hp
    · exact absurd h (by simp)
  · split at h
    · rename_i i hfind
      obtain rfl := Except.ok.inj h
      refine ⟨hg, ?_⟩
      obtain ⟨p, hp, hpi⟩ := dictFind_mem hfind
      exact hpi ▸ hg.1.2.1 p hp
    · split at h
      · exact absurd h (by simp)
      · obtain rfl := Except.ok.inj h
        exact good_add_global f rn _ hg

theorem good_resolveChild {f : Func} {parent : Nat} {cn : Str}
    {ct : Option Str} {r : Func × Nat} (hg : GoodF f)
    (hp : parent < f.vars.length)
    (h : resolveChild f parent cn ct = .ok r) :
    GoodF r.1 ∧ r.2 < r.1.vars.length := by
  unfold resolveChild at h
  split at h
  · split at h
    · exact absurd h (by simp)
    · rename_i t
      obtain rfl := Except.ok.inj h
      dsimp only []
      constructor
      · refine good_add_child _ parent _ ?_
          (good_pushVar_mk f cn t hg)
        rw [vars_length_pushVar]
        have h2 : (pushVar f (mkVariable cn t)).2 = f.vars.length := rfl
        omega
      · have h1 : (add_child_variable (pushVar f (mkVariable cn t)).1
            parent (pushVar f (mkVariable cn t)).2).vars.length =
            f.vars.length + 1 := by
          rw [add_child_variable, vars_length_updVar, vars_length_pushVar]
        rw [h1]
        have : (pushVar f (mkVariable cn t)).2 = f.vars.length := rfl
        omega
  · rename_i ci hfind
    have hci : ci < f.vars.length := by
      have := hg.1.2.2 parent hp
      exact this.1 ci (List.mem_of_find?_eq_some hfind)
    split at h
    · obtain rfl := Except.ok.inj h
      exact ⟨hg, hci⟩
    · obtain rfl := Except.ok.inj h
      refine ⟨good_reset_type f ci _ hg, ?_⟩
      dsimp only []
      rw [reset_type, vars_length_updVar]
      exact hci

theorem good_resolveChain {l : List (Str × Option Str)} :
    ∀ {f : Func} {root : Nat} {r : Func × Nat}, GoodF f →
      root < f.vars.length → resolveChain f root l = .ok r →
      GoodF r.1 ∧ r.2 < r.1.vars.length := by
  induction l with
  | nil =>
    intro f root r hg hroot h
    unfold resolveChain at h
    obtain rfl := Except.ok.inj h
    exact ⟨hg, hroot⟩
  | cons p rest ih =>
    intro f root r hg hroot h
    unfold resolveChain at h
    split at h
    · rename_i fi heq
      obtain ⟨hg2, hb2⟩ := good_resolveChild hg hroot heq
      exact ih hg2 hb2 h
    · exact absurd h (by simp)

theorem good_find_single_variable {f : Func} {s : Str}
    {r : Func × Nat × AssignmentType × Bool} (hg : GoodF f)
    (h : find_single_variable f s = .ok r) :
    GoodF r.1 ∧ r.2.1 < r.1.vars.length := by
  unfold find_single_variable at h
  split at h <;>
  · dsimp only [] at h
    split at h
    · exact absurd h (by simp)
    · split at h
      · exact absurd h (by simp)
      · split at h
        · exact absurd h (by simp)
        · rename_i fi heq
          split at h
          · exact absurd h (by simp)
          · rename_i fj heq2
            obtain rfl := Except.ok.inj h
            obtain ⟨hg2, hb2⟩ := good_resolveRoot hg heq
            exact good_resolveChain hg2 hb2 heq2

theorem good_find_destination_variable {f : Func} {statement : Str}
    {r : Func × Nat × AssignmentType} (hg : GoodF f)
    (h : find_destination_variable f statement = .ok r) :
    GoodF r.1 ∧ r.2.1 < r.1.vars.length := by
  unfold find_destination_variable at h
  split at h
  · exact absurd h (by simp)
  · rename_i rr heq
    split at h
    · exact absurd h (by simp)
    · obtain rfl := Except.ok.inj h
      exact good_find_single_variable hg heq

theorem good_find_multiple_variables {f : Func} {s : Str}
    {r : Func × List (Nat × AssignmentType × Bool)} (hg : GoodF f)
    (h : find_multiple_variables f s = .ok r) :
    GoodF r.1 ∧ ∀ sv ∈ r.2, sv.1 < r.1.vars.length := by
  unfold find_multiple_variables at h
  generalize hl : pySplitOn (strL ", ") s = l at h
  clear hl
  have main : ∀ (l : List Str)
      (st : Except String (Func × List (Nat × AssignmentType × Bool)))
      (r : Func × List (Nat × AssignmentType × Bool)),
      l.foldl (fun acc tok =>
        match acc with
        | Except.error e => Except.error e
        | Except.ok fv =>
          match find_single_variable fv.1
              (pyStripChars (strL "]") (pyStripChars (strL "[") tok)) with
          | Except.error e => Except.error e
          | Except.ok r => Except.ok (r.1, fv.2 ++ [r.2])) st =
        Except.ok r →
      ∃ fv, st = Except.ok fv ∧ (GoodF fv.1 →
        (∀ sv ∈ fv.2, sv.1 < fv.1.vars.length) →
        GoodF r.1 ∧ ∀ sv ∈ r.2, sv.1 < r.1.vars.length) := by
    intro l
    induction l with
    | nil =>
      intro st r h
      simp only [List.foldl_nil] at h
      exact ⟨r, h, fun hgf hbnd => ⟨hgf, hbnd⟩⟩
    | cons tok rest ih =>
      intro st r h
      simp only [List.foldl_cons] at h
      obtain ⟨fv1, hst1, himpl⟩ := ih _ r h
      cases st with
      | error e => simp at hst1
      | ok fv0 =>
        dsimp only [] at hst1
        rcases hsv : find_single_variable fv0.1
            (pyStripChars (strL "]") (pyStripChars (strL "[") tok))
          with e | r2
        · rw [hsv] at hst1
          simp at hst1
        · rw [hsv] at hst1
          replace hst1 := Except.ok.inj hst1
          refine ⟨fv0, rfl, fun hgf hbnd => ?_⟩
          obtain ⟨hg2, hb2⟩ := good_find_single_variable hgf hsv
          refine himpl ?_ ?_
          · rw [← hst1]; exact hg2
          · rw [← hst1]
            intro sv hsvm
            rcases List.mem_append.mp hsvm with hin | hin
            · have hle := (step_find_single_variable hsv).2.2
              exact Nat.lt_of_lt_of_le (hbnd sv hin) hle
            · rw [List.mem_singleton.mp hin]
              exact hb2
  obtain ⟨fv, hfv, himpl⟩ := main l _ r h
  obtain rfl := Except.ok.inj hfv
  exact himpl hg (by intro sv hsv; simp at hsv)

theorem good_find_source_variables {f : Func} {statement : Str}
    {r : Func × List (Nat × AssignmentType × Bool) × List InlineFinding}
    (hg : GoodF f) (h : find_source_variables f statement = .ok r) :
    GoodF r.1 ∧ ∀ sv ∈ r.2.1, sv.1 < r.1.vars.length := by
  unfold find_source_variables at h
  dsimp only [] at h
  by_cases h1 : is_function_call (pyStripChars (strL ";")
      (pyTrim ((pySplitOn (strL " = ") statement).getD 1 []))) = true
  · rw [if_pos h1] at h
    obtain rfl := Except.ok.inj h
    exact ⟨hg, by intro sv hsv; simp at hsv⟩
  · rw [if_neg h1] at h
    rcases hc : is_const (pyStripChars (strL ";")
        (pyTrim ((pySplitOn (strL " = ") statement).getD 1 []))) with e | b
    · rw [hc] at h; simp at h
    · rw [hc] at h
      dsimp only [] at h
      by_cases hb : b = true
      · rw [if_pos hb] at h
        obtain rfl := Except.ok.inj h
        exact ⟨hg, by intro sv hsv; simp at hsv⟩
      · rw [if_neg hb] at h
        by_cases hv : is_variable_vector (pyStripChars (strL ";")
            (pyTrim ((pySplitOn (strL " = ") statement).getD 1 []))) = true
        · rw [if_pos hv] at h
          rcases hm : find_multiple_variables f (pyStripChars (strL ";")
              (pyTrim ((pySplitOn (strL " = ") statement).getD 1 [])))
            with e | fv
          · rw [hm] at h; simp at h
          · rw [hm] at h
            dsimp only [] at h
            obtain rfl := Except.ok.inj h
            exact good_find_multiple_variables hg hm
        · rw [if_neg hv] at h
          by_cases hsk : should_skip (pyStripChars (strL ";")
              (pyTrim ((pySplitOn (strL " = ") statement).getD 1 []))) = true
          · rw [if_pos hsk] at h
            dsimp only [] at h
            obtain rfl := Except.ok.inj h
            exact ⟨hg, by intro sv hsv; simp at hsv⟩
          · rw [if_neg hsk] at h
            rcases hss : find_single_variable f (pyStripChars (strL ";")
                (pyTrim ((pySplitOn (strL " = ") statement).getD 1 [])))
              with e | r2
            · rw [hss] at h; simp at h
            · rw [hss] at h
              dsimp only [] at h
              obtain rfl := Except.ok.inj h
              obtain ⟨hg2, hb2⟩ := good_find_single_variable hg hss
              refine ⟨hg2, ?_⟩
              intro sv hsv
              rw [List.mem_singleton.mp hsv]
              exact hb2

theorem good_resolveChildOperand {f : Func} {root : Nat} {cn : Str}
    {ct : Option Str} {r : Func × Nat} (hg : GoodF f)
    (hroot : root < f.vars.length)
    (h : resolveChildOperand f root cn ct = .ok r) :
    GoodF r.1 ∧ r.2 < r.1.vars.length := by
  unfold resolveChildOperand at h
  split at h
  · split at h
    · exact absurd h (by simp)
    · rename_i t
      obtain rfl := Except.ok.inj h
      dsimp only []
      constructor
      · refine good_add_child _ root _ ?_
          (good_pushVar_mk f cn t hg)
        rw [vars_length_pushVar]
        have h2 : (pushVar f (mkVariable cn t)).2 = f.vars.length := rfl
        omega
      · have h1 : (add_child_variable (pushVar f (mkVariable cn t)).1
            root (pushVar f (mkVariable cn t)).2).vars.length =
            f.vars.length + 1 := by
          rw [add_child_variable, vars_length_updVar, vars_length_pushVar]
        rw [h1]
        have h2 : (pushVar f (mkVariable cn t)).2 = f.vars.length := rfl
        omega
  · rename_i ci hfind
    obtain rfl := Except.ok.inj h
    refine ⟨hg, ?_⟩
    have := hg.1.2.2 root hroot
    exact this.1 ci (List.mem_of_find?_eq_some hfind)

theorem good_resolveChainOperand {l : List (Str × Option Str)} :
    ∀ {f : Func} {root : Nat} {r : Func × Nat}, GoodF f →
      root < f.vars.length → resolveChainOperand f root l = .ok r →
      GoodF r.1 ∧ r.2 < r.1.vars.length := by
  induction l with
  | nil =>
    intro f root r hg hroot h
    unfold resolveChainOperand at h
    obtain rfl := Except.ok.inj h
    exact ⟨hg, hroot⟩
  | cons p rest ih =>
    intro f root r hg hroot h
    unfold resolveChainOperand at h
    split at h
    · exact absurd h (by simp)
    · rename_i fi heq
      obtain ⟨hg2, hb2⟩ := good_resolveChildOperand hg hroot heq
      exact ih hg2 hb2 h

theorem good_get_function_operands {f : Func} {statement : Str}
    {r : Func × List Nat} (hg : GoodF f)
    (h : get_function_operands f statement = .ok r) :
    GoodF r.1 ∧ ∀ op ∈ r.2, op < r.1.vars.length := by
  unfold get_function_operands at h
  dsimp only [] at h
  split at h
  · obtain rfl := Except.ok.inj h
    exact ⟨hg, by intro op hop; simp at hop⟩
  · generalize hl : (pySplitOn (strL "move ") (callSrcStr statement)).tail
      = l at h
    clear hl
    have main : ∀ (l : List Str)
        (st : Except String (Func × List Nat)) (r : Func × List Nat),
        l.foldl (fun acc token =>
          match acc with
          | Except.error e => Except.error e
          | Except.ok fo =>
            if !is_local_variable (pyTrim (pyStripChars (strL ")")
                (pyTrim ((pySplitOn (strL ", ") token).getD 0 [])))) then
              Except.error "AssertionError: operand is not a local variable"
            else
              match find_variable_name_and_type
                  (pyTrim (pyStripChars (strL ")")
                    (pyTrim ((pySplitOn (strL ", ") token).getD 0 [])))) with
              | Except.error e => Except.error e
              | Except.ok avec =>
                match avec.2 with
                | [] => Except.error "empty place chain"
                | (rn, _) :: rest =>
                  match find_local_variable_by_name fo.1 rn with
                  | none =>
                    Except.error "AttributeError: operand root is None"
                  | some root =>
                    match resolveChainOperand fo.1 root rest with
                    | Except.error e => Except.error e
                    | Except.ok fr => Except.ok (fr.1, fo.2 ++ [fr.2])) st =
          Except.ok r →
        ∃ fv, st = Except.ok fv ∧ (GoodF fv.1 →
          (∀ op ∈ fv.2, op < fv.1.vars.length) →
          GoodF r.1 ∧ ∀ op ∈ r.2, op < r.1.vars.length) := by
      intro l
      induction l with
      | nil =>
        intro st r h
        simp only [List.foldl_nil] at h
        exact ⟨r, h, fun hgf hbnd => ⟨hgf, hbnd⟩⟩
      | cons tok rest ih =>
        intro st r h
        simp only [List.foldl_cons] at h
        obtain ⟨fv1, hst1, himpl⟩ := ih _ r h
        cases st with
        | error e => simp at hst1
        | ok fv0 =>
          dsimp only [] at hst1
          refine ⟨fv0, rfl, fun hgf hbnd => ?_⟩
          split at hst1
          · simp at hst1
          · split at hst1
            · simp at hst1
            · split at hst1
              · simp at hst1
              · split at hst1
                · simp at hst1
                · rename_i root hroot
                  split at hst1
                  · simp at hst1
                  · rename_i fr hfr
                    replace hst1 := Except.ok.inj hst1
                    have hrb : root < fv0.1.vars.length := by
                      obtain ⟨p, hp, hpi⟩ := dictFind_mem hroot
                      exact hpi ▸ hgf.1.1 p hp
                    obtain ⟨hg2, hb2⟩ :=
                      good_resolveChainOperand hgf hrb hfr
                    refine himpl ?_ ?_
                    · rw [← hst1]; exact hg2
                    · rw [← hst1]
                      intro op hop
                      rcases List.mem_append.mp hop with hin | hin
                      · have hle := (step_resolveChainOperand hfr).2.2
                        exact Nat.lt_of_lt_of_le (hbnd op hin) hle
                      · rw [List.mem_singleton.mp hin]
                        exact hb2
    obtain ⟨fv, hfv, himpl⟩ := main _ (Except.ok (f, [])) r h
    obtain rfl := Except.ok.inj hfv
    exact himpl hg (by intro op hop; simp at hop)

theorem preserved_foldl {α : Type} (P : Func → Prop) (g : Func → α → Func)
    (hg : ∀ f a, P f → P (g f a)) :
    ∀ (l : List α) (f : Func), P f → P (l.foldl g f) := by
  intro l
  induction l with
  | nil => intro f h; exact h
  | cons a rest ih => intro f h; exact ih (g f a) (hg f a h)

theorem refBound_elim {f : Func} {s t : Nat} (hg : GoodF f)
    (hs : s < f.vars.length) (ht : (getVar f s).reference_to = some t) :
    t < f.vars.length := by
  have h2 := (hg.1.2.2 s hs).2
  unfold refBoundB at h2
  rw [ht] at h2
  simpa using h2

theorem good_do_forget_recursive (fuel : Nat) :
    ∀ (f : Func) (i : Nat), GoodF f →
      GoodF (do_forget_recursive fuel f i) := by
  induction fuel with
  | zero => intro f i h; exact h
  | succ fuel ih =>
    intro f i h
    unfold do_forget_recursive
    refine good_set_lifetime_state _ i _ ?_
    exact preserved_foldl GoodF _ (fun f c hf => ih f c hf) _ f h

theorem good_handle_mem_forget {f : Func} {statement : Str}
    {operands : List Nat} {r : Func} (hg : GoodF f)
    (h : handle_mem_forget f statement operands = .ok r) : GoodF r := by
  unfold handle_mem_forget at h
  split at h
  · split at h
    · exact (Except.ok.inj h) ▸ good_do_forget_recursive _ f _ hg
    · exact absurd h (by simp)
  · exact (Except.ok.inj h) ▸ hg

theorem good_handle_moving_recursive (fuel : Nat) :
    ∀ (f : Func) (src dest : Nat), GoodF f → dest < f.vars.length →
      GoodF (handle_moving_recursive fuel f src dest) ∧
      dest < (handle_moving_recursive fuel f src dest).vars.length := by
  induction fuel with
  | zero => intro f src dest h hd; exact ⟨h, hd⟩
  | succ fuel ih =>
    intro f src dest h hd
    unfold handle_moving_recursive
    have h1 := preserved_foldl
      (fun g => GoodF g ∧ dest < g.vars.length)
      (fun acc c => handle_moving_recursive fuel acc c dest)
      (fun g c hgc => ih g c dest hgc.1 hgc.2)
      (getVar f src).children f ⟨h, hd⟩
    exact preserved_foldl (fun g => GoodF g ∧ dest < g.vars.length)
      (fun acc r => set_reference acc r (some dest))
      (fun g rr hgr =>
        ⟨good_set_reference g rr (some dest)
            (fun t ht => (Option.some.inj ht) ▸ hgr.2) hgr.1,
          by rw [vars_length_set_reference]; exact hgr.2⟩)
      _ _ h1

theorem good_do_single_variable_assignment {f : Func} {dv : Nat}
    {dAT : AssignmentType} {sv : Option Nat} {sAT : AssignmentType}
    {moved : Bool} {r : Func} (hg : GoodF f) (hdv : dv < f.vars.length)
    (hsv : ∀ s, sv = some s → s < f.vars.length)
    (h : do_single_variable_assignment f dv dAT sv sAT moved = .ok r) :
    GoodF r := by
  unfold do_single_variable_assignment at h
  dsimp only [] at h
  split at h
  · exact (Except.ok.inj h) ▸ hg
  · split at h
    · split at h
      · exact (Except.ok.inj h) ▸ hg
      · rename_i s
        split at h
        · exact (Except.ok.inj h) ▸
            (good_handle_moving_recursive _ f s dv hg hdv).1
        · exact (Except.ok.inj h) ▸ hg
    · split at h
      · split at h
        · exact (Except.ok.inj h) ▸ hg
        · rename_i s
          have hsb : s < f.vars.length := hsv s rfl
          split at h
          · split at h
            · exact (Except.ok.inj h) ▸ hg
            · split at h
              · exact (Except.ok.inj h) ▸ hg
              · exact (Except.ok.inj h) ▸ good_set_reference f dv (some s)
                  (fun t ht => (Option.some.inj ht) ▸ hsb) hg
          · split at h
            · split at h
              · exact (Except.ok.inj h) ▸ good_set_reference f dv (some s)
                  (fun t ht => (Option.some.inj ht) ▸ hsb) hg
              · split at h
                · exact Except.noConfusion h
                · split at h
                  · exact Except.noConfusion h
                  · split at h
                    · rename_i rr hrr
                      replace h := Except.ok.inj h
                      subst h
                      refine good_set_reference _ dv (some s) ?_
                        (good_set_lifetime_state f rr _ hg)
                      intro t ht
                      rw [set_lifetime_state, vars_length_updVar]
                      exact (Option.some.inj ht) ▸ hsb
                    · exact (Except.ok.inj h) ▸ hg
            · split at h
              · replace h := Except.ok.inj h
                subst h
                refine good_set_reference f dv _ ?_ hg
                intro t ht
                exact refBound_elim hg hsb ht
              · exact (Except.ok.inj h) ▸ hg
      · exact (Except.ok.inj h) ▸ hg

theorem good_aggregateAssign {f : Func} {dv : Nat} {dAT : AssignmentType}
    {vec : List (Nat × AssignmentType × Bool)} {r : Func} (hg : GoodF f)
    (hdv : dv < f.vars.length) (hvec : ∀ x ∈ vec, x.1 < f.vars.length)
    (h : aggregateAssign f dv dAT vec = .ok r) : GoodF r := by
  unfold aggregateAssign at h
  rcases hfold : (vec.foldl
      (fun acc sv =>
        match acc with
        | Except.error e => Except.error e
        | Except.ok fi =>
          let key := strL (Nat.repr fi.2)
          let childTypeName := (getVar fi.1 sv.1).type_name
          match find_child_variable_by_name fi.1 dv key with
          | some ci =>
            match do_single_variable_assignment fi.1 ci dAT (some sv.1)
                sv.2.1 sv.2.2 with
            | .error e => .error e
            | .ok f2 => .ok (f2, fi.2 + 1)
          | none =>
            let fc := pushVar fi.1 (mkVariable key childTypeName)
            let f2 := add_child_variable fc.1 dv fc.2
            match do_single_variable_assignment f2 fc.2 dAT (some sv.1)
                sv.2.1 sv.2.2 with
            | .error e => .error e
            | .ok f3 => .ok (f3, fi.2 + 1))
      (.ok (f, 0)) : Except String (Func × Nat)) with e | fr
  · rw [hfold] at h
    exact Except.noConfusion h
  · rw [hfold] at h
    dsimp only [Except.map] at h
    replace h := Except.ok.inj h
    have main : ∀ (l : List (Nat × AssignmentType × Bool))
        (st : Except String (Func × Nat)) (fr : Func × Nat),
        (∀ x ∈ l, x.1 < f.vars.length) →
        l.foldl (fun acc sv =>
          match acc with
          | Except.error e => Except.error e
          | Except.ok fi =>
            let key := strL (Nat.repr fi.2)
            let childTypeName := (getVar fi.1 sv.1).type_name
            match find_child_variable_by_name fi.1 dv key with
            | some ci =>
              match do_single_variable_assignment fi.1 ci dAT (some sv.1)
                  sv.2.1 sv.2.2 with
              | .error e => .error e
              | .ok f2 => .ok (f2, fi.2 + 1)
            | none =>
              let fc := pushVar fi.1 (mkVariable key childTypeName)
              let f2 := add_child_variable fc.1 dv fc.2
              match do_single_variable_assignment f2 fc.2 dAT (some sv.1)
                  sv.2.1 sv.2.2 with
              | .error e => .error e
              | .ok f3 => .ok (f3, fi.2 + 1)) st = Except.ok fr →
        ∃ fv, st = Except.ok fv ∧
          (GoodF fv.1 → dv < fv.1.vars.length →
            f.vars.length ≤ fv.1.vars.length → GoodF fr.1) := by
      intro l
      induction l with
      | nil =>
        intro st fr hbl h
        simp only [List.foldl_nil] at h
        exact ⟨fr, h, fun hg0 _ _ => hg0⟩
      | cons sv rest ih =>
        intro st fr hbl h
        simp only [List.foldl_cons] at h
        obtain ⟨fv1, hst1, himpl⟩ := ih _ fr
          (fun x hx => hbl x (List.mem_cons_of_mem sv hx)) h
        cases st with
        | error e => simp at hst1
        | ok fi0 =>
          dsimp only [] at hst1
          refine ⟨fi0, rfl, fun hg0 hdv0 hmono0 => ?_⟩
          have hsvb : sv.1 < fi0.1.vars.length :=
            Nat.lt_of_lt_of_le (hbl sv (List.mem_cons_self sv rest)) hmono0
          split at hst1
          · rename_i ci hci
            split at hst1
            · simp at hst1
            · rename_i f2 hdsa
              replace hst1 := Except.ok.inj hst1
              have hcib : ci < fi0.1.vars.length :=
                (hg0.1.2.2 dv hdv0).1 ci (List.mem_of_find?_eq_some hci)
              have hgf2 : GoodF f2 :=
                good_do_single_variable_assignment hg0 hcib
                  (fun s hs => (Option.some.inj hs) ▸ hsvb) hdsa
              have hlen2 : fi0.1.vars.length ≤ f2.vars.length :=
                (step_do_single_variable_assignment hdsa).2.2
              refine himpl ?_ ?_ ?_
              · rw [← hst1]; exact hgf2
              · rw [← hst1]; exact Nat.lt_of_lt_of_le hdv0 hlen2
              · rw [← hst1]; exact Nat.le_trans hmono0 hlen2
          · split at hst1
            · simp at hst1
            · rename_i f3 hdsa
              replace hst1 := Except.ok.inj hst1
              have hgfc : GoodF (pushVar fi0.1 (mkVariable
                  (strL (Nat.repr fi0.2))
                  ((getVar fi0.1 sv.1).type_name))).1 :=
                good_pushVar_mk fi0.1 _ _ hg0
              have hfc2 : (pushVar fi0.1 (mkVariable
                  (strL (Nat.repr fi0.2))
                  ((getVar fi0.1 sv.1).type_name))).2 =
                  fi0.1.vars.length := rfl
              have hlenfc : (pushVar fi0.1 (mkVariable
                  (strL (Nat.repr fi0.2))
                  ((getVar fi0.1 sv.1).type_name))).1.vars.length =
                  fi0.1.vars.length + 1 := vars_length_pushVar _ _
              have hgf2 : GoodF (add_child_variable
                  (pushVar fi0.1 (mkVariable (strL (Nat.repr fi0.2))
                    ((getVar fi0.1 sv.1).type_name))).1 dv
                  (pushVar fi0.1 (mkVariable (strL (Nat.repr fi0.2))
                    ((getVar fi0.1 sv.1).type_name))).2) := by
                refine good_add_child _ dv _ ?_ hgfc
                rw [hfc2, hlenfc]
                omega
              have hlenf2 : (add_child_variable
                  (pushVar fi0.1 (mkVariable (strL (Nat.repr fi0.2))
                    ((getVar fi0.1 sv.1).type_name))).1 dv
                  (pushVar fi0.1 (mkVariable (strL (Nat.repr fi0.2))
                    ((getVar fi0.1 sv.1).type_name))).2).vars.length =
                  fi0.1.vars.length + 1 := by
                rw [add_child_variable, vars_length_updVar, hlenfc]
              have hgf3 : GoodF f3 := by
                refine good_do_single_variable_assignment hgf2 ?_
                  (fun s hs => ?_) hdsa
                · rw [hlenf2, hfc2]; omega
                · rw [hlenf2]
                  exact (Option.some.inj hs) ▸ Nat.lt_succ_of_lt hsvb
              have hlen3 : fi0.1.vars.length + 1 ≤ f3.vars.length := by
                have h2 := (step_do_single_variable_assignment hdsa).2.2
                rw [hlenf2] at h2
                exact h2
              refine himpl ?_ ?_ ?_
              · rw [← hst1]; exact hgf3
              · rw [← hst1]
                exact Nat.lt_of_lt_of_le (Nat.lt_succ_of_lt hdv0) hlen3
              · rw [← hst1]
                exact Nat.le_trans (Nat.le_succ_of_le hmono0) hlen3
    obtain ⟨fv, hfv, himpl⟩ := main vec (Except.ok (f, 0)) fr hvec hfold
    obtain rfl := Except.ok.inj hfv
    rw [← h]
    exact himpl hg hdv (Nat.le_refl _)

theorem good_parserAssignment {f : Func} {statement : Str}
    {r : Func × List InlineFinding} (hg : GoodF f)
    (h : parserAssignment f statement = .ok r) : GoodF r.1 := by
  unfold parserAssignment at h
  dsimp only [] at h
  split at h
  · exact absurd h (by simp)
  · rename_i fd hfd
    obtain ⟨hg1, hb1⟩ := good_find_destination_variable hg hfd
    have hg2 : GoodF (set_lifetime_state fd.1 fd.2.1
        (EnumVal.ls LifetimeState.Alive)) :=
      good_set_lifetime_state _ _ _ hg1
    have hb2 : fd.2.1 < (set_lifetime_state fd.1 fd.2.1
        (EnumVal.ls LifetimeState.Alive)).vars.length := by
      rw [set_lifetime_state, vars_length_updVar]; exact hb1
    split at h
    · obtain rfl := Except.ok.inj h
      exact hg2
    · split at h
      · split at h
        · exact absurd h (by simp)
        · rename_i fo hfo
          obtain ⟨hg3, hb3⟩ := good_get_function_operands hg2 hfo
          split at h
          · exact absurd h (by simp)
          · rename_i f4 hmf
            have hg4 : GoodF f4 := good_handle_mem_forget hg3 hmf
            have hlen4 : fo.1.vars.length ≤ f4.vars.length :=
              (step_handle_mem_forget hmf).2.2
            have hb4 : fd.2.1 < f4.vars.length := by
              have h2 := (step_get_function_operands hfo).2.2
              omega
            split at h
            · rename_i hcond
              split at h
              · rename_i hsrc
                obtain rfl := Except.ok.inj h
                dsimp only []
                refine good_set_reference f4 fd.2.1 _ ?_ hg4
                intro t ht
                have hlone : fo.2.length = 1 := by
                  have h2 := (Bool.and_eq_true _ _).mp hcond
                  simpa using h2.2
                obtain ⟨op, hop⟩ := List.length_eq_one.mp hlone
                have hsb : (fo.2.getD 0 0) < f4.vars.length := by
                  rw [hop]
                  refine Nat.lt_of_lt_of_le (hb3 op ?_) hlen4
                  rw [hop]
                  exact List.mem_singleton_self op
                exact refBound_elim hg4 hsb ht
              · obtain rfl := Except.ok.inj h
                exact hg4
            · obtain rfl := Except.ok.inj h
              exact hg4
      · split at h
        · exact absurd h (by simp)
        · rename_i fsv hfsv
          obtain ⟨hg3, hb3⟩ := good_find_source_variables hg2 hfsv
          have hb4 : fd.2.1 < fsv.1.vars.length :=
            Nat.lt_of_lt_of_le hb2 (step_find_source_variables hfsv).2.2
          split at h
          · split at h
            · exact absurd h (by simp)
            · rename_i f4 hagg
              obtain rfl := Except.ok.inj h
              exact good_aggregateAssign hg3 hb4 hb3 hagg
          · split at h
            · rename_i sv hveq
              split at h
              · exact absurd h (by simp)
              · rename_i f4 hdsa
                obtain rfl := Except.ok.inj h
                refine good_do_single_variable_assignment hg3 hb4
                  (fun s hs => ?_) hdsa
                refine (Option.some.inj hs) ▸ hb3 sv ?_
                rw [hveq]
                exact List.mem_singleton_self sv
            · split at h
              · exact absurd h (by simp)
              · rename_i f4 hdsa
                obtain rfl := Except.ok.inj h
                exact good_do_single_variable_assignment hg3 hb4
                  (fun s hs => Option.noConfusion hs) hdsa

theorem good_parserStorageDead {f : Func} {statement : Str} {r : Func}
    (hg : GoodF f) (h : parserStorageDead f statement = .ok r) :
    GoodF r := by
  unfold parserStorageDead at h
  split at h
  · split at h
    · exact absurd h (by simp)
    · dsimp only [] at h
      split at h
      · exact absurd h (by simp)
      · split at h
        · exact (Except.ok.inj h) ▸ hg
        · exact (Except.ok.inj h) ▸ good_set_lifetime_state f _ _ hg
  · exact (Except.ok.inj h) ▸ hg

theorem good_parser_statement {f : Func} {raw : Str}
    {r : Func × List InlineFinding} (hg : GoodF f)
    (h : parser_statement f raw = .ok r) : GoodF r.1 := by
  unfold parser_statement at h
  dsimp only [] at h
  split at h
  · exact Except.noConfusion h
  · rename_i fr hpa
    split at h
    · exact Except.noConfusion h
    · rename_i f2 hsd
      obtain rfl := Except.ok.inj h
      have hgfr : GoodF fr.1 := by
        split at hpa
        · exact good_parserAssignment hg hpa
        · obtain rfl := Except.ok.inj hpa
          exact hg
      exact good_parserStorageDead hgfr hsd

theorem good_reset_variables_state (f : Func) (h : WFf f) :
    GoodF (reset_variables_state f) := by
  obtain ⟨w1, w2, w3⟩ := h
  obtain ⟨ha, hl, hgm, hlen⟩ := reset_variables_state_fields f
  constructor
  · refine ⟨?_, ?_, ?_⟩
    · intro p hp
      rw [hlen]
      rw [hl] at hp
      exact w1 p hp
    · intro p hp
      rw [hlen]
      rw [hgm] at hp
      exact w2 p hp
    · intro i hi
      rw [hlen] at hi
      constructor
      · intro c hc
        rw [getVar_reset_variables_state f i] at hc
        rw [hlen]
        split at hc
        · exact (w3 i hi).1 c hc
        · exact (w3 i hi).1 c hc
      · unfold refBoundB
        rw [getVar_reset_variables_state f i, hlen]
        by_cases hcond : (f.local_variables.any (fun p => p.2 == i) ||
            f.global_variables.any (fun p => p.2 == i)) = true
        · rw [if_pos hcond]
          rfl
        · rw [if_neg hcond]
          have h2 := (w3 i hi).2
          unfold refBoundB at h2
          exact h2
  · intro i hi hroot
    rw [hlen] at hi
    rw [isRootIdx_maps_eq hl hgm] at hroot
    unfold refOkB
    rw [getVar_reset_variables_state f i]
    have hcond : (f.local_variables.any (fun p => p.2 == i) ||
        f.global_variables.any (fun p => p.2 == i)) = true := by
      rcases hroot with ⟨p, hp, hpi⟩ | ⟨p, hp, hpi⟩
      · have h2 : f.local_variables.any (fun p => p.2 == i) = true :=
          List.any_eq_true.mpr ⟨p, hp, by simp [hpi]⟩
        simp [h2]
      · have h2 : f.global_variables.any (fun p => p.2 == i) = true :=
          List.any_eq_true.mpr ⟨p, hp, by simp [hpi]⟩
        simp [h2]
    rw [if_pos hcond]
    rfl

instance (f : Func) : Decidable (WFf f) := by
  unfold WFf
  exact inferInstance

instance (f : Func) : Decidable (EdgeInv f) := by
  unfold EdgeInv
  exact inferInstance

instance (f : Func) : Decidable (GoodF f) := by
  unfold GoodF
  exact inferInstance

/-- Reset state for the C6 amended-invariant witness. -/
def c6WReset : Func := reset_variables_state c6F

/-- State after interpreting `_2 = &_1;` from the reset state. -/
def c6WPost : Func :=
  match parser_statement c6WReset (strL "_2 = &_1;") with
  | .ok fr => fr.1
  | .error _ => c6WReset

/-- C6, amended: the reverse-edge invariant does hold for root variables
(those bound in the local or global map).  Starting from any well-formed
arena, the per-path reset establishes the root invariant (every root's
`reference_to` is cleared), and every successfully interpreted statement
preserves it together with arena well-formedness, because `set_reference`
is the only operation writing a forward edge and it always appends the
matching reverse edge.  (For non-root child variables the invariant fails,
see the counterexample: the reset clears the referent's `referenced_by`
while a child keeps its stale forward edge.) -/
theorem claim_c6_root_edge_consistency :
    (∀ f : Func, WFf f → GoodF (reset_variables_state f)) ∧
    (∀ (f : Func) (raw : Str) (r : Func × List InlineFinding),
      GoodF f → parser_statement f raw = .ok r → GoodF r.1) :=
  ⟨fun f h => good_reset_variables_state f h,
   fun _ _ _ hg h => good_parser_statement hg h⟩

/-- C6 witness: on the concrete three-variable fixture, the reset state is
good and stays good through `_2 = &_1;`. -/
theorem claim_c6_witness :
    WFf c6F ∧ GoodF (reset_variables_state c6F) ∧
    parser_statement c6WReset (strL "_2 = &_1;") = .ok (c6WPost, []) ∧
    GoodF c6WPost :=
  ⟨by decide, claim_c6_root_edge_consistency.1 c6F (by decide),
   by decide,
   claim_c6_root_edge_consistency.2 c6WReset (strL "_2 = &_1;")
     (c6WPost, []) (by decide) (by decide)⟩

/-! ## C5: termination and loop-freedom of `flatten_cfg` -/

/-- Every block's successor computation succeeds and every successor label
names a block (the claim's finite-CFG side conditions). -/
def succsResolvable (blocks : List BBlk) : Bool :=
  blocks.all (fun b =>
    match find_successors b with
    | none => false
    | some succs => succs.all (fun s => (findBlockIdx blocks s).isSome))

/-- An upper bound on the successor count of any block. -/
def succCountBound (blocks : List BBlk) : Nat :=
  (blocks.map (fun b => ((find_successors b).getD []).length)).foldr
    Nat.max 0

/-- Path weight for the termination measure: extensions strictly shorten
the remaining budget exponent. -/
def pw (S n : Nat) (p : List Nat) : Nat := (S + 1) ^ (n - p.length)

/-- Worklist invariant: paths are nonempty, visit pairwise distinct block
names, and hold in-range block indices. -/
def PathInv (blocks : List BBlk) (p : List Nat) : Prop :=
  p ≠ [] ∧ (p.map (blockNameAt blocks)).Nodup ∧
  ∀ i ∈ p, i < blocks.length

theorem le_foldr_max (l : List Nat) (x : Nat) (h : x ∈ l) :
    x ≤ l.foldr Nat.max 0 := by
  induction l with
  | nil => simp at h
  | cons a rest ih =>
    rcases List.mem_cons.mp h with rfl | h2
    · exact Nat.le_max_left _ _
    · exact Nat.le_trans (ih h2) (Nat.le_max_right _ _)

theorem sum_of_all_eq (l : List Nat) (c : Nat) (h : ∀ x ∈ l, x = c) :
    l.sum = l.length * c := by
  induction l with
  | nil => simp
  | cons a rest ih =>
    have ha : a = c := h a (List.mem_cons_self a rest)
    have hs := ih (fun x hx => h x (List.mem_cons_of_mem a hx))
    simp only [List.sum_cons, List.length_cons, ha, hs]
    ring

theorem pathInv_length_le {blocks : List BBlk} {p : List Nat}
    (h : PathInv blocks p) : p.length ≤ blocks.length := by
  have hsub : p.map (blockNameAt blocks) ⊆
      blocks.map (fun b => b.name) := by
    intro s hs
    obtain ⟨i, hip, rfl⟩ := List.mem_map.mp hs
    have hi : i < blocks.length := h.2.2 i hip
    refine List.mem_map.mpr ⟨blocks.get ⟨i, hi⟩, List.get_mem _ _ _, ?_⟩
    unfold blockNameAt
    rw [List.getD_eq_getElem blocks emptyBBlk hi]
    rfl
  have hle := (List.subperm_of_subset h.2.1 hsub).length_le
  rw [List.length_map, List.length_map] at hle
  exact hle

theorem extendPaths_fold_spec (blocks : List BBlk) (cur : List Nat) :
    ∀ (succs : List Str) (pl : List (List Nat)) (flag : Bool),
      (∀ s ∈ succs, (findBlockIdx blocks s).isSome = true) →
      ∃ exts : List (List Nat),
        succs.foldl
          (fun acc succ =>
            match acc with
            | none => none
            | some pr =>
              if nameInPath blocks cur succ then some pr
              else
                match findBlockIdx blocks succ with
                | none => none
                | some bi => some (pr.1 ++ [cur ++ [bi]], true))
          (some (pl, flag)) =
          some (pl ++ exts, flag || !exts.isEmpty) ∧
        exts.length ≤ succs.length ∧
        ∀ e ∈ exts, ∃ bi, e = cur ++ [bi] ∧ bi < blocks.length ∧
          nameInPath blocks cur (blockNameAt blocks bi) = false := by
  intro succs
  induction succs with
  | nil =>
    intro pl flag hres
    refine ⟨[], by simp, by simp, by intro e he; simp at he⟩
  | cons s rest ih =>
    intro pl flag hres
    by_cases hin : nameInPath blocks cur s = true
    · obtain ⟨exts, heq, hlen, hprop⟩ :=
        ih pl flag (fun x hx => hres x (List.mem_cons_of_mem s hx))
      refine ⟨exts, ?_, Nat.le_succ_of_le hlen, hprop⟩
      simp only [List.foldl_cons]
      rw [if_pos hin]
      exact heq
    · have hsome := hres s (List.mem_cons_self s rest)
      obtain ⟨bi, hbi⟩ := Option.isSome_iff_exists.mp hsome
      have hbi2 := hbi
      unfold findBlockIdx at hbi2
      have hbilt : bi < blocks.length := by
        have h2 := List.mem_of_find?_eq_some hbi2
        exact List.mem_range.mp h2
      have hfs := List.find?_some hbi2
      have hnm : blockNameAt blocks bi = s := by
        simp only [] at hfs
        exact eq_of_beq hfs
      obtain ⟨exts, heq, hlen, hprop⟩ :=
        ih (pl ++ [cur ++ [bi]]) true
          (fun x hx => hres x (List.mem_cons_of_mem s hx))
      refine ⟨(cur ++ [bi]) :: exts, ?_, by simpa using hlen, ?_⟩
      · simp only [List.foldl_cons]
        rw [if_neg hin, hbi]
        rw [heq]
        simp
      · intro e he
        rcases List.mem_cons.mp he with rfl | h2
        · refine ⟨bi, rfl, hbilt, ?_⟩
          rw [hnm]
          exact Bool.eq_false_iff.mpr hin
        · exact hprop e h2

theorem pathInv_ext {blocks : List BBlk} {cur : List Nat} {bi : Nat}
    (hcur : PathInv blocks cur) (hbi : bi < blocks.length)
    (hguard : nameInPath blocks cur (blockNameAt blocks bi) = false) :
    PathInv blocks (cur ++ [bi]) := by
  refine ⟨by simp, ?_, ?_⟩
  · have hnotin : blockNameAt blocks bi ∉
        cur.map (blockNameAt blocks) := by
      intro hmem
      obtain ⟨i, hi, heq⟩ := List.mem_map.mp hmem
      simp only [nameInPath, List.any_eq_false] at hguard
      exact (hguard i hi) (by simp [heq])
    have hmapped : (cur ++ [bi]).map (blockNameAt blocks) =
        cur.map (blockNameAt blocks) ++ [blockNameAt blocks bi] := by
      simp
    rw [hmapped]
    exact ((List.perm_append_singleton _ _).nodup_iff).mpr
      (List.nodup_cons.mpr ⟨hnotin, hcur.2.1⟩)
  · intro i hi
    rcases List.mem_append.mp hi with h2 | h2
    · exact hcur.2.2 i h2
    · rw [List.mem_singleton.mp h2]
      exact hbi

theorem mem_of_getLast?_eq {α : Type} {l : List α} {a : α}
    (h : l.getLast? = some a) : a ∈ l := by
  induction l with
  | nil => simp at h
  | cons x xs ih =>
    cases xs with
    | nil =>
      simp only [List.getLast?_singleton, Option.some.injEq] at h
      simp [h]
    | cons y ys =>
      rw [List.getLast?_cons_cons] at h
      exact List.mem_cons_of_mem x (ih h)

theorem flattenLoop_succ (blocks : List BBlk) (fuel : Nat)
    (paths : List (List Nat)) (idx : Nat) :
    flattenLoop blocks (fuel + 1) paths idx =
      (if idx = paths.length then some paths
       else
        match paths.get? idx with
        | none => none
        | some cur =>
          match cur.getLast? with
          | none => none
          | some lastIdx =>
            match find_successors (blocks.getD lastIdx emptyBBlk) with
            | none => none
            | some succs =>
              match extendPaths blocks cur succs paths with
              | none => none
              | some pr =>
                if pr.2 then flattenLoop blocks fuel (pr.1.erase cur) 0
                else flattenLoop blocks fuel pr.1 (idx + 1)) := rfl

theorem sum_erase_add {α : Type} [BEq α] [LawfulBEq α] (w : α → Nat) :
    ∀ (l : List α) (a : α), a ∈ l →
      ((l.erase a).map w).sum + w a = (l.map w).sum := by
  intro l
  induction l with
  | nil =>
    intro a h
    simp at h
  | cons b t ih =>
    intro a h
    rw [List.erase_cons]
    by_cases hba : b = a
    · rw [if_pos (by simp [hba])]
      subst hba
      simp only [List.map_cons, List.sum_cons]
      omega
    · rw [if_neg (by simp [hba])]
      have hat : a ∈ t := by
        rcases List.mem_cons.mp h with h2 | h2
        · exact absurd h2.symm hba
        · exact h2
      simp only [List.map_cons, List.sum_cons]
      have h3 := ih a hat
      omega

theorem flattenLoop_term (blocks : List BBlk)
    (hres : succsResolvable blocks = true) (μb : Nat) :
    ∀ (paths : List (List Nat)) (idx : Nat),
      (paths.map (pw (succCountBound blocks) blocks.length)).sum < μb →
      (∀ p ∈ paths, PathInv blocks p) → idx ≤ paths.length →
      ∃ fuel res, flattenLoop blocks fuel paths idx = some res ∧
        ∀ p ∈ res, PathInv blocks p := by
  unfold succsResolvable at hres
  induction μb with
  | zero =>
    intro paths idx hsum _ _
    omega
  | succ μb ihμ =>
    have inner : ∀ (k : Nat) (paths : List (List Nat)) (idx : Nat),
        paths.length - idx = k →
        (paths.map (pw (succCountBound blocks) blocks.length)).sum <
          μb + 1 →
        (∀ p ∈ paths, PathInv blocks p) → idx ≤ paths.length →
        ∃ fuel res, flattenLoop blocks fuel paths idx = some res ∧
          ∀ p ∈ res, PathInv blocks p := by
      intro k
      induction k with
      | zero =>
        intro paths idx hk hsum hinv hle
        have hidx : idx = paths.length := by omega
        refine ⟨1, paths, ?_, hinv⟩
        rw [flattenLoop_succ]
        rw [if_pos hidx]
      | succ k ihk =>
        intro paths idx hk hsum hinv hle
        have hlt : idx < paths.length := by omega
        have hne2 : ¬ idx = paths.length := by omega
        have hget : paths.get? idx = some (paths.get ⟨idx, hlt⟩) :=
          List.get?_eq_get hlt
        set cur := paths.get ⟨idx, hlt⟩ with hcurdef
        have hmem : cur ∈ paths := List.get_mem paths idx hlt
        have hpc : PathInv blocks cur := hinv cur hmem
        obtain ⟨lastIdx, hlast⟩ :=
          Option.isSome_iff_exists.mp (List.getLast?_isSome.mpr hpc.1)
        have hlmem : lastIdx ∈ cur := mem_of_getLast?_eq hlast
        have hlb : lastIdx < blocks.length := hpc.2.2 lastIdx hlmem
        have hblockmem : blocks.getD lastIdx emptyBBlk ∈ blocks := by
          rw [List.getD_eq_getElem blocks emptyBBlk hlb]
          exact List.getElem_mem hlb
        have hall := List.all_eq_true.mp hres _ hblockmem
        obtain ⟨succs, hfs⟩ : ∃ ss,
            find_successors (blocks.getD lastIdx emptyBBlk) = some ss := by
          cases hfs : find_successors (blocks.getD lastIdx emptyBBlk) with
          | some ss => exact ⟨ss, rfl⟩
          | none =>
            rw [hfs] at hall
            simp at hall
        have hallsucc : ∀ s ∈ succs,
            (findBlockIdx blocks s).isSome = true := by
          rw [hfs] at hall
          dsimp only [] at hall
          intro s hs
          exact List.all_eq_true.mp hall s hs
        have hscount : succs.length ≤ succCountBound blocks := by
          have h2 := le_foldr_max _ _
            (List.mem_map_of_mem
              (fun b => ((find_successors b).getD []).length) hblockmem)
          dsimp only [] at h2
          rw [hfs] at h2
          simpa [succCountBound] using h2
        obtain ⟨exts, heq, hextlen, hextprop⟩ :=
          extendPaths_fold_spec blocks cur succs paths false hallsucc
        have hext : extendPaths blocks cur succs paths =
            some (paths ++ exts, false || !exts.isEmpty) := by
          unfold extendPaths
          exact heq
        have hextinv : ∀ e ∈ exts, PathInv blocks e := by
          intro e he
          obtain ⟨bi, rfl, hbilt, hguard⟩ := hextprop e he
          exact pathInv_ext hpc hbilt hguard
        by_cases hflag : exts.isEmpty = true
        · have hexts0 : exts = [] := by simpa using hflag
          subst hexts0
          obtain ⟨fuel', res, hrun, hresinv⟩ :=
            ihk paths (idx + 1) (by omega) hsum hinv (by omega)
          refine ⟨fuel' + 1, res, ?_, hresinv⟩
          rw [flattenLoop_succ, if_neg hne2, hget]
          dsimp only []
          rw [hlast]
          dsimp only []
          rw [hfs]
          dsimp only []
          rw [hext]
          dsimp only []
          simp only [List.isEmpty_nil, Bool.not_true, Bool.or_false,
            List.append_nil, if_false]
          exact hrun
        · have hextne : exts ≠ [] := by
            intro h2
            exact hflag (by simp [h2])
          obtain ⟨e0, he0⟩ := List.exists_mem_of_ne_nil exts hextne
          obtain ⟨bi0, he0eq, hbi0, hguard0⟩ := hextprop e0 he0
          have hcurlen : cur.length + 1 ≤ blocks.length := by
            have h2 := pathInv_length_le (hextinv e0 he0)
            rw [he0eq] at h2
            simpa using h2
          have hwext : ∀ x ∈ exts.map
              (pw (succCountBound blocks) blocks.length),
              x = (succCountBound blocks + 1) ^
                (blocks.length - (cur.length + 1)) := by
            intro x hx
            obtain ⟨e, he, rfl⟩ := List.mem_map.mp hx
            obtain ⟨bi, rfl, h3, h4⟩ := hextprop e he
            simp [pw]
          have hsumext : (exts.map
              (pw (succCountBound blocks) blocks.length)).sum =
              exts.length * (succCountBound blocks + 1) ^
                (blocks.length - (cur.length + 1)) := by
            have h2 := sum_of_all_eq _ _ hwext
            rwa [List.length_map] at h2
          have hpowpos : 0 < (succCountBound blocks + 1) ^
              (blocks.length - (cur.length + 1)) :=
            pow_pos (by omega) _
          have hdec : (exts.map
              (pw (succCountBound blocks) blocks.length)).sum <
              pw (succCountBound blocks) blocks.length cur := by
            rw [hsumext]
            unfold pw
            have hexp : blocks.length - cur.length =
                (blocks.length - (cur.length + 1)) + 1 := by omega
            rw [hexp, pow_succ]
            calc exts.length * (succCountBound blocks + 1) ^
                  (blocks.length - (cur.length + 1))
                ≤ succCountBound blocks * (succCountBound blocks + 1) ^
                  (blocks.length - (cur.length + 1)) :=
                  Nat.mul_le_mul_right _ (le_trans hextlen hscount)
              _ < (succCountBound blocks + 1) ^
                  (blocks.length - (cur.length + 1)) *
                  (succCountBound blocks + 1) := by
                  rw [Nat.mul_comm ((succCountBound blocks + 1) ^
                    (blocks.length - (cur.length + 1)))
                    (succCountBound blocks + 1)]
                  exact (Nat.mul_lt_mul_right hpowpos).mpr
                    (Nat.lt_succ_self _)
          have hmem2 : cur ∈ paths ++ exts := List.mem_append_left _ hmem
          have hsumeq := sum_erase_add
            (pw (succCountBound blocks) blocks.length)
            (paths ++ exts) cur hmem2
          have hsumapp : ((paths ++ exts).map
              (pw (succCountBound blocks) blocks.length)).sum =
              (paths.map (pw (succCountBound blocks) blocks.length)).sum +
              (exts.map (pw (succCountBound blocks) blocks.length)).sum :=
            by simp
          have hnewinv : ∀ p ∈ (paths ++ exts).erase cur,
              PathInv blocks p := by
            intro p hp
            rcases List.mem_append.mp (List.mem_of_mem_erase hp)
              with h2 | h2
            · exact hinv p h2
            · exact hextinv p h2
          obtain ⟨fuel', res, hrun, hresinv⟩ :=
            ihμ ((paths ++ exts).erase cur) 0 (by omega) hnewinv
              (Nat.zero_le _)
          refine ⟨fuel' + 1, res, ?_, hresinv⟩
          rw [flattenLoop_succ, if_neg hne2, hget]
          dsimp only []
          rw [hlast]
          dsimp only []
          rw [hfs]
          dsimp only []
          rw [hext]
          dsimp only []
          have hflagt : (false || !exts.isEmpty) = true := by
            have h2 : exts.isEmpty = false := Bool.eq_false_iff.mpr hflag
            rw [h2]
            rfl
          rw [if_pos hflagt]
          exact hrun
    intro paths idx hsum hinv hle
    exact inner (paths.length - idx) paths idx rfl hsum hinv hle

/-- C5: for a nonempty CFG in which every block's terminator labels parse
and resolve to existing blocks, the worklist path enumeration of
`flatten_cfg` terminates (some fuel makes it return paths), and no
enumerated path visits the same basic block twice — neither the same
arena index nor the same block name. -/
theorem claim_c5_flatten_cfg_terminates (f : Func)
    (hne : f.basic_blocks ≠ [])
    (hres : succsResolvable f.basic_blocks = true) :
    ∃ fuel ps, flatten_cfg f fuel = some ps ∧
      ∀ p ∈ ps, p.Nodup ∧
        (p.map (blockNameAt f.basic_blocks)).Nodup := by
  have h0 : ∀ p ∈ [[0]], PathInv f.basic_blocks p := by
    intro p hp
    rw [List.mem_singleton.mp hp]
    refine ⟨by simp, by simp, ?_⟩
    intro i hi
    rw [List.mem_singleton.mp hi]
    exact List.length_pos.mpr hne
  obtain ⟨fuel, res, hrun, hinv⟩ :=
    flattenLoop_term f.basic_blocks hres
      ((([[0]].map (pw (succCountBound f.basic_blocks)
        f.basic_blocks.length)).sum) + 1) [[0]] 0
      (by omega) h0 (by simp)
  refine ⟨fuel, res, ?_, ?_⟩
  · unfold flatten_cfg
    rcases hbb : f.basic_blocks with _ | ⟨b, bs⟩
    · exact absurd hbb hne
    · rw [hbb] at hrun
      exact hrun
  · intro p hp
    have h2 := hinv p hp
    exact ⟨List.Nodup.of_map _ h2.2.1, h2.2.1⟩

/-- Fixture for the C5 witness: a two-block straight-line CFG. -/
def c5F : Func :=
  mkFunction (strL "lin") (strL "c5.mir")
    [{ name := strL "bb0", statements := [strL "goto -> bb1;"] },
     { name := strL "bb1", statements := [strL "return;"] }] []

/-- C5 witness: the concrete two-block CFG satisfies both side conditions,
so its enumeration terminates with loop-free paths. -/
theorem claim_c5_witness :
    c5F.basic_blocks ≠ [] ∧ succsResolvable c5F.basic_blocks = true ∧
    ∃ fuel ps, flatten_cfg c5F fuel = some ps ∧
      ∀ p ∈ ps, p.Nodup ∧
        (p.map (blockNameAt c5F.basic_blocks)).Nodup :=
  ⟨by decide, by decide,
   claim_c5_flatten_cfg_terminates c5F (by decide) (by decide)⟩
